import Mathlib

/-!
# Backup / restore archiver (`backup.c`)

A shallow embedding of the archive writer (`backup`, `fpad`, the tail of `main`)
and of the archive reader (`parseHeader`, `restore`) of `backup.c`.

Bytes are natural numbers (an `unsigned char` is a number below 256), a header
block is a list of 512 bytes addressed by offset exactly as the C code addresses
the `Header` struct through `(char*)&header`, and files are lists of bytes.
-/

namespace Archiver

/-! ## C library pieces used by the program -/

/-- C `isspace` in the "C" locale: space, `\t`, `\n`, `\v`, `\f`, `\r`. -/
def isspace (c : Nat) : Bool :=
  c == 32 || c == 9 || c == 10 || c == 11 || c == 12 || c == 13

/-- The macro `S_ISDIR(m)`: `(m & S_IFMT) == S_IFDIR`. -/
def S_ISDIR (m : Nat) : Bool := (m &&& 0o170000) == 0o040000

/-- Conversion of a 64-bit signed argument (`off_t`, `time_t`, `long`) to the
`unsigned int` that `%o` fetches: the low 32 bits. -/
def toU32 (x : Int) : Nat := (x % 4294967296).toNat

/-- The `w` least significant octal digits of `v`, most significant first, as ASCII. -/
def octFixed : Nat → Nat → List Nat
  | 0, _ => []
  | w + 1, v => octFixed w (v / 8) ++ [48 + v % 8]

/-- Number of octal digits of `v` (at least one), counted in at most `fuel` steps. -/
def octLen : Nat → Nat → Nat
  | 0, _ => 0
  | fuel + 1, v => if v < 8 then 1 else octLen fuel (v / 8) + 1

/-- The rendering of `printf("%0Wo", v)` for an `unsigned int` argument: the octal
digits of the low 32 bits of `v` (at most 11 of them), zero-padded on the left to at
least `W` characters. -/
def fmtOct (W v : Nat) : List Nat :=
  octFixed (max W (octLen 11 (v % 4294967296))) (v % 4294967296)

/-- Overwrite the bytes of `blk` from offset `off` on with `bs`. -/
def poke (blk : List Nat) (off : Nat) (bs : List Nat) : List Nat :=
  blk.take off ++ bs ++ blk.drop (off + bs.length)

/-- The call `snprintf(blk + off, n, fmt, ...)` whose full rendering is `s`: at most
`n - 1` characters of `s` are stored, then a NUL; the return value is the length of
the full rendering. -/
def snprintf (blk : List Nat) (off n : Nat) (s : List Nat) : List Nat × Nat :=
  (poke blk off (s.take (n - 1) ++ [0]), s.length)

/-- The call `memset(blk + off, c, n)`. -/
def memset (blk : List Nat) (off c n : Nat) : List Nat :=
  poke blk off (List.replicate n c)

/-- Octal digit test used by `strtol` in base 8. -/
def isOctDigit (c : Nat) : Bool := decide (48 ≤ c) && decide (c ≤ 55)

/-- Accumulate the leading octal digits of `mem` onto `acc`. -/
def octAccum : List Nat → Nat → Nat
  | [], acc => acc
  | c :: cs, acc => if isOctDigit c then octAccum cs (acc * 8 + (c - 48)) else acc

/-- The value `LONG_MAX` of a 64-bit `long`. -/
def LONG_MAX : Int := 9223372036854775807

/-- The value `LONG_MIN` of a 64-bit `long`. -/
def LONG_MIN : Int := -9223372036854775808

/-- The call `strtol(p, NULL, 8)` where `mem` is the memory from `p` on: leading white
space is skipped, one optional sign is read, then octal digits up to the first byte
that is not one; the result saturates at `LONG_MAX` / `LONG_MIN`. -/
def strtol (mem : List Nat) : Int :=
  match mem.dropWhile isspace with
  | 45 :: r => max (-(octAccum r 0 : Int)) LONG_MIN
  | 43 :: r => min (octAccum r 0 : Int) LONG_MAX
  | m => min (octAccum m 0 : Int) LONG_MAX

/-! ## Data model -/

/-- The fields of `struct stat` that the program reads. `st_mode`, `st_uid` and
`st_gid` are 32-bit unsigned, `st_size` and `st_mtime` 64-bit signed. -/
structure Stat where
  st_mode : Nat
  st_uid : Nat
  st_gid : Nat
  st_size : Int
  st_mtime : Int
deriving DecidableEq, Repr

/-- One call of the walker's callback: the path and stat record that `nftw` passes,
and what `fopen(fpath, "rb")` followed by reading to end of file delivers
(`none` when the open fails). -/
structure Visit where
  fpath : List Nat
  sb : Stat
  input : Option (List Nat)
deriving DecidableEq, Repr

/-- The global variables `gl_startDate`, `gl_now`, `gl_pathOffset`. -/
structure Globals where
  gl_startDate : Int
  gl_now : Int
  gl_pathOffset : Nat
deriving DecidableEq, Repr

/-- The mutable state the callback works on: the bytes written so far to the global
stream `archive` (opened with "wb", so the stream position is the length), and the
number of source handles that are open. -/
structure BState where
  archive : List Nat
  openInputs : Nat
deriving DecidableEq, Repr

/-- Offsets of the fields of `struct TarHeader`. -/
def offName : Nat := 0
def offMode : Nat := 100
def offOwner : Nat := 108
def offGroup : Nat := 116
def offSize : Nat := 124
def offModified : Nat := 136
def offChecksum : Nat := 148
def offType : Nat := 156
def offLink : Nat := 157
def offPadding : Nat := 257

/-- The value of `sizeof(Header)`. -/
def sizeofHeader : Nat := 512

/-! ## The archive writer -/

/-- The function `fpad`: `amount` times `fputc(0, file)`. -/
def fpad (file : List Nat) : Nat → List Nat
  | 0 => file
  | amount + 1 => fpad (file ++ [0]) amount

/-- The name that `backup` renders into `header.name`: the path from `gl_pathOffset`
on, with a trailing `/` when the entry is a directory. -/
def renderedName (g : Globals) (v : Visit) : List Nat :=
  if S_ISDIR v.sb.st_mode then v.fpath.drop g.gl_pathOffset ++ [47]
  else v.fpath.drop g.gl_pathOffset

/-- The sum of the bytes of a block, as `backup` and `parseHeader` compute it. -/
def byteSum (blk : List Nat) : Nat := blk.sum

/-- Lines 106-136 of `backup`: the header block built for an entry, or `none` when
`snprintf` reports that the name needed 100 characters or more (the callback then
returns 1). -/
def backupHeader (g : Globals) (v : Visit) : Option (List Nat) :=
  let h := List.replicate sizeofHeader 0
  let h := (snprintf h offMode 8 (fmtOct 6 v.sb.st_mode)).1
  let h := (snprintf h offOwner 8 (fmtOct 6 v.sb.st_uid)).1
  let h := (snprintf h offGroup 8 (fmtOct 6 v.sb.st_gid)).1
  let h := (snprintf h offSize 12 (fmtOct 11 (toU32 v.sb.st_size))).1
  let h := (snprintf h offModified 12 (fmtOct 11 (toU32 v.sb.st_mtime))).1
  let r := snprintf h offName 100 (renderedName g v)
  if r.2 ≥ 100 then none
  else
    let h := poke r.1 offType [if S_ISDIR v.sb.st_mode then 53 else 48]
    let h := memset h offChecksum 32 8
    let checksum := byteSum h
    some (snprintf h offChecksum 8 (fmtOct 6 checksum)).1

/-- The copy loop of `backup` (lines 141-145): while the end-of-file indicator of the
input is clear, `fread` up to 2000 bytes and `fwrite` what was read. `rest` is the
unread part of the input, `eof` its end-of-file indicator, which `fread` sets when it
delivers fewer bytes than asked. `none` when `fuel` iterations were not enough. -/
def copyLoop : Nat → List Nat → Bool → List Nat → Option (List Nat)
  | 0, _, _, _ => none
  | fuel + 1, rest, eof, out =>
    if eof then some out
    else copyLoop fuel (rest.drop 2000) (decide ((rest.take 2000).length < 2000))
      (out ++ rest.take 2000)

/-- Return value used by the model only for a copy loop that ran out of fuel; the
theorem `copyLoop_complete` shows it never occurs. -/
def retLoopBound : Nat := 2

/-- The callback `backup`. Returns the callback's return value and the new state. -/
def backup (g : Globals) (v : Visit) (s : BState) : Nat × BState :=
  if v.sb.st_mtime - g.gl_startDate < 0 ∨
      (v.sb.st_mtime - g.gl_now ≥ 0 ∧ S_ISDIR v.sb.st_mode = false) then
    (0, s)
  else
    match v.input with
    | none => (0, s)
    | some content =>
      match backupHeader g v with
      | none => (1, { s with openInputs := s.openInputs + 1 })
      | some header =>
        let archive := s.archive ++ header
        if S_ISDIR v.sb.st_mode = false then
          match copyLoop (content.length / 2000 + 2) content false archive with
          | none => (retLoopBound, { archive := archive, openInputs := s.openInputs + 1 })
          | some archive =>
            let index := archive.length
            let offset := index % 512
            let archive := if offset ≠ 0 then fpad archive (512 - offset) else archive
            (0, { archive := archive, openInputs := s.openInputs })
        else
          (0, { archive := archive, openInputs := s.openInputs })

/-- The walk `nftw(path, backup, 20, 0)` over the entries the traversal delivers, in
order: it stops at the first call that returns non-zero and returns that value. -/
def nftw (g : Globals) : List Visit → BState → Nat × BState
  | [], s => (0, s)
  | v :: vs, s =>
    if (backup g v s).1 ≠ 0 then backup g v s else nftw g vs (backup g v s).2

/-- The freshly opened archive: empty, with no source handle open. -/
def emptyState : BState := { archive := [], openInputs := 0 }

/-- Exit status of the process. -/
inductive ExitStatus where
  | EXIT_SUCCESS
  | EXIT_FAILURE
deriving DecidableEq, Repr

/-- Lines 421-434 of `main`, for a freshly opened archive: the walk, then either the
1024-byte trailer and success, or `remove(farg)` and failure. The second component is
the archive file left behind (`none` when it was removed). -/
def mainBackup (g : Globals) (visits : List Visit) : ExitStatus × Option (List Nat) :=
  if (nftw g visits emptyState).1 = 0 then
    (ExitStatus.EXIT_SUCCESS, some (fpad (nftw g visits emptyState).2.archive 1024))
  else
    (ExitStatus.EXIT_FAILURE, none)

/-! ## The archive reader -/

/-- One `%ns` conversion of `fscanf` on the unread input `inp`: white space is
skipped; at end of input the conversion fails (`none`); otherwise the longest run of
at most `n` bytes that are not white space is the token (a NUL byte is not white
space). Returns the token and the input left unread. -/
def scanField (n : Nat) (inp : List Nat) : Option (List Nat × List Nat) :=
  match inp.dropWhile isspace with
  | [] => none
  | c :: cs =>
    some (((c :: cs).take n).takeWhile (fun b => !isspace b),
      (c :: cs).drop (((c :: cs).take n).takeWhile (fun b => !isspace b)).length)

/-- The conversions of `fscanf(archive, "%100s%8s%8s%8s%12s%12s%8s%1s", ...)` in order,
each given as (offset of the destination field, maximum width). -/
def headerFields : List (Nat × Nat) :=
  [(offName, 100), (offMode, 8), (offOwner, 8), (offGroup, 8), (offSize, 12),
   (offModified, 12), (offChecksum, 8), (offType, 1)]

/-- The call to `fscanf`: each conversion stores its token followed by a NUL at the
destination; the first conversion that fails ends the call. -/
def fscanf : List (Nat × Nat) → List Nat → List Nat → List Nat
  | [], _, blk => blk
  | (off, n) :: fields, inp, blk =>
    match scanField n inp with
    | none => blk
    | some (tok, rest) => fscanf fields rest (poke blk off (tok ++ [0]))

/-- Conversion of a `long` to `size_t`. -/
def toSizeT (x : Int) : Nat := (x % 18446744073709551616).toNat

/-- Conversion of a `long` to `int`. -/
def toInt32 (x : Int) : Int := (x + 2147483648) % 4294967296 - 2147483648

/-- The function `parseHeader` on the archive bytes: `none` when the checksum test
fails (the process exits), otherwise the header it returns, whose checksum field has
been overwritten with spaces. On return the stream is at `index + 512` with the
end-of-file indicator clear. -/
def parseHeader (archive : List Nat) (index : Nat) : Option (List Nat) :=
  let header := fscanf headerFields (archive.drop index) (List.replicate sizeofHeader 0)
  let check := toSizeT (strtol (header.drop offChecksum))
  let header := memset header offChecksum 32 8
  let sum := byteSum header
  if check ≠ sum then none else some header

/-- The C string stored at the start of `mem`: the bytes before the first NUL. -/
def cstr (mem : List Nat) : List Nat := mem.takeWhile (fun b => b != 0)

/-- The file-system calls that `restore` issues, in the trace of a run. `fopen` stands
for a successful `fopen(name, "wb")`; `fwrite` and `fclose` act on the file opened
last. -/
inductive FsOp where
  | mkdir (name : List Nat) (mode : Nat)
  | chown (name : List Nat) (uid gid : Nat)
  | chmod (name : List Nat) (mode : Nat)
  | utime (name : List Nat) (modtime : Int)
  | fopen (name : List Nat)
  | fwrite (bytes : List Nat)
  | fclose
deriving DecidableEq, Repr

/-- How a run of `restore` ends. -/
inductive Outcome where
  /-- Reached `return 1` (line 209). -/
  | returned1
  /-- The call `exit(EXIT_FAILURE)` in `parseHeader`. -/
  | checksumExit
  /-- The call `exit(EXIT_FAILURE)` after a failed `fopen` (line 233). -/
  | openExit
  /-- The loop was left because `feof(archive)` held; the function ends without
  `return`. -/
  | loopLeft
  /-- A negative count reached `fread` / `fwrite` on the 512-byte buffer. -/
  | undefinedBehaviour
  /-- The fuel of the model ran out. -/
  | outOfFuel
deriving DecidableEq, Repr

/-- State of `restore`: position and end-of-file indicator of the stream `archive`,
the contents of `buffer`, and the file-system calls issued so far. -/
structure RState where
  pos : Nat
  eof : Bool
  buffer : List Nat
  ops : List FsOp
deriving DecidableEq, Repr

/-- The call `fread(buffer, 1, n, archive)`: the bytes available, at most `n`, go to
the start of `buffer`; a short read sets the end-of-file indicator. -/
def fread (archive : List Nat) (n : Nat) (st : RState) : RState :=
  { st with
    pos := st.pos + ((archive.drop st.pos).take n).length
    eof := st.eof || decide (((archive.drop st.pos).take n).length < n)
    buffer := poke st.buffer 0 ((archive.drop st.pos).take n) }

/-- The call `fwrite(buffer, 1, n, file)`. -/
def fwrite (n : Nat) (st : RState) : RState :=
  { st with ops := st.ops ++ [FsOp.fwrite (st.buffer.take n)] }

/-- The loop of lines 236-239: `blocks` times read 512 bytes and write 512 bytes. -/
def copyBlocks (archive : List Nat) : Nat → RState → RState
  | 0, st => st
  | blocks + 1, st => copyBlocks archive blocks (fwrite 512 (fread archive 512 st))

/-- Lines 236-247 of `restore`: copy `blocks` full blocks and then `remainder` bytes
from the archive to the open file, then skip the padding with
`fseek(archive, 512 - remainder, SEEK_CUR)` unless `remainder` is 0. -/
def copyData (archive : List Nat) (blocks remainder : Nat) (st : RState) : RState :=
  if 512 - remainder ≠ 512 then
    { fwrite remainder (fread archive remainder (copyBlocks archive blocks st)) with
      pos := (fwrite remainder (fread archive remainder (copyBlocks archive blocks st))).pos
        + (512 - remainder)
      eof := false }
  else fwrite remainder (fread archive remainder (copyBlocks archive blocks st))

/-- The calls `restore` issues for a directory entry (lines 220-222). -/
def dirOps (name : List Nat) (mode uid gid : Nat) (mtime : Int) : List FsOp :=
  [FsOp.mkdir name mode, FsOp.chown name uid gid, FsOp.utime name mtime]

/-- The calls `restore` issues for a file entry after its data is written (lines 242,
249-251). -/
def fileEndOps (name : List Nat) (mode uid gid : Nat) (mtime : Int) : List FsOp :=
  [FsOp.fclose, FsOp.chown name uid gid, FsOp.chmod name mode, FsOp.utime name mtime]

/-- The loop of `restore` (lines 206-254), `endPos` being the local `end`. -/
def restoreLoop (canCreate : List Nat → Bool) (archive : List Nat) (endPos : Nat) :
    Nat → RState → Outcome × RState
  | 0, st => (Outcome.outOfFuel, st)
  | fuel + 1, st =>
    if st.eof then (Outcome.loopLeft, st)
    else if st.pos ≥ endPos then (Outcome.returned1, st)
    else
      match parseHeader archive st.pos with
      | none => (Outcome.checksumExit, st)
      | some header =>
        let mode := toU32 (strtol (header.drop offMode))
        let uid := toU32 (strtol (header.drop offOwner))
        let gid := toU32 (strtol (header.drop offGroup))
        let mtime := strtol (header.drop offModified)
        let name := cstr header
        if header.getD offType 0 = 53 then
          restoreLoop canCreate archive endPos fuel
            { st with
              pos := st.pos + 512
              eof := false
              ops := st.ops ++ dirOps name mode uid gid mtime }
        else
          let size := strtol (header.drop offSize)
          let blocks := toInt32 (Int.tdiv size 512)
          let remainder := toInt32 (Int.tmod size 512)
          if canCreate name = false then (Outcome.openExit, st)
          else if remainder < 0 then
            (Outcome.undefinedBehaviour,
              { st with pos := st.pos + 512, eof := false, ops := st.ops ++ [FsOp.fopen name] })
          else
            restoreLoop canCreate archive endPos fuel
              { copyData archive blocks.toNat remainder.toNat
                  { st with pos := st.pos + 512, eof := false,
                            ops := st.ops ++ [FsOp.fopen name] } with
                ops := (copyData archive blocks.toNat remainder.toNat
                  { st with pos := st.pos + 512, eof := false,
                            ops := st.ops ++ [FsOp.fopen name] }).ops
                  ++ fileEndOps name mode uid gid mtime }

/-- The function `restore` on an archive file with the given bytes. `canCreate name`
tells whether `fopen(name, "wb")` succeeds, `buffer0` is what the local `buffer` holds
before the first read. The position after the failed or successful
`fseek(archive, -1024, SEEK_END)` is `length - 1024`, or 0 for a shorter file. -/
def restore (canCreate : List Nat → Bool) (archive buffer0 : List Nat) : Outcome × RState :=
  restoreLoop canCreate archive (archive.length - 1024) (archive.length + 1)
    { pos := 0, eof := false, buffer := buffer0, ops := [] }

/-! ## Layout of the header that `backup` builds -/

/-- What `snprintf(field, n, ...)` with full rendering `s` leaves in a field of `n`
bytes that held the byte `x` everywhere: the stored characters, a NUL, then `x`. -/
def sfield (n x : Nat) (s : List Nat) : List Nat :=
  (s.take (n - 1) ++ [0]) ++ List.replicate (n - (s.take (n - 1) ++ [0]).length) x

/-- The type marker `backup` stores: `'5'` for a directory, `'0'` otherwise. -/
def typeMarker (v : Visit) : Nat := if S_ISDIR v.sb.st_mode then 53 else 48

/-- The 512 bytes of the header of an entry, with `ck` standing for the eight bytes of
the checksum field. -/
def headerWith (g : Globals) (v : Visit) (ck : List Nat) : List Nat :=
  sfield 100 0 (renderedName g v) ++
  (sfield 8 0 (fmtOct 6 v.sb.st_mode) ++
  (sfield 8 0 (fmtOct 6 v.sb.st_uid) ++
  (sfield 8 0 (fmtOct 6 v.sb.st_gid) ++
  (sfield 12 0 (fmtOct 11 (toU32 v.sb.st_size)) ++
  (sfield 12 0 (fmtOct 11 (toU32 v.sb.st_mtime)) ++
  (ck ++
  ([typeMarker v] ++ List.replicate 355 0)))))))

/-- The checksum `backup` computes for an entry: the byte sum of the header with the
checksum field holding eight spaces. -/
def entryChecksum (g : Globals) (v : Visit) : Nat :=
  byteSum (headerWith g v (List.replicate 8 32))

/-- Number of zero bytes that bring a stream of length `n` to the next multiple of
512: none when `n` is one already. -/
def padTo512 (n : Nat) : Nat := (512 - n % 512) % 512

/-- The bytes `backup` appends for a regular file with header `hdr` and content `c`
when the archive held `n` bytes before. -/
def fileRecord (n : Nat) (hdr c : List Nat) : List Nat :=
  hdr ++ c ++ List.replicate (padTo512 (n + hdr.length + c.length)) 0

/-! ## Concrete inputs used in the examples -/

/-- Cutoff at the epoch, run start at second 1000, names taken from offset 0. -/
def exGlobals : Globals := { gl_startDate := 0, gl_now := 1000, gl_pathOffset := 0 }

/-- The directory `d`, mode 040755, modified at second 500. -/
def exDir : Visit :=
  { fpath := [100]
    sb := { st_mode := 0o040755, st_uid := 1000, st_gid := 1000, st_size := 4096, st_mtime := 500 }
    input := some [] }

/-- The regular file `d/a.txt` of ten bytes, mode 0100644, modified at second 500. -/
def exFile : Visit :=
  { fpath := [100, 47, 97, 46, 116, 120, 116]
    sb := { st_mode := 0o100644, st_uid := 1000, st_gid := 1000, st_size := 10, st_mtime := 500 }
    input := some [104, 101, 108, 108, 111, 32, 116, 97, 114, 10] }

/-- The file `d/a.txt` when it cannot be opened for reading. -/
def exUnreadable : Visit := { exFile with input := none }

/-- The file `d/a.txt` when it was modified at the second the run started. -/
def exLate : Visit := { exFile with sb := { exFile.sb with st_mtime := 1000 } }

/-- A regular file whose archive-relative name is 100 bytes long. -/
def exLongName : Visit := { exFile with fpath := List.replicate 100 97 }

/-- The file `d/a.txt` owned by user id 8^6 = 262144. -/
def exBigUid : Visit := { exFile with sb := { exFile.sb with st_uid := 262144 } }

/-- A 512-byte block given by its fields: name, mode, owner, group, size, modified,
checksum, the type byte, and zeros from offset 157 on. -/
def blockOf (N M U G S T ck : List Nat) (ty : Nat) : List Nat :=
  N ++ (M ++ (U ++ (G ++ (S ++ (T ++ (ck ++ ty :: List.replicate 355 0))))))

/-- The header block of `d/a.txt`. -/
def exHeader : List Nat :=
  headerWith exGlobals exFile (sfield 8 32 (fmtOct 6 (entryChecksum exGlobals exFile)))

/-- The directory `d` when it was modified at second 1700000000, in a run that started
later. -/
def exRecentDir : Visit := { exDir with sb := { exDir.sb with st_mtime := 1700000000 } }

/-- The header block of `exRecentDir`. -/
def exRecentHeader : List Nat :=
  headerWith exGlobals exRecentDir (sfield 8 32 (fmtOct 6 (entryChecksum exGlobals exRecentDir)))

/-! ## The round trip: what is expected of `restore` -/

/-- Whether a call is `chown`. -/
def FsOp.isChown : FsOp → Bool
  | FsOp.chown _ _ _ => true
  | _ => false

/-- The `fwrite` calls for the first `k` full 512-byte blocks of `data`. -/
def chunkWrites : Nat → List Nat → List FsOp
  | 0, _ => []
  | k + 1, data => FsOp.fwrite (data.take 512) :: chunkWrites k (data.drop 512)

/-- The bytes that the `fwrite` calls of a trace write, in order. -/
def written : List FsOp → List Nat
  | [] => []
  | FsOp.fwrite bytes :: ops => bytes ++ written ops
  | _ :: ops => written ops

/-- The content `backup` reads for an entry (empty when the open fails). -/
def contentOf (v : Visit) : List Nat := v.input.getD []

/-- The `fwrite` calls that write the content `c`: the full blocks, then the rest. -/
def dataWrites (c : List Nat) : List FsOp :=
  chunkWrites (c.length / 512) c ++ [FsOp.fwrite (c.drop (512 * (c.length / 512)))]

/-- The calls, `chown` apart, that recreate an entry: for a directory `mkdir` with its
mode and `utime` with its modification time; for a file `fopen`, the writes of its
content, `fclose`, `chmod` with its mode and `utime` with its modification time. -/
def expectedOps (g : Globals) (v : Visit) : List FsOp :=
  if S_ISDIR v.sb.st_mode then
    [FsOp.mkdir (renderedName g v) v.sb.st_mode, FsOp.utime (renderedName g v) v.sb.st_mtime]
  else
    [FsOp.fopen (renderedName g v)] ++ dataWrites (contentOf v) ++
      [FsOp.fclose, FsOp.chmod (renderedName g v) v.sb.st_mode,
        FsOp.utime (renderedName g v) v.sb.st_mtime]

/-- The header `backup` writes for an entry whose name fits. -/
def headerOf (g : Globals) (v : Visit) : List Nat :=
  headerWith g v (sfield 8 32 (fmtOct 6 (entryChecksum g v)))

/-- The bytes an archived entry occupies in an archive whose records start at
multiples of 512: the header alone for a directory, the header, the content and the
zero padding for a file. -/
def entryRecord (g : Globals) (v : Visit) : List Nat :=
  if S_ISDIR v.sb.st_mode then headerOf g v
  else headerOf g v ++ (contentOf v ++ List.replicate (padTo512 (contentOf v).length) 0)

/-- The owner id `restore` decodes from the header of an entry. -/
def decodedUid (g : Globals) (v : Visit) : Nat :=
  toU32 (strtol ((headerWith g v (List.replicate 8 32)).drop offOwner))

/-- The group id `restore` decodes from the header of an entry. -/
def decodedGid (g : Globals) (v : Visit) : Nat :=
  toU32 (strtol ((headerWith g v (List.replicate 8 32)).drop offGroup))

/-- The calls `restore` issues for an archived entry, `chown` included. -/
def restoreOps (g : Globals) (v : Visit) : List FsOp :=
  if S_ISDIR v.sb.st_mode then
    dirOps (renderedName g v) v.sb.st_mode (decodedUid g v) (decodedGid g v) v.sb.st_mtime
  else
    [FsOp.fopen (renderedName g v)] ++ dataWrites (contentOf v) ++
      fileEndOps (renderedName g v) v.sb.st_mode (decodedUid g v) (decodedGid g v) v.sb.st_mtime

/-- The entries for which the round trip is stated: modified after the cutoff and at a
time in `[0, 2^32)`; mode below 8^7; rendered name shorter than 100 bytes, made of
non-NUL bytes none of which is white space; source can be opened; and, unless a
directory, modified before the run started, of a size equal to the content length and
below 2^32, and the destination can be created. -/
def RoundTrippable (g : Globals) (canCreate : List Nat → Bool) (v : Visit) : Prop :=
  g.gl_startDate < v.sb.st_mtime ∧ 0 ≤ v.sb.st_mtime ∧ v.sb.st_mtime < 4294967296 ∧
  v.sb.st_mode < 8 ^ 7 ∧
  (∀ b ∈ renderedName g v, 0 < b ∧ b < 256 ∧ isspace b = false) ∧
  (renderedName g v).length < 100 ∧
  v.input.isSome = true ∧
  (S_ISDIR v.sb.st_mode = false →
    v.sb.st_mtime < g.gl_now ∧ v.sb.st_size = ((contentOf v).length : Int) ∧
    (contentOf v).length < 4294967296 ∧ canCreate (renderedName g v) = true)

/-! ## Length of the archive -/

/-- Whether the callback archives an entry: it passes the filter, its source can be
opened and its rendered name is shorter than 100 bytes. -/
def isArchived (g : Globals) (v : Visit) : Bool :=
  decide (g.gl_startDate ≤ v.sb.st_mtime) &&
    (decide (v.sb.st_mtime < g.gl_now) || S_ISDIR v.sb.st_mode) &&
    v.input.isSome && decide ((renderedName g v).length < 100)

/-- The number of bytes an entry adds to an archive whose length is a multiple of 512:
nothing when it is not archived, 512 for a directory, and for a file 512 plus the
number of bytes read from it rounded up to a multiple of 512. -/
def recordLength (g : Globals) (v : Visit) : Nat :=
  if isArchived g v = true then
    if S_ISDIR v.sb.st_mode = true then 512
    else 512 + 512 * (((contentOf v).length + 511) / 512)
  else 0

/-! ## The flags of the tree walk -/

/-- The local variable `flags` of `main` in `backup.c` (line 259) and `backupfles.c`
(line 62), and in `listfiles.c` (lines 54-55): `0 | FTW_PHYS`, where `FTW_PHYS` is the
constant of `<ftw.h>`. -/
def mainFlags (FTW_PHYS : Nat) : Nat := 0 ||| FTW_PHYS

/-- The flags argument of the call `nftw(path, backup, 20, 0)` in `backup.c` (line 421). -/
def nftwFlagsArgument : Nat := 0

/-- The flags argument of the call `nftw(path, to_backup, 20, 0)` in `backupfles.c`
(line 130). -/
def backupflesFlagsArgument : Nat := 0

/-- The flags argument of the call `nftw(".", display_info, 20, 0)` in `listfiles.c`
(line 57). -/
def listfilesFlagsArgument : Nat := 0

/-! ## A crafted archive with a file entry of 2^40 bytes -/

/-- The first 148 bytes of a crafted header: name `a`, mode 100644, owner and group
1750 (octal), a size field of twelve digits `200000000000` that runs on into the two
digits `00` at the start of the modified field, so that the size reads as
`20000000000000` (octal), which is 2^40. -/
def exHugeF : List Nat :=
  (97 :: List.replicate 99 0) ++ ([49, 48, 48, 54, 52, 52, 0, 0] ++
    ([48, 48, 49, 55, 53, 48, 0, 0] ++ ([48, 48, 49, 55, 53, 48, 0, 0] ++
    ((50 :: List.replicate 11 48) ++ (48 :: 48 :: List.replicate 10 0)))))

/-- The first seven bytes of the checksum field of the crafted header: the six octal
digits of the checksum and a NUL. -/
def exHugeC : List Nat := octFixed 6 (byteSum exHugeF + (256 + 48)) ++ [0]

/-- The header that `parseHeader` returns for the crafted header. -/
def exHugeP : List Nat := exHugeF ++ (List.replicate 8 32 ++ 48 :: List.replicate 355 0)

/-- The rest of the crafted archive after its header: 2^40 bytes of data for the file
entry (a block of bytes `A` with a space at offset 155, then bytes 7), then the
1024-byte trailer. -/
def exHugeTail : List Nat :=
  List.replicate 148 65 ++ (List.replicate 7 65 ++ 32 :: 65 ::
    (List.replicate 355 65 ++ (List.replicate 1099511627264 7 ++ List.replicate 1024 0)))

/-- The crafted archive: one header, whose checksum is right and whose type is regular
file, 2^40 bytes of data and the trailer. -/
def exHugeArchive : List Nat :=
  exHugeF ++ (exHugeC ++ 32 :: 48 :: (List.replicate 355 0 ++ exHugeTail))

/-- The archive of the single file `d/a.txt`: its header, its ten bytes, 502 bytes of
padding and the 1024-byte trailer. -/
def exFileArchive : List Nat :=
  headerOf exGlobals exFile ++ (contentOf exFile ++ List.replicate (502 + 1024) 0)

/-! ## A name with a space -/

/-- The regular file `a b` of ten bytes, mode 0100644, modified at second 500. -/
def exSpaced : Visit :=
  { fpath := [97, 32, 98]
    sb := { st_mode := 0o100644, st_uid := 1000, st_gid := 1000, st_size := 10, st_mtime := 500 }
    input := some [104, 101, 108, 108, 111, 32, 116, 97, 114, 10] }

/-! ## Basic facts about the library pieces -/

theorem fpad_eq (file : List Nat) (amount : Nat) :
    fpad file amount = file ++ List.replicate amount 0 := by
  induction amount generalizing file with
  | zero => simp [fpad]
  | succ n ih =>
    rw [fpad, ih, List.append_assoc]
    congr 1

theorem copyLoop_eof (fuel : Nat) (rest out : List Nat) :
    copyLoop (fuel + 1) rest true out = some out := by
  simp [copyLoop]

theorem copyLoop_fuel (fuel : Nat) : ∀ (rest out : List Nat),
    rest.length / 2000 + 2 ≤ fuel → copyLoop fuel rest false out = some (out ++ rest) := by
  induction fuel with
  | zero => intro rest out h; omega
  | succ n ih =>
    intro rest out h
    rw [copyLoop]
    simp only [Bool.false_eq_true, if_false]
    by_cases hlt : rest.length < 2000
    · have h1 : rest.take 2000 = rest := List.take_of_length_le (by omega)
      have h2 : rest.drop 2000 = [] := List.drop_of_length_le (by omega)
      rw [h1, h2]
      have : decide (rest.length < 2000) = true := by simpa using hlt
      rw [this]
      obtain ⟨m, rfl⟩ : ∃ m, n = m + 1 := ⟨n - 1, by omega⟩
      rw [copyLoop_eof]
    · have hl : (rest.take 2000).length = 2000 := by
        rw [List.length_take]; omega
      have : decide ((rest.take 2000).length < 2000) = false := by
        rw [hl]; decide
      rw [this, ih]
      · rw [List.append_assoc, List.take_append_drop]
      · rw [List.length_drop]
        have : (rest.length - 2000) / 2000 + 1 = rest.length / 2000 := by
          have h3 : rest.length = (rest.length - 2000) + 2000 := by omega
          conv_rhs => rw [h3]
          rw [Nat.add_div_right _ (by norm_num : 0 < 2000)]
        omega

theorem copyLoop_complete (content out : List Nat) :
    copyLoop (content.length / 2000 + 2) content false out = some (out ++ content) :=
  copyLoop_fuel _ content out (le_refl _)

theorem poke_length (blk bs : List Nat) (off : Nat) (h : off + bs.length ≤ blk.length) :
    (poke blk off bs).length = blk.length := by
  simp only [poke, List.length_append, List.length_take, List.length_drop]
  omega

theorem poke_fld (a c bs : List Nat) (w x off : Nat) (h1 : a.length = off)
    (h : bs.length ≤ w) :
    poke (a ++ (List.replicate w x ++ c)) off bs
      = a ++ ((bs ++ List.replicate (w - bs.length) x) ++ c) := by
  subst h1
  unfold poke
  rw [List.take_left', List.drop_append, List.drop_append_of_le_length (by simpa using h),
    List.drop_replicate]
  simp [List.append_assoc]
  rfl

theorem sfield_length (n x : Nat) (s : List Nat) (hn : 1 ≤ n) :
    (sfield n x s).length = n := by
  simp only [sfield, List.length_append, List.length_take, List.length_replicate,
    List.length_singleton]
  omega

theorem poke_append_left (p blk bs : List Nat) (off n : Nat) (hp : p.length = n)
    (h : n ≤ off) : poke (p ++ blk) off bs = p ++ poke blk (off - n) bs := by
  subst hp
  unfold poke
  rw [List.take_append_eq_append_take, List.take_of_length_le h, List.drop_append_eq_append_drop,
    List.drop_of_length_le (by omega),
    show off + bs.length - p.length = off - p.length + bs.length by omega]
  simp only [List.nil_append, List.append_assoc]

theorem poke_skip_sfield (n x : Nat) (s blk bs : List Nat) (off : Nat) (hn : 1 ≤ n)
    (h : n ≤ off) : poke (sfield n x s ++ blk) off bs = sfield n x s ++ poke blk (off - n) bs :=
  poke_append_left _ _ _ off n (sfield_length n x s hn) h

theorem poke_skip_replicate (n x : Nat) (blk bs : List Nat) (off : Nat) (h : n ≤ off) :
    poke (List.replicate n x ++ blk) off bs = List.replicate n x ++ poke blk (off - n) bs :=
  poke_append_left _ _ _ off n (List.length_replicate n x) h

theorem poke_zero_fld (c bs : List Nat) (w x : Nat) (h : bs.length ≤ w) :
    poke (List.replicate w x ++ c) 0 bs = (bs ++ List.replicate (w - bs.length) x) ++ c := by
  have := poke_fld [] c bs w x 0 rfl h
  simpa using this

theorem poke_zero_sfield (c s : List Nat) (n x : Nat) :
    poke (List.replicate (n + 1) x ++ c) 0 (s.take n ++ [0]) = sfield (n + 1) x s ++ c := by
  rw [poke_zero_fld]
  · rfl
  · simp only [List.length_append, List.length_take, List.length_singleton]; omega

theorem poke_zero_full (c bs : List Nat) (w x : Nat) (h : bs.length = w) :
    poke (List.replicate w x ++ c) 0 bs = bs ++ c := by
  rw [poke_zero_fld _ _ _ _ (by omega), h]
  simp

theorem headerWith_pokes (mode uid gid size mtime name : List Nat) (ty : Nat) :
    poke (poke (poke (poke (poke (poke (poke (poke (List.replicate sizeofHeader 0)
      100 (mode.take (8 - 1) ++ [0]))
      108 (uid.take (8 - 1) ++ [0]))
      116 (gid.take (8 - 1) ++ [0]))
      124 (size.take (12 - 1) ++ [0]))
      136 (mtime.take (12 - 1) ++ [0]))
      0 (name.take (100 - 1) ++ [0]))
      156 [ty])
      148 (List.replicate 8 32)
    = sfield 100 0 name ++ (sfield 8 0 mode ++ (sfield 8 0 uid ++ (sfield 8 0 gid ++
      (sfield 12 0 size ++ (sfield 12 0 mtime ++ (List.replicate 8 32 ++
      ([ty] ++ List.replicate 355 0))))))) := by
  have hz : List.replicate sizeofHeader 0
      = List.replicate 100 0 ++ (List.replicate 8 0 ++ (List.replicate 8 0 ++
        (List.replicate 8 0 ++ (List.replicate 12 0 ++ (List.replicate 12 0 ++
        (List.replicate 8 0 ++ (List.replicate 1 0 ++ List.replicate 355 (0:Nat)))))))) := by
    rw [sizeofHeader]; simp only [List.append_replicate_replicate]
  rw [hz]
  simp (disch := norm_num) only [poke_skip_sfield, poke_skip_replicate, poke_zero_sfield,
    poke_zero_full, Nat.reduceSub, Nat.reduceAdd]

theorem backupHeader_none (g : Globals) (v : Visit) (h : 100 ≤ (renderedName g v).length) :
    backupHeader g v = none := by
  unfold backupHeader
  simp only [snprintf]
  rw [if_pos (by simpa using h)]

theorem backupHeader_eq (g : Globals) (v : Visit) (h : (renderedName g v).length < 100) :
    backupHeader g v
      = some (headerWith g v (sfield 8 32 (fmtOct 6 (entryChecksum g v)))) := by
  unfold backupHeader
  simp only [snprintf, memset, offMode, offOwner, offGroup, offSize, offModified, offName,
    offType, offChecksum]
  rw [if_neg (by omega), headerWith_pokes]
  have e : (if S_ISDIR v.sb.st_mode = true then 53 else 48) = typeMarker v := rfl
  rw [e]
  have e2 : byteSum (sfield 100 0 (renderedName g v) ++
      (sfield 8 0 (fmtOct 6 v.sb.st_mode) ++
      (sfield 8 0 (fmtOct 6 v.sb.st_uid) ++
      (sfield 8 0 (fmtOct 6 v.sb.st_gid) ++
      (sfield 12 0 (fmtOct 11 (toU32 v.sb.st_size)) ++
      (sfield 12 0 (fmtOct 11 (toU32 v.sb.st_mtime)) ++
      (List.replicate 8 32 ++
      ([typeMarker v] ++ List.replicate 355 0)))))))) = entryChecksum g v := rfl
  rw [e2]
  unfold headerWith
  simp (disch := norm_num) only [poke_skip_sfield, poke_skip_replicate, poke_zero_sfield,
    poke_zero_full, Nat.reduceSub, Nat.reduceAdd]

theorem headerWith_length (g : Globals) (v : Visit) (ck : List Nat) (hck : ck.length = 8) :
    (headerWith g v ck).length = 512 := by
  unfold headerWith
  simp only [List.length_append, sfield_length _ _ _ (by norm_num : 1 ≤ 100),
    sfield_length _ _ _ (by norm_num : 1 ≤ 8), sfield_length _ _ _ (by norm_num : 1 ≤ 12),
    List.length_replicate, List.length_singleton, hck]

theorem backupHeader_length (g : Globals) (v : Visit) (hdr : List Nat)
    (h : backupHeader g v = some hdr) : hdr.length = 512 := by
  by_cases hl : (renderedName g v).length < 100
  · rw [backupHeader_eq g v hl] at h
    cases h
    exact headerWith_length g v _ (sfield_length _ _ _ (by norm_num))
  · rw [backupHeader_none g v (by omega)] at h
    cases h

/-! ## The exit paths of the callback -/

theorem backup_filtered (g : Globals) (v : Visit) (s : BState)
    (h : v.sb.st_mtime < g.gl_startDate ∨
      (g.gl_now ≤ v.sb.st_mtime ∧ S_ISDIR v.sb.st_mode = false)) :
    backup g v s = (0, s) := by
  unfold backup
  rw [if_pos]
  rcases h with h | ⟨h1, h2⟩
  · left; omega
  · right; exact ⟨by omega, h2⟩

theorem backup_skipped (g : Globals) (v : Visit) (s : BState) (h : v.input = none) :
    backup g v s = (0, s) := by
  unfold backup
  split
  · rfl
  · rw [h]

theorem backup_rejected (g : Globals) (v : Visit) (s : BState) (c : List Nat)
    (hcut : g.gl_startDate ≤ v.sb.st_mtime)
    (hnow : v.sb.st_mtime < g.gl_now ∨ S_ISDIR v.sb.st_mode = true)
    (hopen : v.input = some c) (hlen : 100 ≤ (renderedName g v).length) :
    backup g v s = (1, { s with openInputs := s.openInputs + 1 }) := by
  unfold backup
  rw [if_neg, hopen, backupHeader_none g v hlen]
  rintro (h | ⟨h1, h2⟩)
  · omega
  · rcases hnow with h3 | h3
    · omega
    · rw [h3] at h2; cases h2

theorem backup_directory (g : Globals) (v : Visit) (s : BState) (c hdr : List Nat)
    (hcut : g.gl_startDate ≤ v.sb.st_mtime) (hdir : S_ISDIR v.sb.st_mode = true)
    (hopen : v.input = some c) (hhdr : backupHeader g v = some hdr) :
    backup g v s = (0, { archive := s.archive ++ hdr, openInputs := s.openInputs }) := by
  unfold backup
  rw [if_neg, hopen, hhdr]
  · simp only [hdir, Bool.true_eq_false, if_false]
  · rintro (h | ⟨_, h2⟩)
    · omega
    · rw [hdir] at h2; cases h2

theorem backup_file (g : Globals) (v : Visit) (s : BState) (c hdr : List Nat)
    (hcut : g.gl_startDate ≤ v.sb.st_mtime) (hnow : v.sb.st_mtime < g.gl_now)
    (hfile : S_ISDIR v.sb.st_mode = false)
    (hopen : v.input = some c) (hhdr : backupHeader g v = some hdr) :
    backup g v s = (0, { archive := s.archive ++ fileRecord s.archive.length hdr c,
                         openInputs := s.openInputs }) := by
  unfold backup
  rw [if_neg, hopen, hhdr]
  · simp only [hfile, if_true, copyLoop_complete]
    congr 2
    have hl : (s.archive ++ hdr ++ c).length = s.archive.length + hdr.length + c.length := by
      simp only [List.length_append]
    unfold fileRecord padTo512
    rw [hl]
    by_cases h0 : (s.archive.length + hdr.length + c.length) % 512 = 0
    · rw [if_neg (by simpa using h0), h0]; simp
    · rw [if_pos (by simpa using h0), fpad_eq]
      have := Nat.mod_lt (s.archive.length + hdr.length + c.length) (by norm_num : 0 < 512)
      rw [show (512 - (s.archive.length + hdr.length + c.length) % 512) % 512
        = 512 - (s.archive.length + hdr.length + c.length) % 512 by omega]
      simp only [List.append_assoc]
  · rintro (h | ⟨h1, _⟩) <;> omega

/-! ## Octal rendering and reading back -/

theorem octFixed_length (w v : Nat) : (octFixed w v).length = w := by
  induction w generalizing v with
  | zero => rfl
  | succ n ih => simp [octFixed, ih]

theorem octFixed_digit (w v d : Nat) (h : d ∈ octFixed w v) : 48 ≤ d ∧ d ≤ 55 := by
  induction w generalizing v with
  | zero => simp [octFixed] at h
  | succ n ih =>
    simp only [octFixed, List.mem_append, List.mem_singleton] at h
    rcases h with h | h
    · exact ih _ h
    · have := Nat.mod_lt v (by norm_num : 0 < 8)
      omega

theorem octAccum_octFixed (w : Nat) : ∀ (v acc : Nat) (rest : List Nat),
    octAccum (octFixed w v ++ rest) acc = octAccum rest (acc * 8 ^ w + v % 8 ^ w) := by
  induction w with
  | zero => intro v acc rest; simp [octFixed, Nat.mod_one]
  | succ n ih =>
    intro v acc rest
    rw [octFixed, List.append_assoc, ih]
    have hd : isOctDigit (48 + v % 8) = true := by
      have := Nat.mod_lt v (by norm_num : 0 < 8)
      simp only [isOctDigit, Bool.and_eq_true, decide_eq_true_eq]
      omega
    simp only [List.singleton_append, octAccum, hd, if_true]
    congr 1
    have e : v % 8 ^ (n + 1) = 8 * (v / 8 % 8 ^ n) + v % 8 := by
      rw [pow_succ, Nat.mul_comm (8 ^ n) 8, Nat.mod_mul]
      omega
    rw [e, pow_succ]
    have : 48 + v % 8 - 48 = v % 8 := by omega
    rw [this]
    ring

theorem octLen_le (fuel : Nat) : ∀ (k v : Nat), 1 ≤ k → v < 8 ^ k → octLen fuel v ≤ k := by
  induction fuel with
  | zero => intro k v _ _; simp [octLen]
  | succ n ih =>
    intro k v hk hv
    rw [octLen]
    split
    · exact hk
    · rename_i h8
      obtain ⟨j, rfl⟩ : ∃ j, k = j + 1 := ⟨k - 1, by omega⟩
      have hj : 1 ≤ j := by
        rcases Nat.eq_zero_or_pos j with h0 | h0
        · subst h0; simp at hv; omega
        · exact h0
      have : v / 8 < 8 ^ j := by
        rw [Nat.div_lt_iff_lt_mul (by norm_num)]
        rw [pow_succ] at hv; exact hv
      have := ih j (v / 8) hj this
      omega

theorem octLen_ge (fuel : Nat) : ∀ (k v : Nat), k ≤ fuel → 8 ^ k ≤ v → k + 1 ≤ octLen (fuel + 1) v := by
  induction fuel with
  | zero => intro k v hk _; rw [octLen]; split <;> omega
  | succ n ih =>
    intro k v hk hv
    rw [octLen]
    rcases Nat.eq_zero_or_pos k with h0 | h0
    · subst h0; split <;> omega
    · obtain ⟨j, rfl⟩ : ∃ j, k = j + 1 := ⟨k - 1, by omega⟩
      have h8 : ¬ v < 8 := by
        have : 8 ^ 1 ≤ 8 ^ (j + 1) := Nat.pow_le_pow_right (by norm_num) (by omega)
        omega
      rw [if_neg h8]
      have : 8 ^ j ≤ v / 8 := by
        rw [Nat.le_div_iff_mul_le (by norm_num)]
        rw [pow_succ] at hv; exact hv
      have := ih j (v / 8) (by omega) this
      omega

theorem fmtOct_of_lt (W v : Nat) (hW : 1 ≤ W) (hv : v < 8 ^ W)
    (h32 : v < 4294967296) : fmtOct W v = octFixed W v := by
  unfold fmtOct
  rw [Nat.mod_eq_of_lt h32, max_eq_left (octLen_le 11 W v hW hv)]

theorem fmtOct_seven (v : Nat) (hlo : 8 ^ 6 ≤ v) (hv : v < 8 ^ 7) :
    fmtOct 6 v = octFixed 7 v := by
  unfold fmtOct
  have h32 : v < 4294967296 := by
    have : (8:Nat) ^ 7 = 2097152 := by norm_num
    omega
  rw [Nat.mod_eq_of_lt h32]
  have h1 := octLen_le 11 7 v (by norm_num) hv
  have h2 : 6 + 1 ≤ octLen 11 v := octLen_ge 10 6 v (by norm_num) hlo
  rw [max_eq_right (by omega)]
  congr 1
  omega

theorem fmtOct_length_ge (W v : Nat) : W ≤ (fmtOct W v).length := by
  unfold fmtOct
  rw [octFixed_length]
  exact le_max_left _ _

theorem fmtOct_digit (W v d : Nat) (h : d ∈ fmtOct W v) : 48 ≤ d ∧ d ≤ 55 :=
  octFixed_digit _ _ d h

theorem strtol_digits (ds rest : List Nat) (hne : ds ≠ [])
    (hd : ∀ d ∈ ds, 48 ≤ d ∧ d ≤ 55) :
    strtol (ds ++ rest) = min (octAccum (ds ++ rest) 0 : Int) LONG_MAX := by
  obtain ⟨d, tl, rfl⟩ := List.exists_cons_of_ne_nil hne
  have hd0 := hd d (List.mem_cons_self _ _)
  have hsp : isspace d = false := by
    simp only [isspace, Bool.or_eq_false_iff, beq_eq_false_iff_ne]
    omega
  unfold strtol
  simp only [List.cons_append, List.dropWhile_cons, hsp, Bool.false_eq_true, if_false]
  split
  · rename_i heq; injection heq with h1 _; omega
  · rename_i heq; injection heq with h1 _; omega
  · rfl

theorem strtol_octFixed (w v : Nat) (rest : List Nat) (hw : 1 ≤ w) (hv : v < 8 ^ w)
    (hmax : (v : Int) ≤ LONG_MAX) : strtol (octFixed w v ++ 0 :: rest) = v := by
  rw [strtol_digits _ _ _ (octFixed_digit w v), octAccum_octFixed]
  · simp only [octAccum, isOctDigit]
    simp only [Nat.mod_eq_of_lt hv]
    simpa using hmax
  · intro h
    have := octFixed_length w v
    rw [h] at this
    simp at this
    omega

/-! ## Claims on the archive writer -/

theorem padTo512_lt (n : Nat) : padTo512 n < 512 := Nat.mod_lt _ (by norm_num)

theorem padTo512_aligned (n : Nat) : (n + padTo512 n) % 512 = 0 := by
  unfold padTo512
  have := Nat.mod_lt n (by norm_num : 0 < 512)
  omega

theorem fileRecord_length (n : Nat) (hdr c : List Nat) :
    (fileRecord n hdr c).length = hdr.length + c.length + padTo512 (n + hdr.length + c.length) := by
  simp only [fileRecord, List.length_append, List.length_replicate]

/-- The archive never shrinks, and an entry that is archived adds at least its
512-byte header. -/
theorem backup_archive_grows (g : Globals) (v : Visit) (s : BState) (c : List Nat)
    (hcut : g.gl_startDate ≤ v.sb.st_mtime)
    (hnow : v.sb.st_mtime < g.gl_now ∨ S_ISDIR v.sb.st_mode = true)
    (hopen : v.input = some c) (hlen : (renderedName g v).length < 100) :
    (backup g v s).1 = 0 ∧
      s.archive.length + 512 ≤ (backup g v s).2.archive.length := by
  have hh := backupHeader_eq g v hlen
  have hl := backupHeader_length g v _ hh
  cases hd : S_ISDIR v.sb.st_mode
  · have hnow' : v.sb.st_mtime < g.gl_now := by
      rcases hnow with h | h
      · exact h
      · rw [hd] at h; cases h
    rw [backup_file g v s c _ hcut hnow' hd hopen hh]
    refine ⟨rfl, ?_⟩
    simp only [List.length_append, fileRecord_length, hl]
    omega
  · rw [backup_directory g v s c _ hcut hd hopen hh]
    refine ⟨rfl, ?_⟩
    simp only [List.length_append, hl]
    omega

/-- C3 (as amended): for every entry whose source can be opened and every pair of
timestamps, the callback excludes the entry (appends nothing and returns 0) exactly
when `mtime < cutoff` or (`mtime ≥ run-start` and the entry is not a directory). A
non-directory with `mtime ≥ run-start` is never archived, and a directory with
`mtime ≥ run-start` and `mtime ≥ cutoff` is not excluded. -/
theorem C3_filter_policy (g : Globals) (v : Visit) (s : BState) (c : List Nat)
    (hopen : v.input = some c) :
    (((backup g v s).2.archive = s.archive ∧ (backup g v s).1 = 0) ↔
      (v.sb.st_mtime < g.gl_startDate ∨
        (g.gl_now ≤ v.sb.st_mtime ∧ S_ISDIR v.sb.st_mode = false))) ∧
    ((S_ISDIR v.sb.st_mode = false ∧ g.gl_now ≤ v.sb.st_mtime) → backup g v s = (0, s)) ∧
    ((S_ISDIR v.sb.st_mode = true ∧ g.gl_now ≤ v.sb.st_mtime ∧
        g.gl_startDate ≤ v.sb.st_mtime) →
      ¬ ((backup g v s).2.archive = s.archive ∧ (backup g v s).1 = 0)) := by
  have key : ((backup g v s).2.archive = s.archive ∧ (backup g v s).1 = 0) ↔
      (v.sb.st_mtime < g.gl_startDate ∨
        (g.gl_now ≤ v.sb.st_mtime ∧ S_ISDIR v.sb.st_mode = false)) := by
    constructor
    · rintro ⟨ha, hr⟩
      by_contra hno
      have hcut : g.gl_startDate ≤ v.sb.st_mtime := by
        by_contra h; exact hno (Or.inl (by omega))
      have hnow : v.sb.st_mtime < g.gl_now ∨ S_ISDIR v.sb.st_mode = true := by
        by_contra h
        push_neg at h
        exact hno (Or.inr ⟨by omega, by simpa using h.2⟩)
      by_cases hlen : (renderedName g v).length < 100
      · have := (backup_archive_grows g v s c hcut hnow hopen hlen).2
        rw [ha] at this
        omega
      · rw [backup_rejected g v s c hcut hnow hopen (by omega)] at hr
        simp at hr
    · intro h
      rw [backup_filtered g v s h]
      exact ⟨rfl, rfl⟩
  refine ⟨key, ?_, ?_⟩
  · rintro ⟨hf, hn⟩
    exact backup_filtered g v s (Or.inr ⟨hn, hf⟩)
  · rintro ⟨hd, hn, hc⟩ hex
    rcases key.mp hex with h | ⟨_, h⟩
    · omega
    · rw [hd] at h; cases h

/-- C3 (as stated) fails: `d/a.txt`, modified between cutoff and run start, cannot be
opened; the callback appends nothing and returns 0 although neither filter condition
holds. -/
theorem C3_counterexample :
    ¬ (((backup exGlobals exUnreadable emptyState).2.archive = emptyState.archive ∧
        (backup exGlobals exUnreadable emptyState).1 = 0) ↔
      (exUnreadable.sb.st_mtime < exGlobals.gl_startDate ∨
        (exGlobals.gl_now ≤ exUnreadable.sb.st_mtime ∧
          S_ISDIR exUnreadable.sb.st_mode = false))) := by
  decide

theorem C3_filter_policy_witness :
    exLate.input = some [104, 101, 108, 108, 111, 32, 116, 97, 114, 10] ∧
    (((backup exGlobals exLate emptyState).2.archive = emptyState.archive ∧
        (backup exGlobals exLate emptyState).1 = 0) ↔
      (exLate.sb.st_mtime < exGlobals.gl_startDate ∨
        (exGlobals.gl_now ≤ exLate.sb.st_mtime ∧ S_ISDIR exLate.sb.st_mode = false))) :=
  ⟨rfl, (C3_filter_policy exGlobals exLate emptyState _ rfl).1⟩

/-- An entry that reaches the header stage has its 512-byte header appended. -/
theorem backup_appends_header (g : Globals) (v : Visit) (s : BState) (c : List Nat)
    (hcut : g.gl_startDate ≤ v.sb.st_mtime)
    (hnow : v.sb.st_mtime < g.gl_now ∨ S_ISDIR v.sb.st_mode = true)
    (hopen : v.input = some c) (hlen : (renderedName g v).length < 100) :
    ∃ hdr rest, backupHeader g v = some hdr ∧ hdr.length = 512 ∧
      (backup g v s).2.archive = s.archive ++ hdr ++ rest := by
  have hh := backupHeader_eq g v hlen
  have hl := backupHeader_length g v _ hh
  cases hd : S_ISDIR v.sb.st_mode
  · have hnow' : v.sb.st_mtime < g.gl_now := by
      rcases hnow with h | h
      · exact h
      · rw [hd] at h; cases h
    refine ⟨_, c ++ List.replicate (padTo512 (s.archive.length + 512 + c.length)) 0, hh, hl, ?_⟩
    rw [backup_file g v s c _ hcut hnow' hd hopen hh]
    simp only [fileRecord, hl, List.append_assoc]
  · refine ⟨_, [], hh, hl, ?_⟩
    rw [backup_directory g v s c _ hcut hd hopen hh]
    simp

/-- C4 (as amended): an entry modified strictly before the cutoff adds nothing to the
archive; an entry modified at or after the cutoff that is a directory or was modified
before the run started, whose source can be opened and whose rendered name is shorter
than 100 bytes, has its 512-byte header appended to the archive. -/
theorem C4_date_filtering (g : Globals) (v : Visit) (s : BState) :
    (v.sb.st_mtime < g.gl_startDate → backup g v s = (0, s)) ∧
    (∀ c, g.gl_startDate ≤ v.sb.st_mtime →
      (v.sb.st_mtime < g.gl_now ∨ S_ISDIR v.sb.st_mode = true) →
      v.input = some c → (renderedName g v).length < 100 →
      ∃ hdr rest, backupHeader g v = some hdr ∧ hdr.length = 512 ∧
        (backup g v s).2.archive = s.archive ++ hdr ++ rest) :=
  ⟨fun h => backup_filtered g v s (Or.inl h),
    fun c hcut hnow hopen hlen => backup_appends_header g v s c hcut hnow hopen hlen⟩

/-- C4 (as stated) fails: `d/a.txt` modified at the second the run started is at or
after the cutoff, yet the callback appends nothing and the finished archive is the
bare trailer. -/
theorem C4_counterexample :
    exGlobals.gl_startDate ≤ exLate.sb.st_mtime ∧
    backup exGlobals exLate emptyState = (0, emptyState) ∧
    mainBackup exGlobals [exLate] = (ExitStatus.EXIT_SUCCESS, some (List.replicate 1024 0)) := by
  refine ⟨by decide, by decide, ?_⟩
  decide!

theorem C4_date_filtering_witness :
    ∃ hdr rest, backupHeader exGlobals exFile = some hdr ∧ hdr.length = 512 ∧
      (backup exGlobals exFile emptyState).2.archive = emptyState.archive ++ hdr ++ rest :=
  (C4_date_filtering exGlobals exFile emptyState).2 _ (by decide) (Or.inl (by decide)) rfl
    (by decide)

/-! ## Reading the fields of a header at their offsets -/

theorem drop_skip (a blk : List Nat) (off n : Nat) (ha : a.length = n) (h : n ≤ off) :
    (a ++ blk).drop off = blk.drop (off - n) := by
  subst ha
  rw [List.drop_append_eq_append_drop, List.drop_of_length_le h, List.nil_append]

theorem drop_skip_sfield (n x : Nat) (s blk : List Nat) (off : Nat) (hn : 1 ≤ n) (h : n ≤ off) :
    (sfield n x s ++ blk).drop off = blk.drop (off - n) :=
  drop_skip _ _ off n (sfield_length n x s hn) h

theorem take_exact (a blk : List Nat) (n : Nat) (ha : a.length = n) :
    (a ++ blk).take n = a := by
  subst ha
  exact List.take_left' rfl

theorem take_sfield (n x : Nat) (s blk : List Nat) (hn : 1 ≤ n) :
    (sfield n x s ++ blk).take n = sfield n x s :=
  take_exact _ _ n (sfield_length n x s hn)

theorem headerWith_take_name (g : Globals) (v : Visit) (ck : List Nat) :
    (headerWith g v ck).take 100 = sfield 100 0 (renderedName g v) := by
  unfold headerWith
  exact take_sfield 100 0 _ _ (by norm_num)

theorem headerWith_drop_mode (g : Globals) (v : Visit) (ck : List Nat) :
    (headerWith g v ck).drop 100 = sfield 8 0 (fmtOct 6 v.sb.st_mode) ++
      (sfield 8 0 (fmtOct 6 v.sb.st_uid) ++ (sfield 8 0 (fmtOct 6 v.sb.st_gid) ++
      (sfield 12 0 (fmtOct 11 (toU32 v.sb.st_size)) ++
      (sfield 12 0 (fmtOct 11 (toU32 v.sb.st_mtime)) ++
      (ck ++ ([typeMarker v] ++ List.replicate 355 0)))))) := by
  unfold headerWith
  simp (disch := norm_num) only [drop_skip_sfield, Nat.reduceSub, List.drop_zero]

theorem headerWith_drop_owner (g : Globals) (v : Visit) (ck : List Nat) :
    (headerWith g v ck).drop 108 =
      sfield 8 0 (fmtOct 6 v.sb.st_uid) ++ (sfield 8 0 (fmtOct 6 v.sb.st_gid) ++
      (sfield 12 0 (fmtOct 11 (toU32 v.sb.st_size)) ++
      (sfield 12 0 (fmtOct 11 (toU32 v.sb.st_mtime)) ++
      (ck ++ ([typeMarker v] ++ List.replicate 355 0))))) := by
  unfold headerWith
  simp (disch := norm_num) only [drop_skip_sfield, Nat.reduceSub, List.drop_zero]

theorem headerWith_drop_group (g : Globals) (v : Visit) (ck : List Nat) :
    (headerWith g v ck).drop 116 =
      sfield 8 0 (fmtOct 6 v.sb.st_gid) ++
      (sfield 12 0 (fmtOct 11 (toU32 v.sb.st_size)) ++
      (sfield 12 0 (fmtOct 11 (toU32 v.sb.st_mtime)) ++
      (ck ++ ([typeMarker v] ++ List.replicate 355 0)))) := by
  unfold headerWith
  simp (disch := norm_num) only [drop_skip_sfield, Nat.reduceSub, List.drop_zero]

theorem headerWith_drop_size (g : Globals) (v : Visit) (ck : List Nat) :
    (headerWith g v ck).drop 124 =
      sfield 12 0 (fmtOct 11 (toU32 v.sb.st_size)) ++
      (sfield 12 0 (fmtOct 11 (toU32 v.sb.st_mtime)) ++
      (ck ++ ([typeMarker v] ++ List.replicate 355 0))) := by
  unfold headerWith
  simp (disch := norm_num) only [drop_skip_sfield, Nat.reduceSub, List.drop_zero]

theorem headerWith_drop_modified (g : Globals) (v : Visit) (ck : List Nat) :
    (headerWith g v ck).drop 136 =
      sfield 12 0 (fmtOct 11 (toU32 v.sb.st_mtime)) ++
      (ck ++ ([typeMarker v] ++ List.replicate 355 0)) := by
  unfold headerWith
  simp (disch := norm_num) only [drop_skip_sfield, Nat.reduceSub, List.drop_zero]

theorem headerWith_drop_checksum (g : Globals) (v : Visit) (ck : List Nat) :
    (headerWith g v ck).drop 148 = ck ++ ([typeMarker v] ++ List.replicate 355 0) := by
  unfold headerWith
  simp (disch := norm_num) only [drop_skip_sfield, Nat.reduceSub, List.drop_zero]

theorem headerWith_drop_type (g : Globals) (v : Visit) (ck : List Nat) (hck : ck.length = 8) :
    (headerWith g v ck).drop 156 = [typeMarker v] ++ List.replicate 355 0 := by
  rw [show 156 = 148 + 8 from rfl, ← List.drop_drop, headerWith_drop_checksum,
    drop_skip ck _ 8 8 hck (le_refl _)]
  rfl

theorem headerWith_drop_link (g : Globals) (v : Visit) (ck : List Nat) (hck : ck.length = 8) :
    (headerWith g v ck).drop 157 = List.replicate 355 0 := by
  rw [show 157 = 156 + 1 from rfl, ← List.drop_drop, headerWith_drop_type g v ck hck]
  rfl

theorem headerWith_memset (g : Globals) (v : Visit) (ck : List Nat) (hck : ck.length = 8) :
    memset (headerWith g v ck) offChecksum 32 8 = headerWith g v (List.replicate 8 32) := by
  unfold headerWith memset offChecksum
  simp (disch := norm_num) only [poke_skip_sfield, Nat.reduceSub]
  congr 6
  unfold poke
  simp only [List.take_zero, List.nil_append, List.length_replicate, Nat.zero_add]
  rw [drop_skip ck _ 8 8 hck (le_refl _)]
  simp only [Nat.sub_self, List.drop_zero, List.append_assoc]

theorem sfield_short (n x : Nat) (s : List Nat) (h : s.length < n) :
    sfield n x s = s ++ 0 :: List.replicate (n - (s.length + 1)) x := by
  unfold sfield
  rw [List.take_of_length_le (by omega)]
  simp [List.append_assoc]

theorem sfield_name (s : List Nat) (h : s.length < 100) :
    sfield 100 0 s = s ++ List.replicate (100 - s.length) 0 := by
  rw [sfield_short 100 0 s h]
  congr 1
  rw [show 100 - s.length = (100 - (s.length + 1)) + 1 by omega, List.replicate_succ]

theorem renderedName_eq (g : Globals) (v : Visit) :
    renderedName g v
      = v.fpath.drop g.gl_pathOffset ++ (if S_ISDIR v.sb.st_mode = true then [47] else []) := by
  unfold renderedName
  split <;> simp

/-- C5: for every entry that passes the filter and can be opened, the callback returns
the abort value 1 (header encoding reports the name as too long) exactly when the
rendered name (the archive-relative path, plus one `/` for a directory) has at least
100 bytes; at 100 bytes nothing is appended; below 100 bytes (so at 99) the callback
returns 0 and appends a header whose name field holds the rendered name untruncated,
NUL-filled to 100 bytes. -/
theorem C5_name_length_boundary (g : Globals) (v : Visit) (s : BState) (c : List Nat)
    (hcut : g.gl_startDate ≤ v.sb.st_mtime)
    (hnow : v.sb.st_mtime < g.gl_now ∨ S_ISDIR v.sb.st_mode = true)
    (hopen : v.input = some c) :
    ((backup g v s).1 = 1 ↔ 100 ≤ (renderedName g v).length) ∧
    (backupHeader g v = none ↔ 100 ≤ (renderedName g v).length) ∧
    renderedName g v
      = v.fpath.drop g.gl_pathOffset ++ (if S_ISDIR v.sb.st_mode = true then [47] else []) ∧
    ((renderedName g v).length = 100 →
      (backup g v s).1 = 1 ∧ (backup g v s).2.archive = s.archive) ∧
    ((renderedName g v).length < 100 →
      ∃ hdr rest, backupHeader g v = some hdr ∧ (backup g v s).1 = 0 ∧
        (backup g v s).2.archive = s.archive ++ hdr ++ rest ∧ hdr.length = 512 ∧
        hdr.take 100
          = renderedName g v ++ List.replicate (100 - (renderedName g v).length) 0) := by
  refine ⟨⟨?_, ?_⟩, ⟨?_, ?_⟩, renderedName_eq g v, ?_, ?_⟩
  · intro h1
    by_contra hlen
    have := (backup_archive_grows g v s c hcut hnow hopen (by omega)).1
    omega
  · intro hlen
    rw [backup_rejected g v s c hcut hnow hopen hlen]
  · intro hn
    by_contra hlen
    rw [backupHeader_eq g v (by omega)] at hn
    cases hn
  · exact backupHeader_none g v
  · intro hlen
    rw [backup_rejected g v s c hcut hnow hopen (by omega)]
    exact ⟨rfl, rfl⟩
  · intro hlen
    obtain ⟨hdr, rest, hh, hl, ha⟩ := backup_appends_header g v s c hcut hnow hopen hlen
    refine ⟨hdr, rest, hh, (backup_archive_grows g v s c hcut hnow hopen hlen).1, ha, hl, ?_⟩
    rw [backupHeader_eq g v hlen] at hh
    cases hh
    rw [headerWith_take_name, sfield_name _ hlen]

/-- C5 at a regular file whose name is exactly 100 bytes: the callback returns 1. -/
theorem C5_name_length_boundary_witness :
    exGlobals.gl_startDate ≤ exLongName.sb.st_mtime ∧
    (exLongName.sb.st_mtime < exGlobals.gl_now ∨ S_ISDIR exLongName.sb.st_mode = true) ∧
    exLongName.input = some [104, 101, 108, 108, 111, 32, 116, 97, 114, 10] ∧
    (backup exGlobals exLongName emptyState).1 = 1 :=
  ⟨by decide, Or.inl (by decide), rfl,
    (C5_name_length_boundary exGlobals exLongName emptyState _ (by decide)
      (Or.inl (by decide)) rfl).1.mpr (by decide)⟩

/-! ## The checksum -/

theorem sum_le_of_bytes (l : List Nat) (m : Nat) (h : ∀ b ∈ l, b ≤ m) :
    l.sum ≤ m * l.length := by
  induction l with
  | nil => simp
  | cons a t ih =>
    have h1 := h a (List.mem_cons_self _ _)
    have h2 := ih (fun b hb => h b (List.mem_cons_of_mem _ hb))
    simp only [List.sum_cons, List.length_cons]
    rw [Nat.mul_succ]
    omega

theorem sfield_bytes (n x m : Nat) (s : List Nat) (hx : x ≤ m) (hs : ∀ b ∈ s, b ≤ m) :
    ∀ b ∈ sfield n x s, b ≤ m := by
  intro b hb
  simp only [sfield, List.mem_append, List.mem_singleton] at hb
  rcases hb with (hb | hb) | hb
  · exact hs b (List.mem_of_mem_take hb)
  · omega
  · rw [(List.mem_replicate.mp hb).2]; exact hx

theorem renderedName_bytes (g : Globals) (v : Visit) (hb : ∀ b ∈ v.fpath, b < 256) :
    ∀ b ∈ renderedName g v, b ≤ 255 := by
  intro b h
  rw [renderedName_eq] at h
  rcases List.mem_append.mp h with h | h
  · have := hb b (List.mem_of_mem_drop h); omega
  · split at h
    · simp at h; omega
    · simp at h

theorem typeMarker_le (v : Visit) : typeMarker v ≤ 255 := by
  unfold typeMarker; split <;> norm_num

theorem fmtOct_bytes (W v : Nat) : ∀ b ∈ fmtOct W v, b ≤ 255 := by
  intro b hb
  have := fmtOct_digit W v b hb
  omega

theorem headerWith_bytes (g : Globals) (v : Visit) (ck : List Nat)
    (hb : ∀ b ∈ renderedName g v, b ≤ 255) (hck : ∀ b ∈ ck, b ≤ 255) :
    ∀ b ∈ headerWith g v ck, b ≤ 255 := by
  intro b h
  simp only [headerWith, List.mem_append] at h
  rcases h with h | h | h | h | h | h | h | h | h
  · exact sfield_bytes 100 0 255 _ (by norm_num) hb b h
  · exact sfield_bytes 8 0 255 _ (by norm_num) (fmtOct_bytes _ _) b h
  · exact sfield_bytes 8 0 255 _ (by norm_num) (fmtOct_bytes _ _) b h
  · exact sfield_bytes 8 0 255 _ (by norm_num) (fmtOct_bytes _ _) b h
  · exact sfield_bytes 12 0 255 _ (by norm_num) (fmtOct_bytes _ _) b h
  · exact sfield_bytes 12 0 255 _ (by norm_num) (fmtOct_bytes _ _) b h
  · exact hck b h
  · rw [List.mem_singleton.mp h]; exact typeMarker_le v
  · rw [(List.mem_replicate.mp h).2]; norm_num

theorem entryChecksum_lt (g : Globals) (v : Visit) (hb : ∀ b ∈ renderedName g v, b ≤ 255) :
    entryChecksum g v < 8 ^ 6 := by
  unfold entryChecksum byteSum
  have h1 := sum_le_of_bytes _ 255 (headerWith_bytes g v (List.replicate 8 32) hb
    (fun b h => by rw [(List.mem_replicate.mp h).2]; norm_num))
  rw [headerWith_length g v _ (by simp)] at h1
  have : (8:Nat) ^ 6 = 262144 := by norm_num
  omega

theorem sfield_checksum (cs : Nat) (h : cs < 8 ^ 6) :
    sfield 8 32 (fmtOct 6 cs) = octFixed 6 cs ++ [0, 32] := by
  have h32 : cs < 4294967296 := by
    have : (8:Nat) ^ 6 = 262144 := by norm_num
    omega
  rw [fmtOct_of_lt 6 cs (by norm_num) h h32,
    sfield_short 8 32 _ (by rw [octFixed_length]; norm_num), octFixed_length]
  rfl

/-- C6: in every header block that `backup` writes (path bytes being bytes), the sum of
the 512 bytes with the checksum field counted as eight spaces is below 8^6, the
checksum field holds exactly that sum as six octal digits followed by NUL and a space,
and reading the field as an octal number gives that sum. -/
theorem C6_encode_checksum (g : Globals) (v : Visit) (hdr : List Nat)
    (hb : ∀ b ∈ v.fpath, b < 256) (h : backupHeader g v = some hdr) :
    byteSum (memset hdr offChecksum 32 8) < 8 ^ 6 ∧
    (hdr.drop offChecksum).take 8
      = octFixed 6 (byteSum (memset hdr offChecksum 32 8)) ++ [0, 32] ∧
    strtol (hdr.drop offChecksum) = (byteSum (memset hdr offChecksum 32 8) : Int) := by
  have hlen : (renderedName g v).length < 100 := by
    by_contra hl
    rw [backupHeader_none g v (by omega)] at h
    cases h
  rw [backupHeader_eq g v hlen] at h
  cases h
  have hlt := entryChecksum_lt g v (renderedName_bytes g v hb)
  have hm : byteSum (memset (headerWith g v (sfield 8 32 (fmtOct 6 (entryChecksum g v))))
      offChecksum 32 8) = entryChecksum g v := by
    rw [headerWith_memset g v _ (sfield_length _ _ _ (by norm_num))]
    rfl
  rw [hm]
  refine ⟨hlt, ?_, ?_⟩
  · rw [offChecksum, headerWith_drop_checksum, take_sfield _ _ _ _ (by norm_num),
      sfield_checksum _ hlt]
  · rw [offChecksum, headerWith_drop_checksum, sfield_checksum _ hlt, List.append_assoc]
    exact strtol_octFixed 6 _ _ (by norm_num) hlt (by
      have : (8:Nat) ^ 6 = 262144 := by norm_num
      unfold LONG_MAX
      omega)

/-- C6 at the header of `d/a.txt`. -/
theorem C6_encode_checksum_witness :
    (∀ b ∈ exFile.fpath, b < 256) ∧
    ∃ hdr, backupHeader exGlobals exFile = some hdr ∧
      strtol (hdr.drop offChecksum) = (byteSum (memset hdr offChecksum 32 8) : Int) :=
  ⟨by decide, _, backupHeader_eq exGlobals exFile (by decide),
    (C6_encode_checksum exGlobals exFile _ (by decide)
      (backupHeader_eq exGlobals exFile (by decide))).2.2⟩

/-! ## Numeric fields -/

theorem toU32_of_range (x : Int) (h0 : 0 ≤ x) (h : x < 4294967296) : toU32 x = x.toNat := by
  unfold toU32
  rw [Int.emod_eq_of_lt h0 h]

theorem sfield8_digits (x : Nat) (h : x < 8 ^ 6) :
    sfield 8 0 (fmtOct 6 x) = octFixed 6 x ++ [0, 0] := by
  have h32 : x < 4294967296 := by
    have : (8:Nat) ^ 6 = 262144 := by norm_num
    omega
  rw [fmtOct_of_lt 6 x (by norm_num) h h32,
    sfield_short 8 0 _ (by rw [octFixed_length]; norm_num), octFixed_length]
  rfl

theorem sfield8_digits7 (x : Nat) (hlo : 8 ^ 6 ≤ x) (h : x < 8 ^ 7) :
    sfield 8 0 (fmtOct 6 x) = octFixed 7 x ++ [0] := by
  rw [fmtOct_seven x hlo h,
    sfield_short 8 0 _ (by rw [octFixed_length]; norm_num), octFixed_length]
  rfl

theorem sfield12_digits (x : Nat) (h : x < 4294967296) :
    sfield 12 0 (fmtOct 11 x) = octFixed 11 x ++ [0] := by
  have h8 : x < 8 ^ 11 := by
    have : (8:Nat) ^ 11 = 8589934592 := by norm_num
    omega
  rw [fmtOct_of_lt 11 x (by norm_num) h8 h,
    sfield_short 12 0 _ (by rw [octFixed_length]; norm_num), octFixed_length]
  rfl

theorem strtol_sfield8 (x : Nat) (rest : List Nat) (h : x < 8 ^ 7) :
    strtol (sfield 8 0 (fmtOct 6 x) ++ rest) = (x : Int) := by
  have h7 : (8:Nat) ^ 7 = 2097152 := by norm_num
  have h6 : (8:Nat) ^ 6 = 262144 := by norm_num
  have hmax : (x : Int) ≤ LONG_MAX := by unfold LONG_MAX; omega
  by_cases hlt : x < 8 ^ 6
  · rw [sfield8_digits x hlt, List.append_assoc]
    exact strtol_octFixed 6 x _ (by norm_num) hlt hmax
  · rw [sfield8_digits7 x (by omega) h, List.append_assoc]
    exact strtol_octFixed 7 x _ (by norm_num) h hmax

theorem strtol_sfield12 (x : Nat) (rest : List Nat) (h : x < 4294967296) :
    strtol (sfield 12 0 (fmtOct 11 x) ++ rest) = (x : Int) := by
  have h8 : x < 8 ^ 11 := by
    have : (8:Nat) ^ 11 = 8589934592 := by norm_num
    omega
  rw [sfield12_digits x h, List.append_assoc]
  exact strtol_octFixed 11 x _ (by norm_num) h8 (by unfold LONG_MAX; omega)

/-- C7 (as amended): for every entry whose mode, owner id and group id are below 8^6
and whose size and modification time are non-negative and below 2^32, the mode, owner
and group fields hold the value as six zero-padded octal digits followed by two NUL
bytes, the size and modified fields hold it as eleven zero-padded octal digits followed
by one NUL byte, and reading each field back as an octal number yields the value. -/
theorem C7_numeric_fields (g : Globals) (v : Visit) (hdr : List Nat)
    (h : backupHeader g v = some hdr)
    (hmode : v.sb.st_mode < 8 ^ 6) (huid : v.sb.st_uid < 8 ^ 6) (hgid : v.sb.st_gid < 8 ^ 6)
    (hsize0 : 0 ≤ v.sb.st_size) (hsize : v.sb.st_size < 4294967296)
    (hmtime0 : 0 ≤ v.sb.st_mtime) (hmtime : v.sb.st_mtime < 4294967296) :
    ((hdr.drop 100).take 8 = octFixed 6 v.sb.st_mode ++ [0, 0] ∧
      strtol (hdr.drop 100) = (v.sb.st_mode : Int)) ∧
    ((hdr.drop 108).take 8 = octFixed 6 v.sb.st_uid ++ [0, 0] ∧
      strtol (hdr.drop 108) = (v.sb.st_uid : Int)) ∧
    ((hdr.drop 116).take 8 = octFixed 6 v.sb.st_gid ++ [0, 0] ∧
      strtol (hdr.drop 116) = (v.sb.st_gid : Int)) ∧
    ((hdr.drop 124).take 12 = octFixed 11 v.sb.st_size.toNat ++ [0] ∧
      strtol (hdr.drop 124) = v.sb.st_size) ∧
    ((hdr.drop 136).take 12 = octFixed 11 v.sb.st_mtime.toNat ++ [0] ∧
      strtol (hdr.drop 136) = v.sb.st_mtime) := by
  have hlen : (renderedName g v).length < 100 := by
    by_contra hl
    rw [backupHeader_none g v (by omega)] at h
    cases h
  rw [backupHeader_eq g v hlen] at h
  cases h
  have h6 : (8:Nat) ^ 6 = 262144 := by norm_num
  have h7 : (8:Nat) ^ 7 = 2097152 := by norm_num
  have hs : v.sb.st_size.toNat < 4294967296 := by omega
  have hm : v.sb.st_mtime.toNat < 4294967296 := by omega
  refine ⟨⟨?_, ?_⟩, ⟨?_, ?_⟩, ⟨?_, ?_⟩, ⟨?_, ?_⟩, ⟨?_, ?_⟩⟩
  · rw [headerWith_drop_mode, take_sfield _ _ _ _ (by norm_num), sfield8_digits _ hmode]
  · rw [headerWith_drop_mode]; exact strtol_sfield8 _ _ (by omega)
  · rw [headerWith_drop_owner, take_sfield _ _ _ _ (by norm_num), sfield8_digits _ huid]
  · rw [headerWith_drop_owner]; exact strtol_sfield8 _ _ (by omega)
  · rw [headerWith_drop_group, take_sfield _ _ _ _ (by norm_num), sfield8_digits _ hgid]
  · rw [headerWith_drop_group]; exact strtol_sfield8 _ _ (by omega)
  · rw [headerWith_drop_size, take_sfield _ _ _ _ (by norm_num),
      toU32_of_range _ hsize0 hsize, sfield12_digits _ hs]
  · rw [headerWith_drop_size, toU32_of_range _ hsize0 hsize, strtol_sfield12 _ _ hs]
    omega
  · rw [headerWith_drop_modified, take_sfield _ _ _ _ (by norm_num),
      toU32_of_range _ hmtime0 hmtime, sfield12_digits _ hm]
  · rw [headerWith_drop_modified, toU32_of_range _ hmtime0 hmtime, strtol_sfield12 _ _ hm]
    omega

/-- C7 (as stated) fails: for `d/a.txt` owned by user id 8^6 = 262144 the owner field
holds the seven digits `1000000` and one NUL, not six digits followed by NUL fill. -/
theorem C7_counterexample :
    (backupHeader exGlobals exBigUid).map (fun h => (h.drop 108).take 8)
      = some [49, 48, 48, 48, 48, 48, 48, 0] ∧
    ∀ ds : List Nat, ds.length = 6 → [49, 48, 48, 48, 48, 48, 48, 0] ≠ ds ++ [0, 0] := by
  refine ⟨by decide!, ?_⟩
  intro ds hl h
  have h2 := congrArg (List.drop 6) h
  rw [List.drop_left' hl] at h2
  simp at h2

/-- C7 (as amended) at the header of `d/a.txt`. -/
theorem C7_numeric_fields_witness :
    ∃ hdr, backupHeader exGlobals exFile = some hdr ∧
      exFile.sb.st_mode < 8 ^ 6 ∧ exFile.sb.st_uid < 8 ^ 6 ∧ exFile.sb.st_gid < 8 ^ 6 ∧
      0 ≤ exFile.sb.st_size ∧ exFile.sb.st_size < 4294967296 ∧
      0 ≤ exFile.sb.st_mtime ∧ exFile.sb.st_mtime < 4294967296 ∧
      strtol (hdr.drop 108) = (exFile.sb.st_uid : Int) :=
  ⟨_, backupHeader_eq exGlobals exFile (by decide), by decide, by decide, by decide,
    by decide, by decide, by decide, by decide,
    (C7_numeric_fields exGlobals exFile _ (backupHeader_eq exGlobals exFile (by decide))
      (by decide) (by decide) (by decide) (by decide) (by decide) (by decide)
      (by decide)).2.1.2⟩

/-! ## Header layout, record shape and padding -/

/-- C8: every header that `backup` writes is 512 bytes long; bytes 0..99 hold the
rendered name (the archive-relative path, followed by `/` exactly for a directory),
NUL-filled; the mode, owner, group, size, modified and checksum fields start at
offsets 100, 108, 116, 124, 136 and 148 with widths 8, 8, 8, 12, 12 and 8; byte 156 is
`'5'` for a directory and `'0'` otherwise; bytes 157..511 are zero. -/
theorem C8_header_layout (g : Globals) (v : Visit) (hdr : List Nat)
    (h : backupHeader g v = some hdr) :
    hdr.length = 512 ∧
    hdr.take 100 = renderedName g v ++ List.replicate (100 - (renderedName g v).length) 0 ∧
    (S_ISDIR v.sb.st_mode = true → renderedName g v = v.fpath.drop g.gl_pathOffset ++ [47]) ∧
    (S_ISDIR v.sb.st_mode = false → renderedName g v = v.fpath.drop g.gl_pathOffset) ∧
    (hdr.drop 100).take 8 = sfield 8 0 (fmtOct 6 v.sb.st_mode) ∧
    (hdr.drop 108).take 8 = sfield 8 0 (fmtOct 6 v.sb.st_uid) ∧
    (hdr.drop 116).take 8 = sfield 8 0 (fmtOct 6 v.sb.st_gid) ∧
    (hdr.drop 124).take 12 = sfield 12 0 (fmtOct 11 (toU32 v.sb.st_size)) ∧
    (hdr.drop 136).take 12 = sfield 12 0 (fmtOct 11 (toU32 v.sb.st_mtime)) ∧
    (hdr.drop 148).take 8
      = sfield 8 32 (fmtOct 6 (byteSum (memset hdr offChecksum 32 8))) ∧
    (hdr.drop 156).take 1 = [if S_ISDIR v.sb.st_mode = true then 53 else 48] ∧
    hdr.drop 157 = List.replicate 355 0 := by
  have hlen : (renderedName g v).length < 100 := by
    by_contra hl
    rw [backupHeader_none g v (by omega)] at h
    cases h
  rw [backupHeader_eq g v hlen] at h
  cases h
  have hck : (sfield 8 32 (fmtOct 6 (entryChecksum g v))).length = 8 :=
    sfield_length _ _ _ (by norm_num)
  refine ⟨headerWith_length g v _ hck, ?_, ?_, ?_, ?_, ?_, ?_, ?_, ?_, ?_, ?_,
    headerWith_drop_link g v _ hck⟩
  · rw [headerWith_take_name, sfield_name _ hlen]
  · intro hd; rw [renderedName, if_pos hd]
  · intro hd; rw [renderedName, if_neg (by simp [hd])]
  · rw [headerWith_drop_mode, take_sfield _ _ _ _ (by norm_num)]
  · rw [headerWith_drop_owner, take_sfield _ _ _ _ (by norm_num)]
  · rw [headerWith_drop_group, take_sfield _ _ _ _ (by norm_num)]
  · rw [headerWith_drop_size, take_sfield _ _ _ _ (by norm_num)]
  · rw [headerWith_drop_modified, take_sfield _ _ _ _ (by norm_num)]
  · rw [headerWith_drop_checksum, take_exact _ _ 8 hck, headerWith_memset g v _ hck]
    rfl
  · rw [headerWith_drop_type g v _ hck]
    rfl

/-- C8 at the header of the directory `d`. -/
theorem C8_header_layout_witness :
    ∃ hdr, backupHeader exGlobals exDir = some hdr ∧ hdr.length = 512 ∧
      hdr.take 100 = [100, 47] ++ List.replicate 98 0 ∧ hdr.drop 157 = List.replicate 355 0 :=
  ⟨_, backupHeader_eq exGlobals exDir (by decide),
    (C8_header_layout exGlobals exDir _ (backupHeader_eq exGlobals exDir (by decide))).1,
    (C8_header_layout exGlobals exDir _ (backupHeader_eq exGlobals exDir (by decide))).2.1,
    (C8_header_layout exGlobals exDir _
      (backupHeader_eq exGlobals exDir (by decide))).2.2.2.2.2.2.2.2.2.2.2⟩

theorem padTo512_of_aligned (n m : Nat) (h : n % 512 = 0) :
    padTo512 (n + 512 + m) = (512 - m % 512) % 512 := by
  unfold padTo512
  omega

/-- C9: for every archived regular file with content `c`, when the archive length
before the call is a multiple of 512 the callback appends exactly the 512-byte header,
then `c` unchanged, then `(512 - |c| mod 512) mod 512` zero bytes; the record is
`512 + 512 * ceil(|c| / 512)` bytes long, no padding is added when `|c|` is a multiple
of 512, and the 2000-byte chunk loop copies `c` whole. -/
theorem C9_file_record (g : Globals) (v : Visit) (s : BState) (c hdr : List Nat)
    (hcut : g.gl_startDate ≤ v.sb.st_mtime) (hnow : v.sb.st_mtime < g.gl_now)
    (hfile : S_ISDIR v.sb.st_mode = false) (hopen : v.input = some c)
    (hhdr : backupHeader g v = some hdr) (halign : s.archive.length % 512 = 0) :
    (backup g v s).1 = 0 ∧
    (backup g v s).2.archive
      = s.archive ++ (hdr ++ c ++ List.replicate ((512 - c.length % 512) % 512) 0) ∧
    hdr.length = 512 ∧
    (hdr ++ c ++ List.replicate ((512 - c.length % 512) % 512) 0).length
      = 512 + 512 * ((c.length + 511) / 512) ∧
    (c.length % 512 = 0 → (backup g v s).2.archive = s.archive ++ (hdr ++ c)) ∧
    copyLoop (c.length / 2000 + 2) c false (s.archive ++ hdr) = some (s.archive ++ hdr ++ c) := by
  have hl := backupHeader_length g v hdr hhdr
  have hb := backup_file g v s c hdr hcut hnow hfile hopen hhdr
  have hp := padTo512_of_aligned s.archive.length c.length halign
  have ha : (backup g v s).2.archive
      = s.archive ++ (hdr ++ c ++ List.replicate ((512 - c.length % 512) % 512) 0) := by
    rw [hb]
    simp only [fileRecord, hl, hp]
  refine ⟨by rw [hb], ha, hl, ?_, ?_, copyLoop_complete c _⟩
  · simp only [List.length_append, List.length_replicate, hl]
    omega
  · intro h0
    rw [ha, h0]
    simp

/-- C9 at `d/a.txt` appended to an empty archive. -/
theorem C9_file_record_witness :
    exGlobals.gl_startDate ≤ exFile.sb.st_mtime ∧ exFile.sb.st_mtime < exGlobals.gl_now ∧
    S_ISDIR exFile.sb.st_mode = false ∧ emptyState.archive.length % 512 = 0 ∧
    ∃ hdr, backupHeader exGlobals exFile = some hdr ∧
      (backup exGlobals exFile emptyState).2.archive
        = emptyState.archive ++ (hdr ++ [104, 101, 108, 108, 111, 32, 116, 97, 114, 10] ++
            List.replicate ((512 - 10 % 512) % 512) 0) :=
  ⟨by decide, by decide, by decide, by decide, _,
    backupHeader_eq exGlobals exFile (by decide),
    (C9_file_record exGlobals exFile emptyState _ _ (by decide) (by decide) (by decide) rfl
      (backupHeader_eq exGlobals exFile (by decide)) (by decide)).2.1⟩

/-- Each call of the callback keeps the archive length a multiple of 512. -/
theorem backup_aligned (g : Globals) (v : Visit) (s : BState)
    (h : s.archive.length % 512 = 0) : (backup g v s).2.archive.length % 512 = 0 := by
  by_cases hf : v.sb.st_mtime < g.gl_startDate ∨
      (g.gl_now ≤ v.sb.st_mtime ∧ S_ISDIR v.sb.st_mode = false)
  · rw [backup_filtered g v s hf]; exact h
  · have hcut : g.gl_startDate ≤ v.sb.st_mtime := by
      by_contra hh; exact hf (Or.inl (by omega))
    have hnow : v.sb.st_mtime < g.gl_now ∨ S_ISDIR v.sb.st_mode = true := by
      by_contra hh
      push_neg at hh
      exact hf (Or.inr ⟨by omega, by simpa using hh.2⟩)
    cases hopen : v.input with
    | none => rw [backup_skipped g v s hopen]; exact h
    | some c =>
      by_cases hlen : (renderedName g v).length < 100
      · have hh := backupHeader_eq g v hlen
        have hl := backupHeader_length g v _ hh
        cases hd : S_ISDIR v.sb.st_mode
        · have hnow' : v.sb.st_mtime < g.gl_now := by
            rcases hnow with h1 | h1
            · exact h1
            · rw [hd] at h1; cases h1
          rw [backup_file g v s c _ hcut hnow' hd hopen hh]
          simp only [List.length_append, fileRecord_length, hl]
          have := padTo512_aligned (s.archive.length + 512 + c.length)
          omega
        · rw [backup_directory g v s c _ hcut hd hopen hh]
          simp only [List.length_append, hl]
          omega
      · rw [backup_rejected g v s c hcut hnow hopen (by omega)]
        exact h

theorem nftw_aligned (g : Globals) (visits : List Visit) : ∀ (s : BState),
    s.archive.length % 512 = 0 → (nftw g visits s).2.archive.length % 512 = 0 := by
  induction visits with
  | nil => intro s h; exact h
  | cons v vs ih =>
    intro s h
    rw [nftw]
    split
    · exact backup_aligned g v s h
    · exact ih _ (backup_aligned g v s h)

/-- C10: the callback keeps the archive length a multiple of 512 on every exit path, so
starting from the empty archive the length is a multiple of 512 after every call of the
walk (hence every header starts at a multiple of 512); the archive of a completed
backup has a length that is a multiple of 512 and ends with 1024 zero bytes. -/
theorem C10_padding_invariant (g : Globals) (visits : List Visit) :
    (∀ v s, s.archive.length % 512 = 0 → (backup g v s).2.archive.length % 512 = 0) ∧
    (∀ k, (nftw g (visits.take k) emptyState).2.archive.length % 512 = 0) ∧
    (∀ a, mainBackup g visits = (ExitStatus.EXIT_SUCCESS, some a) →
      a.length % 512 = 0 ∧ 1024 ≤ a.length ∧
      a.drop (a.length - 1024) = List.replicate 1024 0) := by
  refine ⟨backup_aligned g, fun k => nftw_aligned g _ _ rfl, ?_⟩
  intro a ha
  unfold mainBackup at ha
  split at ha
  · simp only [Prod.mk.injEq, Option.some.injEq, true_and] at ha
    subst ha
    rw [fpad_eq]
    have h1 := nftw_aligned g visits emptyState rfl
    refine ⟨?_, ?_, ?_⟩
    · simp only [List.length_append, List.length_replicate]
      omega
    · simp only [List.length_append, List.length_replicate]
      omega
    · rw [List.drop_left']
      simp only [List.length_append, List.length_replicate]
      omega
  · simp at ha

theorem mainBackup_of_ok (g : Globals) (visits : List Visit)
    (h : (nftw g visits emptyState).1 = 0) :
    mainBackup g visits
      = (ExitStatus.EXIT_SUCCESS, some (fpad (nftw g visits emptyState).2.archive 1024)) := by
  unfold mainBackup
  rw [if_pos h]

/-- C10 at the walk over `d` and `d/a.txt`. -/
theorem C10_padding_invariant_witness :
    ∃ a, mainBackup exGlobals [exDir, exFile] = (ExitStatus.EXIT_SUCCESS, some a) ∧
      a.length % 512 = 0 ∧ 1024 ≤ a.length ∧ a.drop (a.length - 1024) = List.replicate 1024 0 :=
  ⟨_, mainBackup_of_ok _ _ (by decide!),
    (C10_padding_invariant exGlobals [exDir, exFile]).2.2 _ (mainBackup_of_ok _ _ (by decide!))⟩

/-! ## The header scanner on a block whose fields sit at their offsets -/

theorem dropWhile_isspace_of_head (c : Nat) (cs : List Nat) (h : isspace c = false) :
    (c :: cs).dropWhile isspace = c :: cs := by
  simp [List.dropWhile_cons, h]

theorem takeWhile_nonspace_all (l : List Nat) (h : ∀ b ∈ l, isspace b = false) :
    l.takeWhile (fun b => !isspace b) = l := by
  rw [List.takeWhile_eq_self_iff]
  intro b hb
  simp [h b hb]

/-- A conversion whose field is filled completely by bytes that are not white space. -/
theorem scanField_full (n : Nat) (tok rest : List Nat) (hlen : tok.length = n) (hn : 0 < n)
    (hns : ∀ b ∈ tok, isspace b = false) :
    scanField n (tok ++ rest) = some (tok, rest) := by
  obtain ⟨c, t, rfl⟩ : ∃ c t, tok = c :: t := by
    cases tok with
    | nil => simp at hlen; omega
    | cons c t => exact ⟨c, t, rfl⟩
  have hc := hns c (List.mem_cons_self _ _)
  unfold scanField
  rw [List.cons_append, dropWhile_isspace_of_head c _ hc]
  simp only
  rw [← List.cons_append, List.take_left' hlen, takeWhile_nonspace_all _ hns,
    List.drop_left' rfl]

/-- A conversion that stops at a white-space byte before its field is full. -/
theorem scanField_stop (n w : Nat) (tok rest : List Nat) (hlen : tok.length < n)
    (hne : tok ≠ []) (hns : ∀ b ∈ tok, isspace b = false) (hw : isspace w = true) :
    scanField n (tok ++ w :: rest) = some (tok, w :: rest) := by
  obtain ⟨c, t, rfl⟩ := List.exists_cons_of_ne_nil hne
  have hc := hns c (List.mem_cons_self _ _)
  unfold scanField
  rw [List.cons_append, dropWhile_isspace_of_head c _ hc]
  simp only
  rw [← List.cons_append]
  have h1 : ((c :: t) ++ w :: rest).take n = (c :: t) ++ (w :: rest).take (n - (c :: t).length) := by
    rw [List.take_append_eq_append_take, List.take_of_length_le (by omega)]
  obtain ⟨m, hm⟩ : ∃ m, n - (c :: t).length = m + 1 := ⟨n - (c :: t).length - 1, by omega⟩
  rw [h1, hm, List.take_succ_cons]
  have h2 : ((c :: t) ++ w :: List.take m rest).takeWhile (fun b => !isspace b) = c :: t := by
    rw [List.takeWhile_append_of_pos (by intro b hb; simp [hns b hb])]
    simp [List.takeWhile_cons, hw, takeWhile_nonspace_all _ hns]
  rw [h2, List.drop_left' rfl]

/-- Leading white space is skipped by a conversion. -/
theorem scanField_skip (n w : Nat) (inp : List Nat) (hw : isspace w = true) :
    scanField n (w :: inp) = scanField n inp := by
  unfold scanField
  rw [List.dropWhile_cons, if_pos hw]

theorem poke_tail (pre tok : List Nat) (r off : Nat) (h1 : pre.length = off)
    (h2 : tok.length + 1 ≤ r) :
    poke (pre ++ List.replicate r 0) off (tok ++ [0])
      = (pre ++ tok) ++ List.replicate (r - tok.length) 0 := by
  have h := poke_fld pre [] (tok ++ [0]) r 0 off h1 (by simp; omega)
  simp only [List.append_nil] at h
  rw [h]
  simp only [List.length_append, List.length_singleton, List.append_assoc]
  congr 2
  rw [show r - tok.length = (r - (tok.length + 1)) + 1 by omega, List.replicate_succ]
  rfl

/-- The result of the `fscanf` call on input whose seven string fields and type byte
sit at their offsets: the fields are free of white space, the checksum field is seven
such bytes followed by a space. -/
theorem fscanf_aligned (N M U G S T C rest : List Nat) (ty : Nat)
    (hN : N.length = 100) (hM : M.length = 8) (hU : U.length = 8) (hG : G.length = 8)
    (hS : S.length = 12) (hT : T.length = 12) (hC : C.length = 7)
    (nN : ∀ b ∈ N, isspace b = false) (nM : ∀ b ∈ M, isspace b = false)
    (nU : ∀ b ∈ U, isspace b = false) (nG : ∀ b ∈ G, isspace b = false)
    (nS : ∀ b ∈ S, isspace b = false) (nT : ∀ b ∈ T, isspace b = false)
    (nC : ∀ b ∈ C, isspace b = false) (nty : isspace ty = false) :
    fscanf headerFields (N ++ (M ++ (U ++ (G ++ (S ++ (T ++ (C ++ 32 :: ty :: rest)))))))
        (List.replicate sizeofHeader 0)
      = N ++ (M ++ (U ++ (G ++ (S ++ (T ++ (C ++ 0 :: ty :: List.replicate 355 0)))))) := by
  have hCne : C ≠ [] := by intro h; rw [h] at hC; simp at hC
  have hty : scanField 1 (32 :: ty :: rest) = some ([ty], rest) := by
    rw [scanField_skip 1 32 _ (by decide)]
    exact scanField_full 1 [ty] rest rfl (by norm_num) (by simpa using nty)
  simp only [headerFields, fscanf, offName, offMode, offOwner, offGroup, offSize, offModified,
    offChecksum, offType, sizeofHeader]
  rw [scanField_full 100 N _ hN (by norm_num) nN]
  simp only
  rw [scanField_full 8 M _ hM (by norm_num) nM]
  simp only
  rw [scanField_full 8 U _ hU (by norm_num) nU]
  simp only
  rw [scanField_full 8 G _ hG (by norm_num) nG]
  simp only
  rw [scanField_full 12 S _ hS (by norm_num) nS]
  simp only
  rw [scanField_full 12 T _ hT (by norm_num) nT]
  simp only
  rw [scanField_stop 8 32 C _ (by omega) hCne nC (by decide)]
  simp only
  rw [hty]
  simp only
  have p0 := poke_tail [] N 512 0 rfl (by omega)
  rw [List.nil_append] at p0
  rw [p0, hN]
  rw [poke_tail ([] ++ N) M (512 - 100) 100 (by simpa using hN) (by omega), hM]
  rw [poke_tail _ U (512 - 100 - 8) 108 (by simp [hN, hM]) (by omega), hU]
  rw [poke_tail _ G (512 - 100 - 8 - 8) 116 (by simp [hN, hM, hU]) (by omega), hG]
  rw [poke_tail _ S (512 - 100 - 8 - 8 - 8) 124 (by simp [hN, hM, hU, hG]) (by omega), hS]
  rw [poke_tail _ T (512 - 100 - 8 - 8 - 8 - 12) 136 (by simp [hN, hM, hU, hG, hS]) (by omega),
    hT]
  rw [poke_tail _ C (512 - 100 - 8 - 8 - 8 - 12 - 12) 148
    (by simp [hN, hM, hU, hG, hS, hT]) (by omega), hC]
  rw [show 512 - 100 - 8 - 8 - 8 - 12 - 12 - 7 = 356 + 1 from rfl, List.replicate_succ]
  have e : ∀ (P : List Nat), P ++ 0 :: List.replicate 356 0 = (P ++ [0]) ++ List.replicate 356 0 := by
    intro P; rw [List.append_assoc]; rfl
  rw [e, poke_tail _ [ty] 356 156 (by simp [hN, hM, hU, hG, hS, hT, hC]) (by simp)]
  simp only [List.append_assoc, List.nil_append, List.singleton_append, List.cons_append,
    List.length_singleton, Nat.reduceSub]

theorem blockOf_drop_checksum (N M U G S T ck : List Nat) (ty : Nat)
    (hN : N.length = 100) (hM : M.length = 8) (hU : U.length = 8) (hG : G.length = 8)
    (hS : S.length = 12) (hT : T.length = 12) :
    (blockOf N M U G S T ck ty).drop 148 = ck ++ ty :: List.replicate 355 0 := by
  unfold blockOf
  rw [drop_skip N _ 148 100 hN (by norm_num), drop_skip M _ _ 8 hM (by norm_num),
    drop_skip U _ _ 8 hU (by norm_num), drop_skip G _ _ 8 hG (by norm_num),
    drop_skip S _ _ 12 hS (by norm_num), drop_skip T _ _ 12 hT (by norm_num)]
  rfl

theorem blockOf_memset (N M U G S T ck : List Nat) (ty : Nat)
    (hN : N.length = 100) (hM : M.length = 8) (hU : U.length = 8) (hG : G.length = 8)
    (hS : S.length = 12) (hT : T.length = 12) (hck : ck.length = 8) :
    memset (blockOf N M U G S T ck ty) offChecksum 32 8
      = blockOf N M U G S T (List.replicate 8 32) ty := by
  unfold blockOf memset offChecksum
  rw [poke_append_left N _ _ 148 100 hN (by norm_num),
    poke_append_left M _ _ _ 8 hM (by norm_num),
    poke_append_left U _ _ _ 8 hU (by norm_num),
    poke_append_left G _ _ _ 8 hG (by norm_num),
    poke_append_left S _ _ _ 12 hS (by norm_num),
    poke_append_left T _ _ _ 12 hT (by norm_num)]
  congr 6
  unfold poke
  simp only [Nat.reduceSub, List.take_zero, List.nil_append, List.length_replicate, Nat.zero_add]
  rw [drop_skip ck _ 8 8 hck (le_refl _)]
  simp only [Nat.sub_self, List.drop_zero, List.append_assoc]

theorem blockOf_length (N M U G S T ck : List Nat) (ty : Nat)
    (hN : N.length = 100) (hM : M.length = 8) (hU : U.length = 8) (hG : G.length = 8)
    (hS : S.length = 12) (hT : T.length = 12) (hck : ck.length = 8) :
    (blockOf N M U G S T ck ty).length = 512 := by
  simp only [blockOf, List.length_append, List.length_cons, List.length_replicate, hN, hM, hU,
    hG, hS, hT, hck]

/-- The result of `parseHeader` on input whose fields sit at their offsets: the stored
checksum is read from the seven bytes `C`, the sum is taken over the fields with the
checksum blanked, and bytes 157..511 of the block play no part. -/
theorem parseHeader_aligned (archive : List Nat) (index : Nat)
    (N M U G S T C rest : List Nat) (ty : Nat)
    (hdrop : archive.drop index
      = N ++ (M ++ (U ++ (G ++ (S ++ (T ++ (C ++ 32 :: ty :: rest)))))))
    (hN : N.length = 100) (hM : M.length = 8) (hU : U.length = 8) (hG : G.length = 8)
    (hS : S.length = 12) (hT : T.length = 12) (hC : C.length = 7)
    (nN : ∀ b ∈ N, isspace b = false) (nM : ∀ b ∈ M, isspace b = false)
    (nU : ∀ b ∈ U, isspace b = false) (nG : ∀ b ∈ G, isspace b = false)
    (nS : ∀ b ∈ S, isspace b = false) (nT : ∀ b ∈ T, isspace b = false)
    (nC : ∀ b ∈ C, isspace b = false) (nty : isspace ty = false) :
    parseHeader archive index
      = if toSizeT (strtol ((C ++ [0]) ++ ty :: List.replicate 355 0))
            ≠ byteSum (blockOf N M U G S T (List.replicate 8 32) ty) then none
        else some (blockOf N M U G S T (List.replicate 8 32) ty) := by
  unfold parseHeader
  rw [hdrop, fscanf_aligned N M U G S T C rest ty hN hM hU hG hS hT hC nN nM nU nG nS nT nC nty]
  have e : N ++ (M ++ (U ++ (G ++ (S ++ (T ++ (C ++ 0 :: ty :: List.replicate 355 0))))))
      = blockOf N M U G S T (C ++ [0]) ty := by
    unfold blockOf
    simp only [List.append_assoc, List.singleton_append]
  simp only [e]
  rw [blockOf_memset N M U G S T _ ty hN hM hU hG hS hT (by simp [hC]), offChecksum,
    blockOf_drop_checksum N M U G S T _ ty hN hM hU hG hS hT]

/-! ## `strtol` stops at a NUL byte -/

theorem octAccum_nul (D X : List Nat) (acc : Nat) :
    octAccum (D ++ 0 :: X) acc = octAccum (D ++ [0]) acc := by
  induction D generalizing acc with
  | nil => simp [octAccum, isOctDigit]
  | cons d t ih =>
    simp only [List.cons_append, octAccum]
    split
    · exact ih _
    · rfl

theorem dropWhile_isspace_nul (C X : List Nat) :
    (C ++ 0 :: X).dropWhile isspace = C.dropWhile isspace ++ 0 :: X := by
  induction C with
  | nil => simp [List.dropWhile_cons, isspace]
  | cons c t ih =>
    simp only [List.cons_append, List.dropWhile_cons]
    split
    · exact ih
    · rfl

theorem strtol_nul (C X : List Nat) : strtol (C ++ 0 :: X) = strtol (C ++ [0]) := by
  unfold strtol
  rw [dropWhile_isspace_nul C X, dropWhile_isspace_nul C []]
  cases hD : C.dropWhile isspace with
  | nil => simp [octAccum, isOctDigit]
  | cons d t =>
    simp only [List.cons_append]
    by_cases h45 : d = 45
    · subst h45
      simp only [octAccum_nul t X 0]
    · by_cases h43 : d = 43
      · subst h43
        simp only [octAccum_nul t X 0]
      · have e1 : ∀ Y : List Nat, (match d :: (t ++ 0 :: Y) with
            | 45 :: r => max (-(octAccum r 0 : Int)) LONG_MIN
            | 43 :: r => min (octAccum r 0 : Int) LONG_MAX
            | m => min (octAccum m 0 : Int) LONG_MAX)
            = min (octAccum (d :: (t ++ 0 :: Y)) 0 : Int) LONG_MAX := by
          intro Y
          split
          · rename_i heq; injection heq with h1 _; exact absurd h1 h45
          · rename_i heq; injection heq with h1 _; exact absurd h1 h43
          · rfl
        rw [e1 X, e1 []]
        have := octAccum_nul (d :: t) X 0
        simp only [List.cons_append] at this
        rw [this]

/-! ## The scanner on a block given by its first 148 bytes -/

theorem split148 (F : List Nat) :
    F = F.take 100 ++ ((F.drop 100).take 8 ++ ((F.drop 108).take 8 ++
      ((F.drop 116).take 8 ++ ((F.drop 124).take 12 ++ F.drop 136)))) := by
  have e1 : F.drop 108 = (F.drop 100).drop 8 := by rw [List.drop_drop]
  have e2 : F.drop 116 = (F.drop 108).drop 8 := by rw [List.drop_drop]
  have e3 : F.drop 124 = (F.drop 116).drop 8 := by rw [List.drop_drop]
  have e4 : F.drop 136 = (F.drop 124).drop 12 := by rw [List.drop_drop]
  rw [e4, List.take_append_drop, e3, List.take_append_drop, e2, List.take_append_drop, e1,
    List.take_append_drop, List.take_append_drop]

theorem byteSum_split148 (F X : List Nat) :
    byteSum (F.take 100 ++ ((F.drop 100).take 8 ++ ((F.drop 108).take 8 ++
      ((F.drop 116).take 8 ++ ((F.drop 124).take 12 ++ (F.drop 136 ++ X))))))
      = byteSum F + byteSum X := by
  have h := split148 F
  have : F.take 100 ++ ((F.drop 100).take 8 ++ ((F.drop 108).take 8 ++
      ((F.drop 116).take 8 ++ ((F.drop 124).take 12 ++ (F.drop 136 ++ X)))))
      = (F.take 100 ++ ((F.drop 100).take 8 ++ ((F.drop 108).take 8 ++
      ((F.drop 116).take 8 ++ ((F.drop 124).take 12 ++ F.drop 136))))) ++ X := by
    simp only [List.append_assoc]
  rw [this, ← h]
  simp [byteSum]

/-- The block `parseHeader` returns for fields at their offsets, given by the first 148
bytes `F` and the type byte. -/
theorem parseHeader_block (archive : List Nat) (index : Nat) (F C rest : List Nat) (ty : Nat)
    (hdrop : archive.drop index = F ++ (C ++ 32 :: ty :: rest))
    (hF : F.length = 148) (hC : C.length = 7)
    (nF : ∀ b ∈ F, isspace b = false) (nC : ∀ b ∈ C, isspace b = false)
    (nty : isspace ty = false) :
    parseHeader archive index
      = if toSizeT (strtol (C ++ [0])) ≠ byteSum F + (256 + ty) then none
        else some (F ++ (List.replicate 8 32 ++ ty :: List.replicate 355 0)) := by
  have hs := split148 F
  have hd : archive.drop index = F.take 100 ++ ((F.drop 100).take 8 ++ ((F.drop 108).take 8 ++
      ((F.drop 116).take 8 ++ ((F.drop 124).take 12 ++
      (F.drop 136 ++ (C ++ 32 :: ty :: rest)))))) := by
    rw [hdrop]
    conv_lhs => rw [hs]
    simp only [List.append_assoc]
  have mt : ∀ (k n : Nat), ∀ b ∈ (F.drop k).take n, isspace b = false :=
    fun k n b hb => nF b (List.mem_of_mem_drop (List.mem_of_mem_take hb))
  rw [parseHeader_aligned archive index _ _ _ _ _ _ C rest ty hd
    (by rw [List.length_take]; omega) (by rw [List.length_take, List.length_drop]; omega)
    (by rw [List.length_take, List.length_drop]; omega)
    (by rw [List.length_take, List.length_drop]; omega)
    (by rw [List.length_take, List.length_drop]; omega)
    (by rw [List.length_drop]; omega) hC
    (fun b hb => nF b (List.mem_of_mem_take hb)) (mt 100 8) (mt 108 8) (mt 116 8) (mt 124 12)
    (fun b hb => nF b (List.mem_of_mem_drop hb)) nC nty]
  have hb : blockOf (F.take 100) ((F.drop 100).take 8) ((F.drop 108).take 8)
      ((F.drop 116).take 8) ((F.drop 124).take 12) (F.drop 136) (List.replicate 8 32) ty
      = F ++ (List.replicate 8 32 ++ ty :: List.replicate 355 0) := by
    unfold blockOf
    conv_rhs => rw [hs]
    simp only [List.append_assoc]
  have hsum : byteSum (F ++ (List.replicate 8 32 ++ ty :: List.replicate 355 0))
      = byteSum F + (256 + ty) := by
    simp only [byteSum, List.sum_append, List.sum_cons, List.sum_replicate, smul_eq_mul]
    omega
  rw [hb, hsum, List.append_assoc, List.singleton_append, strtol_nul]

/-! ## Single-bit changes of a header block -/

theorem xor_pow_ne (a k : Nat) : a ^^^ 2 ^ k ≠ a := by
  intro h
  have h0 : a ^^^ 2 ^ k = a ^^^ 0 := by rw [h, Nat.xor_zero]
  have := Nat.xor_right_inj.mp h0
  have hp : 0 < 2 ^ k := Nat.two_pow_pos k
  omega

theorem byteSum_set (F : List Nat) (p x : Nat) (hp : p < F.length) :
    byteSum (F.set p x) + F.getD p 0 = byteSum F + x := by
  induction F generalizing p with
  | nil => simp at hp
  | cons a t ih =>
    cases p with
    | zero => simp [byteSum]; omega
    | succ q =>
      have := ih q (by simpa using hp)
      simp only [byteSum, List.set_cons_succ, List.sum_cons, List.getD_cons_succ] at this ⊢
      omega

/-- A block whose bytes 0..154 are free of white space, whose byte 155 is a space and
whose byte 156 is not white space, cut into the pieces the scanner sees. -/
theorem block_pieces (H : List Nat) (hlen : H.length = 512) (h155 : H.getD 155 0 = 32) :
    H = H.take 148 ++ ((H.drop 148).take 7 ++ 32 :: H.getD 156 0 :: H.drop 157) := by
  have e1 : H.drop 155 = (H.drop 148).drop 7 := by rw [List.drop_drop]
  have e2 : H.drop 155 = 32 :: H.getD 156 0 :: H.drop 157 := by
    rw [List.drop_eq_getElem_cons (by omega : 155 < H.length),
      List.drop_eq_getElem_cons (by omega : 155 + 1 < H.length),
      ← List.getD_eq_getElem H 0 (by omega : 155 < H.length),
      ← List.getD_eq_getElem H 0 (by omega : 155 + 1 < H.length), h155]
  rw [← e2, e1, List.take_append_drop, List.take_append_drop]

theorem parseHeader_prefix_changed (F F2 C rest rest2 : List Nat) (ty ty2 : Nat)
    (hF : F.length = 148) (hF2 : F2.length = 148) (hC : C.length = 7)
    (nF : ∀ b ∈ F, isspace b = false) (nF2 : ∀ b ∈ F2, isspace b = false)
    (nC : ∀ b ∈ C, isspace b = false)
    (nty : isspace ty = false) (nty2 : isspace ty2 = false)
    (hacc : parseHeader (F ++ (C ++ 32 :: ty :: rest)) 0 ≠ none)
    (hne : byteSum F + ty ≠ byteSum F2 + ty2) :
    parseHeader (F2 ++ (C ++ 32 :: ty2 :: rest2)) 0 = none := by
  rw [parseHeader_block _ 0 F C rest ty (List.drop_zero _) hF hC nF nC nty] at hacc
  rw [parseHeader_block _ 0 F2 C rest2 ty2 (List.drop_zero _) hF2 hC nF2 nC nty2]
  split at hacc
  · exact absurd rfl hacc
  · rename_i h1
    rw [if_pos]
    intro h2
    apply h1
    intro h3
    rw [h3] at h2
    omega

theorem parseHeader_tail_changed (F C rest rest2 : List Nat) (ty : Nat)
    (hF : F.length = 148) (hC : C.length = 7)
    (nF : ∀ b ∈ F, isspace b = false) (nC : ∀ b ∈ C, isspace b = false)
    (nty : isspace ty = false) :
    parseHeader (F ++ (C ++ 32 :: ty :: rest2)) 0 = parseHeader (F ++ (C ++ 32 :: ty :: rest)) 0 := by
  rw [parseHeader_block _ 0 F C rest ty (List.drop_zero _) hF hC nF nC nty,
    parseHeader_block _ 0 F C rest2 ty (List.drop_zero _) hF hC nF nC nty]

/-- C2 (as amended): for every 512-byte block that `parseHeader` accepts and in which
the fields sit at their offsets (no white-space byte in bytes 0..154, a space in byte
155, no white space in byte 156, as in every header `backup` writes for a name free of
white space), flipping one bit in bytes 0..147 or in byte 156 makes `parseHeader`
reject the block with the checksum failure, provided the flipped byte is not a
white-space byte; bytes 157..511 (link and padding) are not read, so any change there
leaves the result of `parseHeader` as it was. -/
theorem C2_checksum_integrity (H : List Nat) (p bit : Nat)
    (hlen : H.length = 512)
    (hns : ∀ b ∈ H.take 155, isspace b = false)
    (h155 : H.getD 155 0 = 32) (h156 : isspace (H.getD 156 0) = false)
    (hacc : parseHeader H 0 ≠ none)
    (hp : p < 148 ∨ p = 156)
    (hflip : isspace (H.getD p 0 ^^^ 2 ^ bit) = false) :
    parseHeader (H.set p (H.getD p 0 ^^^ 2 ^ bit)) 0 = none ∧
    ∀ q x, 157 ≤ q → parseHeader (H.set q x) 0 = parseHeader H 0 := by
  have hH := block_pieces H hlen h155
  have hF : (H.take 148).length = 148 := by rw [List.length_take]; omega
  have hC : ((H.drop 148).take 7).length = 7 := by
    rw [List.length_take, List.length_drop]; omega
  have h155' : H.take 155 = H.take 148 ++ (H.drop 148).take 7 := by
    rw [show 155 = 148 + 7 from rfl, List.take_add]
  have nF : ∀ b ∈ H.take 148, isspace b = false := by
    intro b hb
    apply hns b
    rw [h155']
    exact List.mem_append_left _ hb
  have nC : ∀ b ∈ (H.drop 148).take 7, isspace b = false := by
    intro b hb
    apply hns b
    rw [h155']
    exact List.mem_append_right _ hb
  have hacc' : parseHeader (H.take 148 ++ ((H.drop 148).take 7 ++
      32 :: H.getD 156 0 :: H.drop 157)) 0 ≠ none := by
    rw [← hH]; exact hacc
  have hne := xor_pow_ne (H.getD p 0) bit
  generalize H.getD p 0 ^^^ 2 ^ bit = x at hflip hne ⊢
  constructor
  · rcases hp with hp | hp
    · have hg : H.getD p 0 = (H.take 148).getD p 0 := by
        conv_lhs => rw [hH]
        rw [List.getD_append _ _ _ _ (by omega)]
      have hset : H.set p x = (H.take 148).set p x ++ ((H.drop 148).take 7 ++
          32 :: H.getD 156 0 :: H.drop 157) := by
        conv_lhs => rw [hH]
        rw [List.set_append_left _ _ (by omega)]
      rw [hset]
      have hs := byteSum_set (H.take 148) p x (by omega)
      apply parseHeader_prefix_changed (H.take 148) _ _ (H.drop 157) (H.drop 157)
        (H.getD 156 0) (H.getD 156 0) hF (by rw [List.length_set]; exact hF) hC nF ?_ nC h156
        h156 hacc'
      · rw [hg] at hne
        omega
      · intro b hb
        rcases List.mem_or_eq_of_mem_set hb with h | h
        · exact nF b h
        · rw [h]; exact hflip
    · subst hp
      have hset : H.set 156 x = H.take 148 ++ ((H.drop 148).take 7 ++
          32 :: x :: H.drop 157) := by
        conv_lhs => rw [hH]
        rw [List.set_append_right _ _ (by omega), List.set_append_right _ _ (by omega), hF, hC]
        rfl
      rw [hset]
      apply parseHeader_prefix_changed (H.take 148) (H.take 148) _ (H.drop 157) (H.drop 157)
        (H.getD 156 0) x hF hF hC nF nF nC h156 hflip hacc'
      omega
  · intro q y hq
    have hset : H.set q y = H.take 148 ++ ((H.drop 148).take 7 ++
        32 :: H.getD 156 0 :: (H.drop 157).set (q - 157) y) := by
      conv_lhs => rw [hH]
      rw [List.set_append_right _ _ (by omega), List.set_append_right _ _ (by omega), hF, hC]
      obtain ⟨m, rfl⟩ : ∃ m, q = m + 157 := ⟨q - 157, by omega⟩
      simp only [show m + 157 - 148 - 7 = m + 2 by omega, List.set_cons_succ,
        Nat.add_sub_cancel]
    rw [hset]
    conv_rhs => rw [hH]
    exact parseHeader_tail_changed _ _ _ _ _ hF hC nF nC h156

/-- C2 (as stated) fails: in the header that `backup` writes for `d/a.txt`, flipping
bit 0 of byte 300 (padding) gives a block that `parseHeader` accepts, decoding the same
header as before. -/
theorem C2_counterexample :
    backupHeader exGlobals exFile = some exHeader ∧
    exHeader.length = 512 ∧
    parseHeader exHeader 0 ≠ none ∧
    exHeader.set 300 (exHeader.getD 300 0 ^^^ 2 ^ 0) ≠ exHeader ∧
    parseHeader (exHeader.set 300 (exHeader.getD 300 0 ^^^ 2 ^ 0)) 0 = parseHeader exHeader 0 := by
  refine ⟨backupHeader_eq exGlobals exFile (by decide), by decide!, by decide!, by decide!,
    by decide!⟩

/-- C2 (as amended) at the header of `d/a.txt`, bit 0 of byte 0. -/
theorem C2_checksum_integrity_witness :
    exHeader.length = 512 ∧ (∀ b ∈ exHeader.take 155, isspace b = false) ∧
    exHeader.getD 155 0 = 32 ∧ isspace (exHeader.getD 156 0) = false ∧
    parseHeader exHeader 0 ≠ none ∧
    isspace (exHeader.getD 0 0 ^^^ 2 ^ 0) = false ∧
    parseHeader (exHeader.set 0 (exHeader.getD 0 0 ^^^ 2 ^ 0)) 0 = none :=
  ⟨by decide!, by decide!, by decide!, by decide!, by decide!, by decide!,
    (C2_checksum_integrity exHeader 0 0 (by decide!) (by decide!) (by decide!) (by decide!)
      (by decide!) (Or.inl (by decide)) (by decide!)).1⟩

/-- A flip that produces a white-space byte can pass unnoticed: in the header of a
directory modified at second 1700000000, flipping bit 4 of byte 100 (the first mode
digit `'0'`, which becomes a space) gives a block that `parseHeader` accepts and from
which the modification time is read as 626258176. -/
theorem parseHeader_space_flip :
    backupHeader exGlobals exRecentDir = some exRecentHeader ∧
    exRecentHeader.getD 100 0 ^^^ 2 ^ 4 = 32 ∧
    (parseHeader exRecentHeader 0).map (fun h => strtol (h.drop offModified))
      = some 1700000000 ∧
    (parseHeader (exRecentHeader.set 100 (exRecentHeader.getD 100 0 ^^^ 2 ^ 4)) 0).map
      (fun h => strtol (h.drop offModified)) = some 626258176 := by
  refine ⟨backupHeader_eq exGlobals exRecentDir (by decide), by decide!, by decide!, by decide!⟩

/-! ## Decoding a header that `backup` wrote -/

theorem isspace_digit (d : Nat) (h : 48 ≤ d ∧ d ≤ 55) : isspace d = false := by
  simp only [isspace, Bool.or_eq_false_iff, beq_eq_false_iff_ne]
  omega

theorem sfield_nonspace (n : Nat) (s : List Nat) (hs : ∀ b ∈ s, isspace b = false) :
    ∀ b ∈ sfield n 0 s, isspace b = false := by
  intro b hb
  simp only [sfield, List.mem_append, List.mem_singleton] at hb
  rcases hb with (hb | hb) | hb
  · exact hs b (List.mem_of_mem_take hb)
  · rw [hb]; rfl
  · rw [(List.mem_replicate.mp hb).2]; rfl

theorem fmtOct_nonspace (W v : Nat) : ∀ b ∈ fmtOct W v, isspace b = false :=
  fun b hb => isspace_digit b (fmtOct_digit W v b hb)

/-- The first 148 bytes of the header of an entry. -/
theorem headerWith_split (g : Globals) (v : Visit) (ck R : List Nat) :
    headerWith g v ck ++ R
      = (sfield 100 0 (renderedName g v) ++ (sfield 8 0 (fmtOct 6 v.sb.st_mode) ++
          (sfield 8 0 (fmtOct 6 v.sb.st_uid) ++ (sfield 8 0 (fmtOct 6 v.sb.st_gid) ++
          (sfield 12 0 (fmtOct 11 (toU32 v.sb.st_size)) ++
          sfield 12 0 (fmtOct 11 (toU32 v.sb.st_mtime)))))))
        ++ (ck ++ (typeMarker v :: (List.replicate 355 0 ++ R))) := by
  unfold headerWith
  simp only [List.append_assoc, List.singleton_append, List.cons_append, List.nil_append]

theorem typeMarker_nonspace (v : Visit) : isspace (typeMarker v) = false := by
  unfold typeMarker; split <;> rfl

theorem toSizeT_natCast (n : Nat) (h : n < 18446744073709551616) : toSizeT (n : Int) = n := by
  unfold toSizeT
  rw [Int.emod_eq_of_lt (by omega) (by omega)]
  simp

/-- `parseHeader` accepts the header `backup` wrote for an entry whose rendered name is
shorter than 100 bytes and free of white space, wherever the header lies in the
archive, and returns it with the checksum field blanked. -/
theorem parseHeader_backup (archive : List Nat) (index : Nat) (g : Globals) (v : Visit)
    (R : List Nat)
    (hd : archive.drop index
      = headerWith g v (sfield 8 32 (fmtOct 6 (entryChecksum g v))) ++ R)
    (hname : ∀ b ∈ renderedName g v, b < 256 ∧ isspace b = false) :
    parseHeader archive index = some (headerWith g v (List.replicate 8 32)) := by
  have hlt := entryChecksum_lt g v (fun b hb => by have := (hname b hb).1; omega)
  have h6 : (8:Nat) ^ 6 = 262144 := by norm_num
  rw [headerWith_split, sfield_checksum _ hlt,
    show octFixed 6 (entryChecksum g v) ++ [0, 32] ++ (typeMarker v :: (List.replicate 355 0 ++ R))
      = (octFixed 6 (entryChecksum g v) ++ [0]) ++
        32 :: typeMarker v :: (List.replicate 355 0 ++ R) by
      simp only [List.append_assoc, List.cons_append, List.nil_append]] at hd
  rw [parseHeader_block archive index _ _ _ _ hd
    (by simp only [List.length_append, sfield_length _ _ _ (by norm_num : 1 ≤ 100),
      sfield_length _ _ _ (by norm_num : 1 ≤ 8), sfield_length _ _ _ (by norm_num : 1 ≤ 12)])
    (by simp [octFixed_length])
    (by
      intro b hb
      simp only [List.mem_append] at hb
      rcases hb with hb | hb | hb | hb | hb | hb
      · exact sfield_nonspace _ _ (fun b hb => (hname b hb).2) b hb
      · exact sfield_nonspace _ _ (fmtOct_nonspace _ _) b hb
      · exact sfield_nonspace _ _ (fmtOct_nonspace _ _) b hb
      · exact sfield_nonspace _ _ (fmtOct_nonspace _ _) b hb
      · exact sfield_nonspace _ _ (fmtOct_nonspace _ _) b hb
      · exact sfield_nonspace _ _ (fmtOct_nonspace _ _) b hb)
    (by
      intro b hb
      simp only [List.mem_append, List.mem_singleton] at hb
      rcases hb with hb | hb
      · exact isspace_digit b (octFixed_digit _ _ b hb)
      · rw [hb]; rfl)
    (typeMarker_nonspace v)]
  have hck : strtol ((octFixed 6 (entryChecksum g v) ++ [0]) ++ [0])
      = (entryChecksum g v : Int) := by
    rw [List.append_assoc]
    exact strtol_octFixed 6 _ _ (by norm_num) hlt (by unfold LONG_MAX; omega)
  have hsum : byteSum (sfield 100 0 (renderedName g v) ++ (sfield 8 0 (fmtOct 6 v.sb.st_mode) ++
          (sfield 8 0 (fmtOct 6 v.sb.st_uid) ++ (sfield 8 0 (fmtOct 6 v.sb.st_gid) ++
          (sfield 12 0 (fmtOct 11 (toU32 v.sb.st_size)) ++
          sfield 12 0 (fmtOct 11 (toU32 v.sb.st_mtime))))))) + (256 + typeMarker v)
      = entryChecksum g v := by
    simp only [entryChecksum, headerWith, byteSum, List.sum_append, List.sum_cons,
      List.sum_replicate, List.sum_nil, smul_eq_mul]
    omega
  rw [hck, toSizeT_natCast _ (by omega), hsum, if_neg (by simp)]
  congr 1
  have := headerWith_split g v (List.replicate 8 32) []
  simp only [List.append_nil] at this
  rw [this]

theorem getD_of_drop (l t : List Nat) (n a d : Nat) (h : l.drop n = a :: t) :
    l.getD n d = a := by
  have hn : n < l.length := by
    by_contra hc
    rw [List.drop_of_length_le (by omega)] at h
    cases h
  have h2 : l = l.take n ++ a :: t := by rw [← h, List.take_append_drop]
  rw [h2, List.getD_append_right _ _ _ _ (by rw [List.length_take]; omega), List.length_take,
    Nat.min_eq_left (by omega), Nat.sub_self]
  rfl

theorem decoded_type (g : Globals) (v : Visit) :
    (headerWith g v (List.replicate 8 32)).getD offType 0 = typeMarker v :=
  getD_of_drop _ _ _ _ _ (headerWith_drop_type g v _ (by simp))

theorem cstr_append_nul (s X : List Nat) (h : ∀ b ∈ s, 0 < b) : cstr (s ++ 0 :: X) = s := by
  unfold cstr
  rw [List.takeWhile_append_of_pos (by
    intro b hb
    have := h b hb
    simp only [bne_iff_ne, ne_eq]
    omega)]
  simp

theorem decoded_name (g : Globals) (v : Visit) (ck : List Nat)
    (hlen : (renderedName g v).length < 100) (h0 : ∀ b ∈ renderedName g v, 0 < b) :
    cstr (headerWith g v ck) = renderedName g v := by
  unfold headerWith
  rw [sfield_short 100 0 _ hlen, List.append_assoc, List.cons_append]
  exact cstr_append_nul _ _ h0

theorem toU32_natCast (n : Nat) (h : n < 4294967296) : toU32 (n : Int) = n := by
  unfold toU32
  rw [Int.emod_eq_of_lt (by omega) (by omega)]
  simp

theorem decoded_mode (g : Globals) (v : Visit) (ck : List Nat) (h : v.sb.st_mode < 8 ^ 7) :
    toU32 (strtol ((headerWith g v ck).drop offMode)) = v.sb.st_mode := by
  have h7 : (8:Nat) ^ 7 = 2097152 := by norm_num
  rw [offMode, headerWith_drop_mode, strtol_sfield8 _ _ h, toU32_natCast _ (by omega)]

theorem decoded_mtime (g : Globals) (v : Visit) (ck : List Nat) (h0 : 0 ≤ v.sb.st_mtime)
    (h : v.sb.st_mtime < 4294967296) :
    strtol ((headerWith g v ck).drop offModified) = v.sb.st_mtime := by
  rw [offModified, headerWith_drop_modified, toU32_of_range _ h0 h,
    strtol_sfield12 _ _ (by omega)]
  omega

theorem decoded_size (g : Globals) (v : Visit) (ck : List Nat) (h0 : 0 ≤ v.sb.st_size)
    (h : v.sb.st_size < 4294967296) :
    strtol ((headerWith g v ck).drop offSize) = v.sb.st_size := by
  rw [offSize, headerWith_drop_size, toU32_of_range _ h0 h, strtol_sfield12 _ _ (by omega)]
  omega

theorem toInt32_natCast (n : Nat) (h : n < 2147483648) : toInt32 (n : Int) = n := by
  unfold toInt32
  rw [Int.emod_eq_of_lt (by omega) (by omega)]
  omega

/-! ## Reading file data back -/

theorem drop_add_of_drop (A X R : List Nat) (p : Nat) (h : A.drop p = X ++ R) :
    A.drop (p + X.length) = R := by
  rw [← List.drop_drop, h, List.drop_left]

theorem poke_zero_take (buf d : List Nat) : (poke buf 0 d).take d.length = d := by
  unfold poke
  simp only [List.take_zero, List.nil_append]
  exact List.take_left' rfl

theorem fread_fwrite_full (A : List Nat) (n : Nat) (st : RState) (d R : List Nat)
    (hd : A.drop st.pos = d ++ R) (hn : d.length = n) :
    (fwrite n (fread A n st)).pos = st.pos + n ∧
    (fwrite n (fread A n st)).eof = st.eof ∧
    (fwrite n (fread A n st)).ops = st.ops ++ [FsOp.fwrite d] := by
  have ht : (A.drop st.pos).take n = d := by rw [hd]; exact List.take_left' hn
  simp only [fwrite, fread, ht, hn, lt_irrefl, decide_False, Bool.or_false, true_and]
  rw [← hn, poke_zero_take]

theorem copyBlocks_spec (A : List Nat) (k : Nat) : ∀ (c R : List Nat) (st : RState),
    A.drop st.pos = c ++ R → 512 * k ≤ c.length →
    (copyBlocks A k st).pos = st.pos + 512 * k ∧
    (copyBlocks A k st).eof = st.eof ∧
    (copyBlocks A k st).ops = st.ops ++ chunkWrites k c := by
  induction k with
  | zero => intro c R st _ _; simp [copyBlocks, chunkWrites]
  | succ j ih =>
    intro c R st hd hk
    have hsplit : A.drop st.pos = c.take 512 ++ (c.drop 512 ++ R) := by
      rw [hd, ← List.append_assoc, List.take_append_drop]
    have hl : (c.take 512).length = 512 := by rw [List.length_take]; omega
    obtain ⟨h1, h2, h3⟩ := fread_fwrite_full A 512 st _ _ hsplit hl
    have hd' : A.drop (fwrite 512 (fread A 512 st)).pos = c.drop 512 ++ R := by
      rw [h1]
      have := drop_add_of_drop A _ _ st.pos hsplit
      rw [hl] at this
      exact this
    obtain ⟨i1, i2, i3⟩ := ih (c.drop 512) R _ hd' (by rw [List.length_drop]; omega)
    rw [copyBlocks]
    refine ⟨?_, ?_, ?_⟩
    · rw [i1, h1]; omega
    · rw [i2, h2]
    · rw [i3, h3, chunkWrites, List.append_assoc]
      rfl

theorem copyData_spec (A : List Nat) (c R : List Nat) (st : RState)
    (hd : A.drop st.pos = c ++ R) (heof : st.eof = false) :
    (copyData A (c.length / 512) (c.length % 512) st).pos
      = st.pos + c.length + padTo512 c.length ∧
    (copyData A (c.length / 512) (c.length % 512) st).eof = false ∧
    (copyData A (c.length / 512) (c.length % 512) st).ops = st.ops ++ dataWrites c := by
  have hk : 512 * (c.length / 512) ≤ c.length := Nat.mul_div_le _ _
  obtain ⟨b1, b2, b3⟩ := copyBlocks_spec A (c.length / 512) c R st hd hk
  have hsplit : A.drop st.pos
      = c.take (512 * (c.length / 512)) ++ (c.drop (512 * (c.length / 512)) ++ R) := by
    rw [hd, ← List.append_assoc, List.take_append_drop]
  have hlt : (c.take (512 * (c.length / 512))).length = 512 * (c.length / 512) := by
    rw [List.length_take]; omega
  have hd1 : A.drop (copyBlocks A (c.length / 512) st).pos
      = c.drop (512 * (c.length / 512)) ++ R := by
    rw [b1]
    have := drop_add_of_drop A _ _ st.pos hsplit
    rw [hlt] at this
    exact this
  have hrl : (c.drop (512 * (c.length / 512))).length = c.length % 512 := by
    rw [List.length_drop]
    have := Nat.div_add_mod c.length 512
    omega
  obtain ⟨f1, f2, f3⟩ := fread_fwrite_full A (c.length % 512) _ _ _ hd1 hrl
  have hm := Nat.mod_lt c.length (by norm_num : 0 < 512)
  unfold copyData
  by_cases h0 : c.length % 512 = 0
  · rw [if_neg (by omega)]
    refine ⟨?_, ?_, ?_⟩
    · rw [f1, b1]; unfold padTo512; omega
    · rw [f2, b2, heof]
    · rw [f3, b3, dataWrites, List.append_assoc]
  · rw [if_pos (by omega)]
    refine ⟨?_, rfl, ?_⟩
    · show (fwrite _ (fread A _ _)).pos + _ = _
      rw [f1, b1]; unfold padTo512; omega
    · show (fwrite _ (fread A _ _)).ops = _
      rw [f3, b3, dataWrites, List.append_assoc]

/-! ## One iteration of the loop of `restore` -/

theorem restoreLoop_dir (canCreate : List Nat → Bool) (A : List Nat) (endPos fuel : Nat)
    (st : RState) (P : List Nat) (heof : st.eof = false) (hpos : st.pos < endPos)
    (hp : parseHeader A st.pos = some P) (hty : P.getD offType 0 = 53) :
    restoreLoop canCreate A endPos (fuel + 1) st
      = restoreLoop canCreate A endPos fuel
          { st with
            pos := st.pos + 512
            eof := false
            ops := st.ops ++ dirOps (cstr P) (toU32 (strtol (P.drop offMode)))
              (toU32 (strtol (P.drop offOwner))) (toU32 (strtol (P.drop offGroup)))
              (strtol (P.drop offModified)) } := by
  rw [restoreLoop]
  simp only [heof, Bool.false_eq_true, if_false, ge_iff_le, Nat.not_le.mpr hpos, hp, hty,
    if_true]

theorem restoreLoop_file (canCreate : List Nat → Bool) (A : List Nat) (endPos fuel : Nat)
    (st : RState) (P : List Nat) (heof : st.eof = false) (hpos : st.pos < endPos)
    (hp : parseHeader A st.pos = some P) (hty : P.getD offType 0 ≠ 53)
    (hc : canCreate (cstr P) = true)
    (hrem : 0 ≤ toInt32 (Int.tmod (strtol (P.drop offSize)) 512)) :
    restoreLoop canCreate A endPos (fuel + 1) st
      = restoreLoop canCreate A endPos fuel
          { copyData A (toInt32 (Int.tdiv (strtol (P.drop offSize)) 512)).toNat
              (toInt32 (Int.tmod (strtol (P.drop offSize)) 512)).toNat
              { st with pos := st.pos + 512, eof := false,
                        ops := st.ops ++ [FsOp.fopen (cstr P)] } with
            ops := (copyData A (toInt32 (Int.tdiv (strtol (P.drop offSize)) 512)).toNat
              (toInt32 (Int.tmod (strtol (P.drop offSize)) 512)).toNat
              { st with pos := st.pos + 512, eof := false,
                        ops := st.ops ++ [FsOp.fopen (cstr P)] }).ops
              ++ fileEndOps (cstr P) (toU32 (strtol (P.drop offMode)))
                (toU32 (strtol (P.drop offOwner))) (toU32 (strtol (P.drop offGroup)))
                (strtol (P.drop offModified)) } := by
  rw [restoreLoop]
  simp only [heof, Bool.false_eq_true, if_false, ge_iff_le, Nat.not_le.mpr hpos, hp, hty, hc,
    not_lt.mpr hrem]
  rfl

theorem restoreLoop_end (canCreate : List Nat → Bool) (A : List Nat) (endPos fuel : Nat)
    (st : RState) (heof : st.eof = false) (hpos : endPos ≤ st.pos) :
    restoreLoop canCreate A endPos (fuel + 1) st = (Outcome.returned1, st) := by
  rw [restoreLoop]
  simp only [heof, Bool.false_eq_true, if_false, ge_iff_le, hpos, if_true]

/-! ## `restore` on the records of a walk -/

theorem headerOf_length (g : Globals) (v : Visit) : (headerOf g v).length = 512 :=
  headerWith_length g v _ (sfield_length _ _ _ (by norm_num))

theorem entryRecord_length_ge (g : Globals) (v : Visit) : 512 ≤ (entryRecord g v).length := by
  unfold entryRecord
  split
  · rw [headerOf_length]
  · rw [List.length_append, headerOf_length]; omega

theorem blocks_of_size (n : Nat) (h : n < 4294967296) :
    (toInt32 (Int.tdiv (n : Int) 512)).toNat = n / 512 := by
  rw [Int.tdiv_eq_ediv (by omega) (by norm_num)]
  unfold toInt32
  omega

theorem remainder_of_size (n : Nat) :
    toInt32 (Int.tmod (n : Int) 512) = ((n % 512 : Nat) : Int) := by
  rw [Int.tmod_eq_emod (by omega) (by norm_num)]
  unfold toInt32
  omega

theorem restore_entries (g : Globals) (canCreate : List Nat → Bool) (A : List Nat) :
    ∀ (vs : List Visit) (fuel : Nat) (st : RState),
    (∀ v ∈ vs, RoundTrippable g canCreate v) → st.eof = false →
    A.drop st.pos = vs.flatMap (entryRecord g) ++ List.replicate 1024 0 →
    vs.length + 1 ≤ fuel →
    (restoreLoop canCreate A (A.length - 1024) fuel st).1 = Outcome.returned1 ∧
    (restoreLoop canCreate A (A.length - 1024) fuel st).2.ops
      = st.ops ++ vs.flatMap (restoreOps g) := by
  intro vs
  induction vs with
  | nil =>
    intro fuel st _ heof hd hf
    obtain ⟨f, rfl⟩ : ∃ f, fuel = f + 1 := ⟨fuel - 1, by omega⟩
    have hl := congrArg List.length hd
    simp only [List.length_drop, List.flatMap_nil, List.nil_append, List.length_replicate] at hl
    rw [restoreLoop_end _ _ _ _ _ heof (by omega)]
    simp
  | cons v vs ih =>
    intro fuel st hrt heof hd hf
    obtain ⟨f, rfl⟩ : ∃ f, fuel = f + 1 := ⟨fuel - 1, by omega⟩
    have hfuel : vs.length + 1 ≤ f := by
      rw [List.length_cons] at hf; omega
    obtain ⟨hcut, hm0, hm1, hmode, hname, hlen, hopen, hfile⟩ := hrt v (List.mem_cons_self _ _)
    have hrt' : ∀ w ∈ vs, RoundTrippable g canCreate w :=
      fun w hw => hrt w (List.mem_cons_of_mem _ hw)
    have hd' : A.drop st.pos
        = entryRecord g v ++ (vs.flatMap (entryRecord g) ++ List.replicate 1024 0) := by
      rw [hd, List.flatMap_cons, List.append_assoc]
    have hpos : st.pos < A.length - 1024 := by
      have hl := congrArg List.length hd'
      simp only [List.length_drop, List.length_append, List.length_replicate] at hl
      have := entryRecord_length_ge g v
      omega
    have hname' : ∀ b ∈ renderedName g v, b < 256 ∧ isspace b = false :=
      fun b hb => ⟨(hname b hb).2.1, (hname b hb).2.2⟩
    have hn : cstr (headerWith g v (List.replicate 8 32)) = renderedName g v :=
      decoded_name g v _ hlen (fun b hb => (hname b hb).1)
    have hmo : toU32 (strtol ((headerWith g v (List.replicate 8 32)).drop offMode))
        = v.sb.st_mode := decoded_mode g v _ hmode
    have hmt : strtol ((headerWith g v (List.replicate 8 32)).drop offModified)
        = v.sb.st_mtime := decoded_mtime g v _ hm0 hm1
    cases hdir : S_ISDIR v.sb.st_mode
    · obtain ⟨hnow, hsize, hc32, hcreate⟩ := hfile hdir
      have hrec : entryRecord g v = headerOf g v ++
          (contentOf v ++ List.replicate (padTo512 (contentOf v).length) 0) := by
        unfold entryRecord; rw [if_neg (by simp [hdir])]
      have hd2 : A.drop st.pos = headerOf g v ++
          ((contentOf v ++ List.replicate (padTo512 (contentOf v).length) 0) ++
            (vs.flatMap (entryRecord g) ++ List.replicate 1024 0)) := by
        rw [hd', hrec, List.append_assoc]
      have hp := parseHeader_backup A st.pos g v _ hd2 hname'
      have hty : (headerWith g v (List.replicate 8 32)).getD offType 0 ≠ 53 := by
        rw [decoded_type]; unfold typeMarker; rw [if_neg (by simp [hdir])]; decide
      have hs0 : 0 ≤ v.sb.st_size := by rw [hsize]; exact Int.ofNat_nonneg _
      have hs1 : v.sb.st_size < 4294967296 := by rw [hsize]; exact_mod_cast hc32
      have hsz : strtol ((headerWith g v (List.replicate 8 32)).drop offSize)
          = ((contentOf v).length : Int) := by
        rw [decoded_size g v _ hs0 hs1, hsize]
      rw [restoreLoop_file canCreate A _ f st _ heof hpos hp hty (by rw [hn]; exact hcreate)
        (by rw [hsz, remainder_of_size]; exact Int.ofNat_nonneg _)]
      rw [hsz, remainder_of_size, blocks_of_size _ hc32, Int.toNat_ofNat, hn, hmo, hmt]
      have hd3 : A.drop (st.pos + 512) = contentOf v ++
          (List.replicate (padTo512 (contentOf v).length) 0 ++
            (vs.flatMap (entryRecord g) ++ List.replicate 1024 0)) := by
        have := drop_add_of_drop A _ _ st.pos hd2
        rw [headerOf_length] at this
        rw [this, List.append_assoc]
      obtain ⟨c1, c2, c3⟩ := copyData_spec A (contentOf v) _
        { st with pos := st.pos + 512, eof := false,
                  ops := st.ops ++ [FsOp.fopen (renderedName g v)] } hd3 rfl
      have hd4 : A.drop (st.pos + 512 + (contentOf v).length + padTo512 (contentOf v).length)
          = vs.flatMap (entryRecord g) ++ List.replicate 1024 0 := by
        have h5 : A.drop (st.pos + 512) = (contentOf v ++
            List.replicate (padTo512 (contentOf v).length) 0) ++
            (vs.flatMap (entryRecord g) ++ List.replicate 1024 0) := by
          rw [hd3, List.append_assoc]
        have := drop_add_of_drop A _ _ (st.pos + 512) h5
        simp only [List.length_append, List.length_replicate] at this
        rw [← this, Nat.add_assoc (st.pos + 512)]
      generalize copyData A ((contentOf v).length / 512) ((contentOf v).length % 512)
        { st with pos := st.pos + 512, eof := false,
                  ops := st.ops ++ [FsOp.fopen (renderedName g v)] } = r at c1 c2 c3 ⊢
      obtain ⟨i1, i2⟩ := ih f
        { r with
          ops := r.ops ++ fileEndOps (renderedName g v) v.sb.st_mode
            (toU32 (strtol ((headerWith g v (List.replicate 8 32)).drop offOwner)))
            (toU32 (strtol ((headerWith g v (List.replicate 8 32)).drop offGroup)))
            v.sb.st_mtime } hrt' c2
        (by
          show A.drop r.pos = _
          rw [c1]; exact hd4)
        hfuel
      refine ⟨i1, ?_⟩
      rw [i2, c3, List.flatMap_cons]
      simp only [restoreOps, hdir, Bool.false_eq_true, if_false, decodedUid, decodedGid,
        List.append_assoc]
    · have hrec : entryRecord g v = headerOf g v := by
        unfold entryRecord; rw [if_pos hdir]
      have hd2 : A.drop st.pos = headerOf g v ++
          (vs.flatMap (entryRecord g) ++ List.replicate 1024 0) := by
        rw [hd', hrec]
      have hp := parseHeader_backup A st.pos g v _ hd2 hname'
      have hty : (headerWith g v (List.replicate 8 32)).getD offType 0 = 53 := by
        rw [decoded_type]; unfold typeMarker; rw [if_pos hdir]
      rw [restoreLoop_dir canCreate A _ f st _ heof hpos hp hty, hn, hmo, hmt]
      have hd3 : A.drop (st.pos + 512)
          = vs.flatMap (entryRecord g) ++ List.replicate 1024 0 := by
        have := drop_add_of_drop A _ _ st.pos hd2
        rw [headerOf_length] at this
        exact this
      obtain ⟨i1, i2⟩ := ih f
        { st with pos := st.pos + 512, eof := false,
                  ops := st.ops ++ dirOps (renderedName g v) v.sb.st_mode
                    (toU32 (strtol ((headerWith g v (List.replicate 8 32)).drop offOwner)))
                    (toU32 (strtol ((headerWith g v (List.replicate 8 32)).drop offGroup)))
                    v.sb.st_mtime } hrt' rfl hd3 hfuel
      refine ⟨i1, ?_⟩
      rw [i2, List.flatMap_cons]
      simp only [restoreOps, hdir, if_true, decodedUid, decodedGid, List.append_assoc]

/-! ## The archive of a walk whose entries are all archived -/

theorem input_of_isSome (v : Visit) (h : v.input.isSome = true) :
    v.input = some (contentOf v) := by
  unfold contentOf
  cases hi : v.input with
  | none => rw [hi] at h; cases h
  | some c => rfl

theorem padTo512_add_aligned (n m : Nat) (h : n % 512 = 0) :
    padTo512 (n + 512 + m) = padTo512 m := by
  unfold padTo512
  omega

theorem backup_roundtrippable (g : Globals) (canCreate : List Nat → Bool) (v : Visit)
    (s : BState) (hal : s.archive.length % 512 = 0) (h : RoundTrippable g canCreate v) :
    backup g v s
      = (0, { archive := s.archive ++ entryRecord g v, openInputs := s.openInputs }) := by
  obtain ⟨hcut, _, _, _, _, hlen, hopen, hfile⟩ := h
  have hin := input_of_isSome v hopen
  have hh : backupHeader g v = some (headerOf g v) := backupHeader_eq g v hlen
  cases hdir : S_ISDIR v.sb.st_mode
  · obtain ⟨hnow, _, _, _⟩ := hfile hdir
    rw [backup_file g v s _ _ (le_of_lt hcut) hnow hdir hin hh]
    unfold entryRecord fileRecord
    rw [if_neg (by simp [hdir]), headerOf_length, padTo512_add_aligned _ _ hal,
      List.append_assoc]
  · rw [backup_directory g v s _ _ (le_of_lt hcut) hdir hin hh]
    unfold entryRecord
    rw [if_pos hdir]

theorem entryRecord_aligned (g : Globals) (v : Visit) : (entryRecord g v).length % 512 = 0 := by
  unfold entryRecord
  split
  · rw [headerOf_length]
  · simp only [List.length_append, headerOf_length, List.length_replicate]
    have := padTo512_aligned (contentOf v).length
    omega

theorem nftw_roundtrippable (g : Globals) (canCreate : List Nat → Bool) :
    ∀ (vs : List Visit) (s : BState), s.archive.length % 512 = 0 →
    (∀ v ∈ vs, RoundTrippable g canCreate v) →
    nftw g vs s
      = (0, { archive := s.archive ++ vs.flatMap (entryRecord g),
              openInputs := s.openInputs }) := by
  intro vs
  induction vs with
  | nil => intro s _ _; simp [nftw]
  | cons v vs ih =>
    intro s hal h
    have hb := backup_roundtrippable g canCreate v s hal (h v (List.mem_cons_self _ _))
    rw [nftw, hb]
    simp only [ne_eq, not_true_eq_false, if_false]
    rw [ih _ (by
        simp only [List.length_append]
        have := entryRecord_aligned g v
        omega) (fun w hw => h w (List.mem_cons_of_mem _ hw))]
    simp only [List.flatMap_cons, List.append_assoc]

theorem length_le_records (g : Globals) (vs : List Visit) :
    vs.length ≤ (vs.flatMap (entryRecord g)).length := by
  induction vs with
  | nil => simp
  | cons v vs ih =>
    simp only [List.flatMap_cons, List.length_append, List.length_cons]
    have := entryRecord_length_ge g v
    omega

/-! ## The calls of `restore` without `chown`, and the bytes written -/

theorem filter_chunkWrites (k : Nat) : ∀ (c : List Nat),
    (chunkWrites k c).filter (fun o => !o.isChown) = chunkWrites k c := by
  induction k with
  | zero => intro c; rfl
  | succ j ih =>
    intro c
    rw [chunkWrites, List.filter_cons_of_pos (by rfl), ih]

theorem filter_restoreOps (g : Globals) (v : Visit) :
    (restoreOps g v).filter (fun o => !o.isChown) = expectedOps g v := by
  unfold restoreOps expectedOps
  split
  · rfl
  · rw [List.filter_append, List.filter_append]
    unfold dataWrites
    rw [List.filter_append, filter_chunkWrites]
    rfl

theorem filter_flatMap_restoreOps (g : Globals) (vs : List Visit) :
    (vs.flatMap (restoreOps g)).filter (fun o => !o.isChown) = vs.flatMap (expectedOps g) := by
  induction vs with
  | nil => rfl
  | cons v vs ih =>
    simp only [List.flatMap_cons, List.filter_append, ih, filter_restoreOps]

theorem written_append (a b : List FsOp) : written (a ++ b) = written a ++ written b := by
  induction a with
  | nil => rfl
  | cons o t ih =>
    cases o <;> simp [written, ih]

theorem written_chunkWrites (k : Nat) : ∀ (c : List Nat), 512 * k ≤ c.length →
    written (chunkWrites k c) = c.take (512 * k) := by
  induction k with
  | zero => intro c _; simp [chunkWrites, written]
  | succ j ih =>
    intro c h
    rw [chunkWrites, written, ih _ (by rw [List.length_drop]; omega)]
    rw [show 512 * (j + 1) = 512 + 512 * j by ring, List.take_add]

theorem written_dataWrites (c : List Nat) : written (dataWrites c) = c := by
  unfold dataWrites
  rw [written_append, written_chunkWrites _ _ (Nat.mul_div_le _ _)]
  simp [written]

theorem written_expectedOps (g : Globals) (v : Visit) (h : S_ISDIR v.sb.st_mode = false) :
    written (expectedOps g v) = contentOf v := by
  unfold expectedOps
  rw [if_neg (by simp [h]), written_append, written_append, written_dataWrites]
  simp [written]

/-! ## The round trip -/

theorem mainBackup_roundtrippable (g : Globals) (canCreate : List Nat → Bool)
    (visits : List Visit) (h : ∀ v ∈ visits, RoundTrippable g canCreate v) :
    mainBackup g visits
      = (ExitStatus.EXIT_SUCCESS,
          some (visits.flatMap (entryRecord g) ++ List.replicate 1024 0)) := by
  have hn := nftw_roundtrippable g canCreate visits emptyState rfl h
  rw [mainBackup_of_ok g visits (by rw [hn]), hn, fpad_eq]
  rfl

theorem restore_roundtrippable (g : Globals) (canCreate : List Nat → Bool)
    (visits : List Visit) (buffer0 : List Nat)
    (h : ∀ v ∈ visits, RoundTrippable g canCreate v) :
    (restore canCreate (visits.flatMap (entryRecord g) ++ List.replicate 1024 0) buffer0).1
      = Outcome.returned1 ∧
    (restore canCreate (visits.flatMap (entryRecord g) ++ List.replicate 1024 0) buffer0).2.ops
      = visits.flatMap (restoreOps g) := by
  have hl := length_le_records g visits
  have := restore_entries g canCreate
    (visits.flatMap (entryRecord g) ++ List.replicate 1024 0) visits
    ((visits.flatMap (entryRecord g) ++ List.replicate 1024 0).length + 1)
    { pos := 0, eof := false, buffer := buffer0, ops := [] } h rfl (List.drop_zero _)
    (by rw [List.length_append]; omega)
  unfold restore
  refine ⟨this.1, ?_⟩
  rw [this.2, List.nil_append]

/-- C1 (as amended): for every walk whose entries all satisfy `RoundTrippable` (modified
strictly after the cutoff at a time in `[0, 2^32)`, mode below 8^7, rendered name
shorter than 100 bytes without NUL or white-space bytes, source can be opened, and for
a non-directory: modified before the run started, size equal to the content length and
below 2^32, destination can be created), `backup` succeeds and writes the records of
the entries followed by the trailer; `restore` on that archive returns 1 and issues,
entry by entry in walk order and `chown` calls apart, `mkdir(name, mode)` and
`utime(name, mtime)` for a directory and `fopen(name)`, the writes, `fclose`,
`chmod(name, mode)`, `utime(name, mtime)` for a file, the bytes written being the
file's content. -/
theorem C1_round_trip (g : Globals) (canCreate : List Nat → Bool) (visits : List Visit)
    (buffer0 : List Nat) (h : ∀ v ∈ visits, RoundTrippable g canCreate v) :
    mainBackup g visits
      = (ExitStatus.EXIT_SUCCESS,
          some (visits.flatMap (entryRecord g) ++ List.replicate 1024 0)) ∧
    (restore canCreate (visits.flatMap (entryRecord g) ++ List.replicate 1024 0) buffer0).1
      = Outcome.returned1 ∧
    (restore canCreate (visits.flatMap (entryRecord g) ++ List.replicate 1024 0)
        buffer0).2.ops.filter (fun o => !o.isChown)
      = visits.flatMap (expectedOps g) ∧
    ∀ v ∈ visits, S_ISDIR v.sb.st_mode = false → written (expectedOps g v) = contentOf v := by
  obtain ⟨r1, r2⟩ := restore_roundtrippable g canCreate visits buffer0 h
  refine ⟨mainBackup_roundtrippable g canCreate visits h, r1, ?_, ?_⟩
  · rw [r2, filter_flatMap_restoreOps]
  · intro v _ hv
    exact written_expectedOps g v hv

/-- C1 (as stated) fails: the tree holding only `d/a.txt`, modified at the second the
run started (the cutoff being strictly earlier), gives an archive that is the bare
trailer, and `restore` on it returns 1 having recreated nothing. -/
theorem C1_counterexample :
    exGlobals.gl_startDate < exLate.sb.st_mtime ∧
    mainBackup exGlobals [exLate]
      = (ExitStatus.EXIT_SUCCESS, some (List.replicate 1024 0)) ∧
    restore (fun _ => true) (List.replicate 1024 0) []
      = (Outcome.returned1, { pos := 0, eof := false, buffer := [], ops := [] }) := by
  refine ⟨by decide, by decide!, by decide!⟩

theorem exVisits_roundTrippable :
    ∀ v ∈ [exDir, exFile], RoundTrippable exGlobals (fun _ => true) v := by
  intro v hv
  simp only [List.mem_cons, List.mem_singleton, List.not_mem_nil, or_false] at hv
  rcases hv with rfl | rfl
  · unfold RoundTrippable
    refine ⟨by decide, by decide, by decide, by decide, by decide, by decide, by decide, ?_⟩
    intro h; exact absurd h (by decide)
  · unfold RoundTrippable
    exact ⟨by decide, by decide, by decide, by decide, by decide, by decide, by decide,
      fun _ => ⟨by decide, by decide, by decide, rfl⟩⟩

/-- C1 (as amended) at the walk over `d` and `d/a.txt`. -/
theorem C1_round_trip_witness :
    (∀ v ∈ [exDir, exFile], RoundTrippable exGlobals (fun _ => true) v) ∧
    (restore (fun _ => true)
      ([exDir, exFile].flatMap (entryRecord exGlobals) ++ List.replicate 1024 0) []).1
      = Outcome.returned1 :=
  ⟨exVisits_roundTrippable,
    (C1_round_trip exGlobals (fun _ => true) [exDir, exFile] [] exVisits_roundTrippable).2.1⟩

/-! ## Archive length, skipped and rejected entries -/

theorem not_archived_unchanged (g : Globals) (v : Visit) (s : BState)
    (h : isArchived g v = false) : (backup g v s).2.archive = s.archive := by
  by_cases hf : v.sb.st_mtime < g.gl_startDate ∨
      (g.gl_now ≤ v.sb.st_mtime ∧ S_ISDIR v.sb.st_mode = false)
  · rw [backup_filtered g v s hf]
  · have hcut : g.gl_startDate ≤ v.sb.st_mtime := by
      by_contra hh; exact hf (Or.inl (by omega))
    have hnow : v.sb.st_mtime < g.gl_now ∨ S_ISDIR v.sb.st_mode = true := by
      by_contra hh
      push_neg at hh
      exact hf (Or.inr ⟨by omega, by simpa using hh.2⟩)
    cases hopen : v.input with
    | none => rw [backup_skipped g v s hopen]
    | some c =>
      by_cases hlen : (renderedName g v).length < 100
      · exfalso
        have : isArchived g v = true := by
          unfold isArchived
          simp only [Bool.and_eq_true, Bool.or_eq_true, decide_eq_true_eq]
          exact ⟨⟨⟨hcut, hnow⟩, by rw [hopen]; rfl⟩, hlen⟩
        rw [this] at h
        cases h
      · rw [backup_rejected g v s c hcut hnow hopen (by omega)]

theorem isArchived_iff (g : Globals) (v : Visit) :
    isArchived g v = true ↔
      g.gl_startDate ≤ v.sb.st_mtime ∧
      (v.sb.st_mtime < g.gl_now ∨ S_ISDIR v.sb.st_mode = true) ∧
      v.input.isSome = true ∧ (renderedName g v).length < 100 := by
  unfold isArchived
  simp only [Bool.and_eq_true, Bool.or_eq_true, decide_eq_true_eq]
  tauto

theorem ceil512 (n : Nat) : n + padTo512 n = 512 * ((n + 511) / 512) := by
  unfold padTo512
  omega

theorem backup_length (g : Globals) (v : Visit) (s : BState)
    (hal : s.archive.length % 512 = 0) :
    (backup g v s).2.archive.length = s.archive.length + recordLength g v := by
  cases ha : isArchived g v
  · rw [not_archived_unchanged g v s ha]
    unfold recordLength
    rw [ha]
    rfl
  · obtain ⟨hcut, hnow, hopen, hlen⟩ := (isArchived_iff g v).mp ha
    have hin := input_of_isSome v hopen
    have hh : backupHeader g v = some (headerOf g v) := backupHeader_eq g v hlen
    unfold recordLength
    rw [ha, if_pos rfl]
    cases hdir : S_ISDIR v.sb.st_mode
    · have hnow' : v.sb.st_mtime < g.gl_now := by
        rcases hnow with h1 | h1
        · exact h1
        · rw [hdir] at h1; cases h1
      rw [backup_file g v s _ _ hcut hnow' hdir hin hh, if_neg (by simp)]
      simp only [List.length_append, fileRecord_length, headerOf_length,
        padTo512_add_aligned _ _ hal]
      have := ceil512 (contentOf v).length
      omega
    · rw [backup_directory g v s _ _ hcut hdir hin hh, if_pos rfl]
      simp only [List.length_append, headerOf_length]

theorem nftw_length (g : Globals) (visits : List Visit) : ∀ (s : BState),
    s.archive.length % 512 = 0 → (nftw g visits s).1 = 0 →
    (nftw g visits s).2.archive.length
      = s.archive.length + (visits.map (recordLength g)).sum := by
  induction visits with
  | nil => intro s _ _; simp [nftw]
  | cons v vs ih =>
    intro s hal hret
    rw [nftw] at hret ⊢
    by_cases hb : (backup g v s).1 = 0
    · rw [if_neg (by simp [hb])] at hret ⊢
      rw [ih _ (backup_aligned g v s hal) hret, backup_length g v s hal]
      simp only [List.map_cons, List.sum_cons]
      omega
    · rw [if_pos hb] at hret
      exact absurd hret hb

/-- C11: the length of a completed archive is 1024 plus, over the entries of the walk,
nothing for an entry that is not archived, 512 for an archived directory and
`512 + 512 * ceil(n / 512)` for an archived file from which `n` bytes were read; an
entry that is not archived leaves the archive as it was. -/
theorem C11_archive_length (g : Globals) (visits : List Visit) (a : List Nat)
    (h : mainBackup g visits = (ExitStatus.EXIT_SUCCESS, some a)) :
    a.length = 1024 + (visits.map (recordLength g)).sum ∧
    (∀ v, isArchived g v = true → S_ISDIR v.sb.st_mode = true → recordLength g v = 512) ∧
    (∀ v, isArchived g v = true → S_ISDIR v.sb.st_mode = false →
      recordLength g v = 512 + 512 * (((contentOf v).length + 511) / 512)) ∧
    (∀ v s, isArchived g v = false →
      recordLength g v = 0 ∧ (backup g v s).2.archive = s.archive) := by
  refine ⟨?_, ?_, ?_, ?_⟩
  · unfold mainBackup at h
    split at h
    · rename_i h0
      simp only [Prod.mk.injEq, Option.some.injEq, true_and] at h
      subst h
      rw [fpad_eq, List.length_append, List.length_replicate,
        nftw_length g visits emptyState rfl h0]
      simp only [emptyState, List.length_nil]
      omega
    · simp at h
  · intro v ha hd
    unfold recordLength
    rw [if_pos ha, if_pos hd]
  · intro v ha hd
    unfold recordLength
    rw [if_pos ha, if_neg (by simp [hd])]
  · intro v s ha
    refine ⟨?_, not_archived_unchanged g v s ha⟩
    unfold recordLength
    rw [if_neg (by simp [ha])]

/-- C11 at the walk over the directory `d` and the 10-byte file `d/a.txt` with the
cutoff at the epoch: 512 + 512 + 512 + 1024 = 2560 bytes. -/
theorem C11_archive_length_witness :
    ∃ a, mainBackup exGlobals [exDir, exFile] = (ExitStatus.EXIT_SUCCESS, some a) ∧
      a.length = 2560 :=
  ⟨_, mainBackup_of_ok _ _ (by decide!),
    ((C11_archive_length exGlobals [exDir, exFile] _
      (mainBackup_of_ok _ _ (by decide!))).1).trans (by decide)⟩

/-- C12: an entry whose source cannot be opened leaves the callback's state (archive
and handles) exactly as it was and makes it return 0, and the walk goes on with the
entries that follow. -/
theorem C12_unreadable_skipped (g : Globals) (v : Visit) (s : BState) (vs : List Visit)
    (hopen : v.input = none) :
    backup g v s = (0, s) ∧ nftw g (v :: vs) s = nftw g vs s := by
  have hb := backup_skipped g v s hopen
  refine ⟨hb, ?_⟩
  rw [nftw, hb]
  simp

/-- C12 at `d/a.txt` unreadable, followed by the directory `d`. -/
theorem C12_unreadable_skipped_witness :
    exUnreadable.input = none ∧
    nftw exGlobals [exUnreadable, exDir] emptyState = nftw exGlobals [exDir] emptyState :=
  ⟨rfl, (C12_unreadable_skipped exGlobals exUnreadable emptyState [exDir] rfl).2⟩

theorem nftw_append (g : Globals) (pre post : List Visit) : ∀ (s : BState),
    nftw g (pre ++ post) s
      = if (nftw g pre s).1 ≠ 0 then nftw g pre s else nftw g post (nftw g pre s).2 := by
  induction pre with
  | nil => intro s; simp [nftw]
  | cons v vs ih =>
    intro s
    by_cases hb : (backup g v s).1 = 0
    · have e1 : nftw g (v :: (vs ++ post)) s = nftw g (vs ++ post) (backup g v s).2 := by
        rw [nftw, if_neg (by simp [hb])]
      have e2 : nftw g (v :: vs) s = nftw g vs (backup g v s).2 := by
        rw [nftw, if_neg (by simp [hb])]
      rw [List.cons_append, e1, e2, ih]
    · have e1 : nftw g (v :: (vs ++ post)) s = backup g v s := by
        rw [nftw, if_pos hb]
      have e2 : nftw g (v :: vs) s = backup g v s := by
        rw [nftw, if_pos hb]
      rw [List.cons_append, e1, e2, if_pos hb]

/-- C14: when the callback meets an entry that passes the filter, can be opened and
whose rendered name has 100 bytes or more, it appends nothing and returns 1; the walk
returns non-zero with the archive as it was before that entry (no later entry is
archived), and the program removes the archive file without writing the trailer and
ends with failure status. -/
theorem C14_oversized_aborts (g : Globals) (pre post : List Visit) (v : Visit)
    (c : List Nat) (hcut : g.gl_startDate ≤ v.sb.st_mtime)
    (hnow : v.sb.st_mtime < g.gl_now ∨ S_ISDIR v.sb.st_mode = true)
    (hopen : v.input = some c) (hlen : 100 ≤ (renderedName g v).length) :
    (∀ s, (backup g v s).1 = 1 ∧ (backup g v s).2.archive = s.archive) ∧
    (nftw g (pre ++ v :: post) emptyState).1 ≠ 0 ∧
    (nftw g (pre ++ v :: post) emptyState).2.archive = (nftw g pre emptyState).2.archive ∧
    mainBackup g (pre ++ v :: post) = (ExitStatus.EXIT_FAILURE, none) := by
  have hb : ∀ s, backup g v s = (1, { s with openInputs := s.openInputs + 1 }) :=
    fun s => backup_rejected g v s c hcut hnow hopen hlen
  have hn : ∀ s, nftw g (v :: post) s = (1, { s with openInputs := s.openInputs + 1 }) := by
    intro s
    rw [nftw, hb]
    simp
  have hne : (nftw g (pre ++ v :: post) emptyState).1 ≠ 0 := by
    rw [nftw_append]
    split
    · assumption
    · rw [hn]; simp
  refine ⟨fun s => by rw [hb]; exact ⟨rfl, rfl⟩, hne, ?_, ?_⟩
  · rw [nftw_append]
    split
    · rfl
    · rw [hn]
  · unfold mainBackup
    rw [if_neg hne]

/-- C14 at the walk over `d`, a file with a 100-byte name, and `d/a.txt`. -/
theorem C14_oversized_aborts_witness :
    exGlobals.gl_startDate ≤ exLongName.sb.st_mtime ∧
    (exLongName.sb.st_mtime < exGlobals.gl_now ∨ S_ISDIR exLongName.sb.st_mode = true) ∧
    100 ≤ (renderedName exGlobals exLongName).length ∧
    mainBackup exGlobals ([exDir] ++ exLongName :: [exFile]) = (ExitStatus.EXIT_FAILURE, none) :=
  ⟨by decide, Or.inl (by decide), by decide,
    (C14_oversized_aborts exGlobals [exDir] [exFile] exLongName _ (by decide)
      (Or.inl (by decide)) rfl (by decide)).2.2.2⟩

/-! ## Source handles and walk flags -/

theorem backup_handles (g : Globals) (v : Visit) (s : BState) (h : (backup g v s).1 = 0) :
    (backup g v s).2.openInputs = s.openInputs := by
  by_cases hf : v.sb.st_mtime < g.gl_startDate ∨
      (g.gl_now ≤ v.sb.st_mtime ∧ S_ISDIR v.sb.st_mode = false)
  · rw [backup_filtered g v s hf]
  · have hcut : g.gl_startDate ≤ v.sb.st_mtime := by
      by_contra hh; exact hf (Or.inl (by omega))
    have hnow : v.sb.st_mtime < g.gl_now ∨ S_ISDIR v.sb.st_mode = true := by
      by_contra hh
      push_neg at hh
      exact hf (Or.inr ⟨by omega, by simpa using hh.2⟩)
    cases hopen : v.input with
    | none => rw [backup_skipped g v s hopen]
    | some c =>
      by_cases hlen : (renderedName g v).length < 100
      · have hh := backupHeader_eq g v hlen
        cases hd : S_ISDIR v.sb.st_mode
        · have hnow' : v.sb.st_mtime < g.gl_now := by
            rcases hnow with h1 | h1
            · exact h1
            · rw [hd] at h1; cases h1
          rw [backup_file g v s c _ hcut hnow' hd hopen hh]
        · rw [backup_directory g v s c _ hcut hd hopen hh]
      · rw [backup_rejected g v s c hcut hnow hopen (by omega)] at h
        cases h

/-- C18 fails on the oversized-name path: for the file with a 100-byte name, which
passes the filter and can be opened, the callback returns 1 with the source handle it
opened still open (lines 117 and 125 return without `fclose(input)`); on every path
that returns 0 the number of open source handles is what it was before the call. -/
theorem C18_handle_left_open :
    backup exGlobals exLongName emptyState = (1, { archive := [], openInputs := 1 }) ∧
    ∀ (g : Globals) (v : Visit) (s : BState),
      (backup g v s).1 = 0 → (backup g v s).2.openInputs = s.openInputs :=
  ⟨by decide, backup_handles⟩

/-- C19 fails: the flags argument passed to `nftw` is the literal 0 in `backup.c`, in
`backupfles.c` and in `listfiles.c`, so the bit `FTW_PHYS` is not set in it whatever
the value of the constant, while the local `flags`, which is never passed on, has the
bit set. -/
theorem C19_flags_not_passed (FTW_PHYS : Nat) :
    nftwFlagsArgument &&& FTW_PHYS = 0 ∧
    backupflesFlagsArgument &&& FTW_PHYS = 0 ∧
    listfilesFlagsArgument &&& FTW_PHYS = 0 ∧
    mainFlags FTW_PHYS &&& FTW_PHYS = FTW_PHYS := by
  simp [nftwFlagsArgument, backupflesFlagsArgument, listfilesFlagsArgument, mainFlags]

/-! ## The header codec under explicit bounds -/

theorem decoded_uid (g : Globals) (v : Visit) (ck : List Nat) (h : v.sb.st_uid < 8 ^ 7) :
    toU32 (strtol ((headerWith g v ck).drop offOwner)) = v.sb.st_uid := by
  have h7 : (8:Nat) ^ 7 = 2097152 := by norm_num
  rw [offOwner, headerWith_drop_owner, strtol_sfield8 _ _ h, toU32_natCast _ (by omega)]

theorem decoded_gid (g : Globals) (v : Visit) (ck : List Nat) (h : v.sb.st_gid < 8 ^ 7) :
    toU32 (strtol ((headerWith g v ck).drop offGroup)) = v.sb.st_gid := by
  have h7 : (8:Nat) ^ 7 = 2097152 := by norm_num
  rw [offGroup, headerWith_drop_group, strtol_sfield8 _ _ h, toU32_natCast _ (by omega)]

/-- C20: for every entry whose rendered name is at most 99 bytes long and made of
non-NUL bytes none of which is white space, whose mode, owner id and group id are
below 8^7 and whose size and modification time are non-negative and below 2^32,
`parseHeader` accepts the block that `backup` wrote, and the name, mode, owner id,
group id, size, modification time and type marker that `restore` derives from the
returned header are those of the entry. -/
theorem C20_header_codec (g : Globals) (v : Visit)
    (hlen : (renderedName g v).length ≤ 99)
    (hname : ∀ b ∈ renderedName g v, 0 < b ∧ b < 256 ∧ isspace b = false)
    (hmode : v.sb.st_mode < 8 ^ 7) (huid : v.sb.st_uid < 8 ^ 7) (hgid : v.sb.st_gid < 8 ^ 7)
    (hsize0 : 0 ≤ v.sb.st_size) (hsize : v.sb.st_size < 4294967296)
    (hmtime0 : 0 ≤ v.sb.st_mtime) (hmtime : v.sb.st_mtime < 4294967296) :
    ∃ hdr P, backupHeader g v = some hdr ∧ parseHeader hdr 0 = some P ∧
      cstr P = renderedName g v ∧
      toU32 (strtol (P.drop offMode)) = v.sb.st_mode ∧
      toU32 (strtol (P.drop offOwner)) = v.sb.st_uid ∧
      toU32 (strtol (P.drop offGroup)) = v.sb.st_gid ∧
      strtol (P.drop offSize) = v.sb.st_size ∧
      strtol (P.drop offModified) = v.sb.st_mtime ∧
      P.getD offType 0 = (if S_ISDIR v.sb.st_mode = true then 53 else 48) := by
  have hl : (renderedName g v).length < 100 := by omega
  refine ⟨_, headerWith g v (List.replicate 8 32), backupHeader_eq g v hl, ?_,
    decoded_name g v _ hl (fun b hb => (hname b hb).1), decoded_mode g v _ hmode,
    decoded_uid g v _ huid, decoded_gid g v _ hgid, decoded_size g v _ hsize0 hsize,
    decoded_mtime g v _ hmtime0 hmtime, decoded_type g v⟩
  exact parseHeader_backup _ 0 g v [] (by rw [List.drop_zero, List.append_nil])
    (fun b hb => ⟨(hname b hb).2.1, (hname b hb).2.2⟩)

/-- C20 at `d/a.txt`. -/
theorem C20_header_codec_witness :
    (renderedName exGlobals exFile).length ≤ 99 ∧
    (∀ b ∈ renderedName exGlobals exFile, 0 < b ∧ b < 256 ∧ isspace b = false) ∧
    exFile.sb.st_mode < 8 ^ 7 ∧ exFile.sb.st_uid < 8 ^ 7 ∧ exFile.sb.st_gid < 8 ^ 7 ∧
    0 ≤ exFile.sb.st_size ∧ exFile.sb.st_size < 4294967296 ∧
    0 ≤ exFile.sb.st_mtime ∧ exFile.sb.st_mtime < 4294967296 ∧
    ∃ hdr P, backupHeader exGlobals exFile = some hdr ∧ parseHeader hdr 0 = some P ∧
      cstr P = renderedName exGlobals exFile ∧
      toU32 (strtol (P.drop offMode)) = exFile.sb.st_mode ∧
      toU32 (strtol (P.drop offOwner)) = exFile.sb.st_uid ∧
      toU32 (strtol (P.drop offGroup)) = exFile.sb.st_gid ∧
      strtol (P.drop offSize) = exFile.sb.st_size ∧
      strtol (P.drop offModified) = exFile.sb.st_mtime ∧
      P.getD offType 0 = (if S_ISDIR exFile.sb.st_mode = true then 53 else 48) :=
  ⟨by decide, by decide, by decide, by decide, by decide, by decide, by decide, by decide,
    by decide,
    C20_header_codec exGlobals exFile (by decide) (by decide) (by decide) (by decide)
      (by decide) (by decide) (by decide) (by decide) (by decide)⟩

/-! ## The calls `restore` issues for one entry -/

theorem remainder_nonneg (x : Int) (h : 0 ≤ x) : 0 ≤ toInt32 (Int.tmod x 512) := by
  rw [Int.tmod_eq_emod h (by norm_num)]
  unfold toInt32
  omega

theorem copyBlocks_ops (A : List Nat) (k : Nat) : ∀ (st : RState),
    ∃ ws, (copyBlocks A k st).ops = st.ops ++ ws ∧ ∀ o ∈ ws, ∃ bytes, o = FsOp.fwrite bytes := by
  induction k with
  | zero => intro st; exact ⟨[], by simp [copyBlocks], by simp⟩
  | succ j ih =>
    intro st
    obtain ⟨ws, h1, h2⟩ := ih (fwrite 512 (fread A 512 st))
    refine ⟨FsOp.fwrite ((fread A 512 st).buffer.take 512) :: ws, ?_, ?_⟩
    · rw [copyBlocks, h1]
      simp [fwrite, fread]
    · intro o ho
      rcases List.mem_cons.mp ho with h | h
      · exact ⟨_, h⟩
      · exact h2 o h

theorem copyData_ops (A : List Nat) (blocks remainder : Nat) (st : RState) :
    ∃ ws, (copyData A blocks remainder st).ops = st.ops ++ ws ∧
      ∀ o ∈ ws, ∃ bytes, o = FsOp.fwrite bytes := by
  obtain ⟨ws, h1, h2⟩ := copyBlocks_ops A blocks st
  refine ⟨ws ++ [FsOp.fwrite ((fread A remainder (copyBlocks A blocks st)).buffer.take
    remainder)], ?_, ?_⟩
  · have e : (fwrite remainder (fread A remainder (copyBlocks A blocks st))).ops
        = st.ops ++ (ws ++ [FsOp.fwrite ((fread A remainder
            (copyBlocks A blocks st)).buffer.take remainder)]) := by
      simp only [fwrite, fread, h1, List.append_assoc]
    unfold copyData
    split
    · exact e
    · exact e
  · intro o ho
    rcases List.mem_append.mp ho with h | h
    · exact h2 o h
    · exact ⟨_, List.mem_singleton.mp h⟩

/-- C17: for every regular-file entry (type byte other than `'5'`) whose destination
can be opened and whose decoded size is not negative, the calls one iteration of the
loop of `restore` issues are, in this order, `fopen(name, "wb")`, a run of `fwrite`
calls, `fclose`, `chown`, `chmod`, `utime`; nothing follows the three metadata calls,
and the time passed to `utime` is the one decoded from the header. -/
theorem C17_metadata_order (canCreate : List Nat → Bool) (A : List Nat) (endPos fuel : Nat)
    (st : RState) (P : List Nat) (heof : st.eof = false) (hpos : st.pos < endPos)
    (hp : parseHeader A st.pos = some P) (hty : P.getD offType 0 ≠ 53)
    (hc : canCreate (cstr P) = true) (hsize : 0 ≤ strtol (P.drop offSize)) :
    ∃ st' ws, restoreLoop canCreate A endPos (fuel + 1) st
        = restoreLoop canCreate A endPos fuel st' ∧
      st'.ops = st.ops ++ ([FsOp.fopen (cstr P)] ++ ws ++
        [FsOp.fclose,
         FsOp.chown (cstr P) (toU32 (strtol (P.drop offOwner)))
           (toU32 (strtol (P.drop offGroup))),
         FsOp.chmod (cstr P) (toU32 (strtol (P.drop offMode))),
         FsOp.utime (cstr P) (strtol (P.drop offModified))]) ∧
      ∀ o ∈ ws, ∃ bytes, o = FsOp.fwrite bytes := by
  have hstep := restoreLoop_file canCreate A endPos fuel st P heof hpos hp hty hc
    (remainder_nonneg _ hsize)
  obtain ⟨ws, h1, h2⟩ := copyData_ops A
    (toInt32 (Int.tdiv (strtol (P.drop offSize)) 512)).toNat
    (toInt32 (Int.tmod (strtol (P.drop offSize)) 512)).toNat
    { st with pos := st.pos + 512, eof := false, ops := st.ops ++ [FsOp.fopen (cstr P)] }
  refine ⟨_, ws, hstep, ?_, h2⟩
  show (copyData A _ _ _).ops ++ fileEndOps _ _ _ _ _ = _
  rw [h1]
  simp only [fileEndOps, List.append_assoc]

/-- C17 at the header of `d/a.txt` at the start of an archive. -/
theorem C17_metadata_order_witness :
    ∃ st' ws, restoreLoop (fun _ => true) (headerOf exGlobals exFile ++ List.replicate 2048 0)
        2048 1
        { pos := 0, eof := false, buffer := [], ops := [] }
        = restoreLoop (fun _ => true) (headerOf exGlobals exFile ++ List.replicate 2048 0)
          2048 0 st' ∧
      st'.ops = [] ++ ([FsOp.fopen (cstr (headerWith exGlobals exFile (List.replicate 8 32)))]
        ++ ws ++
        [FsOp.fclose,
         FsOp.chown (cstr (headerWith exGlobals exFile (List.replicate 8 32)))
           (toU32 (strtol ((headerWith exGlobals exFile (List.replicate 8 32)).drop offOwner)))
           (toU32 (strtol ((headerWith exGlobals exFile (List.replicate 8 32)).drop offGroup))),
         FsOp.chmod (cstr (headerWith exGlobals exFile (List.replicate 8 32)))
           (toU32 (strtol ((headerWith exGlobals exFile (List.replicate 8 32)).drop offMode))),
         FsOp.utime (cstr (headerWith exGlobals exFile (List.replicate 8 32)))
           (strtol ((headerWith exGlobals exFile (List.replicate 8 32)).drop offModified))]) ∧
      ∀ o ∈ ws, ∃ bytes, o = FsOp.fwrite bytes :=
  C17_metadata_order (fun _ => true) (headerOf exGlobals exFile ++ List.replicate 2048 0)
    2048 0 { pos := 0, eof := false, buffer := [], ops := [] }
    (headerWith exGlobals exFile (List.replicate 8 32)) rfl (by decide)
    (parseHeader_backup _ 0 exGlobals exFile _ (List.drop_zero _) (by decide))
    (by decide!) rfl (by decide!)

/-- C13 fails for directories: on the archive of the directory `d` and the file
`d/a.txt`, `restore` returns 1 having issued `mkdir` for `d/` and then materialised the
later entry `d/a.txt`; the value `mkdir` returns is discarded at line 220, so the run
does not depend on it, while a failed `fopen` ends the run at line 233. -/
theorem C13_mkdir_unchecked :
    (restore (fun _ => true)
      ([exDir, exFile].flatMap (entryRecord exGlobals) ++ List.replicate 1024 0) []).1
      = Outcome.returned1 ∧
    ∃ rest, (restore (fun _ => true)
        ([exDir, exFile].flatMap (entryRecord exGlobals) ++ List.replicate 1024 0) []).2.ops
        = FsOp.mkdir (renderedName exGlobals exDir) exDir.sb.st_mode :: rest ∧
      FsOp.fopen (renderedName exGlobals exFile) ∈ rest := by
  obtain ⟨r1, r2⟩ := restore_roundtrippable exGlobals (fun _ => true) [exDir, exFile] []
    exVisits_roundTrippable
  refine ⟨r1, ?_⟩
  rw [r2]
  simp only [List.flatMap_cons, List.flatMap_nil, List.append_nil]
  have e1 : restoreOps exGlobals exDir
      = dirOps (renderedName exGlobals exDir) exDir.sb.st_mode (decodedUid exGlobals exDir)
          (decodedGid exGlobals exDir) exDir.sb.st_mtime := by
    unfold restoreOps; rw [if_pos (by decide)]
  have e2 : restoreOps exGlobals exFile
      = [FsOp.fopen (renderedName exGlobals exFile)] ++ dataWrites (contentOf exFile) ++
        fileEndOps (renderedName exGlobals exFile) exFile.sb.st_mode
          (decodedUid exGlobals exFile) (decodedGid exGlobals exFile) exFile.sb.st_mtime := by
    unfold restoreOps; rw [if_neg (by decide)]
  rw [e1, e2]
  refine ⟨_, rfl, ?_⟩
  simp

/-! ## Other exits of the loop of `restore` -/

theorem restoreLoop_checksumExit (canCreate : List Nat → Bool) (A : List Nat)
    (endPos fuel : Nat) (st : RState) (heof : st.eof = false) (hpos : st.pos < endPos)
    (hp : parseHeader A st.pos = none) :
    restoreLoop canCreate A endPos (fuel + 1) st = (Outcome.checksumExit, st) := by
  rw [restoreLoop]
  simp only [heof, Bool.false_eq_true, if_false, ge_iff_le, Nat.not_le.mpr hpos, hp]

theorem restoreLoop_openExit (canCreate : List Nat → Bool) (A : List Nat)
    (endPos fuel : Nat) (st : RState) (P : List Nat) (heof : st.eof = false)
    (hpos : st.pos < endPos) (hp : parseHeader A st.pos = some P)
    (hty : P.getD offType 0 ≠ 53) (hc : canCreate (cstr P) = false) :
    restoreLoop canCreate A endPos (fuel + 1) st = (Outcome.openExit, st) := by
  rw [restoreLoop]
  simp only [heof, Bool.false_eq_true, if_false, ge_iff_le, Nat.not_le.mpr hpos, hp, hty, hc,
    if_true]

/-! ## The crafted archive -/

theorem exHugeF_length : exHugeF.length = 148 := by decide!

theorem exHugeC_length : exHugeC.length = 7 := by
  unfold exHugeC
  rw [List.length_append, octFixed_length]
  rfl

theorem exHugeTail_length : exHugeTail.length = 1099511628800 := by
  unfold exHugeTail
  rw [List.length_append, List.length_append, List.length_cons, List.length_cons,
    List.length_append, List.length_append, List.length_replicate, List.length_replicate,
    List.length_replicate, List.length_replicate, List.length_replicate]

theorem exHugeArchive_length : exHugeArchive.length = 1099511629312 := by
  unfold exHugeArchive
  rw [List.length_append, List.length_append, List.length_cons, List.length_cons,
    List.length_append, List.length_replicate, exHugeF_length, exHugeC_length,
    exHugeTail_length]

theorem exHuge_parse : parseHeader exHugeArchive 0 = some exHugeP := by
  have hd : exHugeArchive.drop 0
      = exHugeF ++ (exHugeC ++ 32 :: 48 :: (List.replicate 355 0 ++ exHugeTail)) :=
    List.drop_zero _
  rw [parseHeader_block exHugeArchive 0 exHugeF exHugeC _ 48 hd
    exHugeF_length exHugeC_length (by decide!) (by decide!) (by decide)]
  rw [if_neg (by decide!)]
  rfl

theorem exHuge_type : exHugeP.getD offType 0 ≠ 53 := by decide!

theorem exHuge_name : cstr exHugeP = [97] := by decide!

theorem exHuge_size : strtol (exHugeP.drop offSize) = 1099511627776 := by decide!

theorem exHuge_blocks :
    (toInt32 (Int.tdiv (strtol (exHugeP.drop offSize)) 512)).toNat = 0 := by
  rw [exHuge_size]
  decide

theorem exHuge_remainder :
    toInt32 (Int.tmod (strtol (exHugeP.drop offSize)) 512) = 0 := by
  rw [exHuge_size]
  decide

theorem exHuge_drop : exHugeArchive.drop 512 = exHugeTail := by
  unfold exHugeArchive
  rw [drop_skip exHugeF _ 512 148 exHugeF_length (by decide),
    drop_skip exHugeC _ 364 7 exHugeC_length (by decide)]
  show List.drop 355 (List.replicate 355 0 ++ exHugeTail) = exHugeTail
  exact List.drop_left' (List.length_replicate 355 0)

theorem exHuge_parse_next : parseHeader exHugeArchive 512 = none := by
  have hd : exHugeArchive.drop 512
      = List.replicate 148 65 ++ (List.replicate 7 65 ++ 32 :: 65 ::
          (List.replicate 355 65 ++ (List.replicate 1099511627264 7 ++ List.replicate 1024 0))) :=
    exHuge_drop
  rw [parseHeader_block exHugeArchive 512 _ _ _ 65 hd
    (List.length_replicate 148 65) (List.length_replicate 7 65) (by decide!) (by decide!)
    (by decide)]
  rw [if_pos (by decide!)]

theorem copyData_zero (A : List Nat) (st : RState) :
    copyData A 0 0 st
      = { st with buffer := poke st.buffer 0 [], ops := st.ops ++ [FsOp.fwrite []] } := by
  unfold copyData
  rw [if_neg (by decide)]
  simp [copyBlocks, fread, fwrite]

theorem restoreLoop_checksumExit_pos (canCreate : List Nat → Bool) (A : List Nat)
    (endPos fuel : Nat) (st : RState) (hf : 0 < fuel) (heof : st.eof = false)
    (hpos : st.pos < endPos) (hp : parseHeader A st.pos = none) :
    restoreLoop canCreate A endPos fuel st = (Outcome.checksumExit, st) := by
  obtain ⟨n, rfl⟩ := Nat.exists_eq_succ_of_ne_zero (Nat.pos_iff_ne_zero.mp hf)
  exact restoreLoop_checksumExit canCreate A endPos n st heof hpos hp

/-- The run of `restore` on the crafted archive: the file entry is created, no byte of
its 2^40 bytes of data is written, the cursor moves on by 512 only and the next header is
read from the data, where the checksum comparison fails. -/
theorem exHuge_run (canCreate : List Nat → Bool) (hc : canCreate [97] = true)
    (buffer0 : List Nat) :
    restore canCreate exHugeArchive buffer0
      = (Outcome.checksumExit,
          { pos := 512, eof := false, buffer := poke buffer0 0 [],
            ops := [FsOp.fopen [97], FsOp.fwrite [], FsOp.fclose, FsOp.chown [97] 1000 1000,
              FsOp.chmod [97] 33188, FsOp.utime [97] 0] }) := by
  have hlen : (512 : Nat) < exHugeArchive.length - 1024 := by
    rw [exHugeArchive_length]
    decide
  have h1 := restoreLoop_file canCreate exHugeArchive (exHugeArchive.length - 1024)
    exHugeArchive.length { pos := 0, eof := false, buffer := buffer0, ops := [] } exHugeP rfl
    (lt_trans (show (0 : Nat) < 512 by decide) hlen) exHuge_parse exHuge_type (by rw [exHuge_name]; exact hc)
    (by rw [exHuge_remainder])
  rw [exHuge_blocks, exHuge_remainder, exHuge_name] at h1
  have hz : (0 : Int).toNat = 0 := rfl
  rw [hz, copyData_zero] at h1
  unfold restore
  rw [h1]
  have e1 : toU32 (strtol (exHugeP.drop offMode)) = 33188 := by decide!
  have e2 : toU32 (strtol (exHugeP.drop offOwner)) = 1000 := by decide!
  have e3 : toU32 (strtol (exHugeP.drop offGroup)) = 1000 := by decide!
  have e4 : strtol (exHugeP.drop offModified) = 0 := by decide!
  rw [e1, e2, e3, e4]
  exact restoreLoop_checksumExit_pos _ _ _ _ _ (by rw [exHugeArchive_length]; decide) rfl hlen
    exHuge_parse_next

/-! ## One iteration of the loop of `restore` on a file entry -/

theorem blocks_of_size40 (n : Nat) (h : n < 1099511627776) :
    (toInt32 (Int.tdiv (n : Int) 512)).toNat = n / 512 := by
  rw [Int.tdiv_eq_ediv (by omega) (by norm_num)]
  unfold toInt32
  omega

theorem restoreLoop_undefined (canCreate : List Nat → Bool) (A : List Nat)
    (endPos fuel : Nat) (st : RState) (P : List Nat) (heof : st.eof = false)
    (hpos : st.pos < endPos) (hp : parseHeader A st.pos = some P)
    (hty : P.getD offType 0 ≠ 53) (hc : canCreate (cstr P) = true)
    (hrem : toInt32 (Int.tmod (strtol (P.drop offSize)) 512) < 0) :
    restoreLoop canCreate A endPos (fuel + 1) st
      = (Outcome.undefinedBehaviour,
          { st with pos := st.pos + 512, eof := false,
                    ops := st.ops ++ [FsOp.fopen (cstr P)] }) := by
  rw [restoreLoop]
  simp only [heof, Bool.false_eq_true, if_false, ge_iff_le, Nat.not_le.mpr hpos, hp, hty, hc,
    hrem, if_true, Bool.true_eq_false]

theorem restoreLoop_file_sized (canCreate : List Nat → Bool) (A : List Nat)
    (endPos fuel : Nat) (st : RState) (P : List Nat) (s : Nat) (heof : st.eof = false)
    (hpos : st.pos < endPos) (hp : parseHeader A st.pos = some P)
    (hty : P.getD offType 0 ≠ 53) (hc : canCreate (cstr P) = true)
    (hs : strtol (P.drop offSize) = (s : Int)) (h40 : s < 1099511627776)
    (hin : st.pos + 512 + s ≤ A.length) :
    ∃ st', restoreLoop canCreate A endPos (fuel + 1) st
        = restoreLoop canCreate A endPos fuel st' ∧
      st'.pos = st.pos + 512 + s + padTo512 s ∧ st'.eof = false ∧
      st'.ops = st.ops ++ ([FsOp.fopen (cstr P)] ++
        dataWrites ((A.drop (st.pos + 512)).take s) ++
        fileEndOps (cstr P) (toU32 (strtol (P.drop offMode)))
          (toU32 (strtol (P.drop offOwner))) (toU32 (strtol (P.drop offGroup)))
          (strtol (P.drop offModified))) := by
  have hcl : ((A.drop (st.pos + 512)).take s).length = s := by
    rw [List.length_take, List.length_drop]
    omega
  obtain ⟨c1, c2, c3⟩ := copyData_spec A ((A.drop (st.pos + 512)).take s)
    ((A.drop (st.pos + 512)).drop s)
    { st with pos := st.pos + 512, eof := false, ops := st.ops ++ [FsOp.fopen (cstr P)] }
    (List.take_append_drop s (A.drop (st.pos + 512))).symm rfl
  rw [hcl] at c1 c2 c3
  have h1 := restoreLoop_file canCreate A endPos fuel st P heof hpos hp hty hc
    (by rw [hs, remainder_of_size]; exact Int.ofNat_nonneg _)
  rw [hs, blocks_of_size40 s h40, remainder_of_size, Int.toNat_ofNat] at h1
  refine ⟨_, h1, c1, c2, ?_⟩
  show (copyData A (s / 512) (s % 512) _).ops ++ fileEndOps _ _ _ _ _ = _
  rw [c3]
  simp only [List.append_assoc]

theorem restoreLoop_returned1 (canCreate : List Nat → Bool) (A : List Nat) (endPos : Nat) :
    ∀ (n : Nat) (t : RState),
      (restoreLoop canCreate A endPos n t).1 = Outcome.returned1 →
      endPos ≤ (restoreLoop canCreate A endPos n t).2.pos := by
  intro n
  induction n with
  | zero =>
    intro t h
    rw [restoreLoop] at h
    cases h
  | succ n ih =>
    intro t h
    cases he : t.eof with
    | true =>
      rw [restoreLoop, if_pos he] at h
      cases h
    | false =>
      by_cases hp : endPos ≤ t.pos
      · rw [restoreLoop_end _ _ _ _ _ he hp]
        exact hp
      · have hp' : t.pos < endPos := Nat.lt_of_not_le hp
        cases hh : parseHeader A t.pos with
        | none =>
          rw [restoreLoop_checksumExit _ _ _ _ _ he hp' hh] at h
          cases h
        | some P =>
          by_cases hty : P.getD offType 0 = 53
          · rw [restoreLoop_dir _ _ _ _ _ P he hp' hh hty] at h ⊢
            exact ih _ h
          · cases hc : canCreate (cstr P) with
            | false =>
              rw [restoreLoop_openExit _ _ _ _ _ P he hp' hh hty hc] at h
              cases h
            | true =>
              by_cases hrem : 0 ≤ toInt32 (Int.tmod (strtol (P.drop offSize)) 512)
              · rw [restoreLoop_file _ _ _ _ _ P he hp' hh hty hc hrem] at h ⊢
                exact ih _ h
              · rw [restoreLoop_undefined _ _ _ _ _ P he hp' hh hty hc (not_le.mp hrem)] at h
                cases h

/-! ## The cursor of `restore` and the bytes it writes -/

theorem restore_trailer (canCreate : List Nat → Bool) (buffer0 : List Nat) :
    restore canCreate (List.replicate 1024 0) buffer0
      = (Outcome.returned1, { pos := 0, eof := false, buffer := buffer0, ops := [] }) := by
  unfold restore
  rw [List.length_replicate]
  exact restoreLoop_end _ _ _ _ _ rfl (Nat.zero_le _)

/-- C15 fails for a file entry whose size reaches 2^40: in the crafted archive the one
header passes the checksum, its type is regular file, its size reads as 2^40 and the
2^40 bytes after it lie inside the archive, so that the cursor 512 + 512*ceil(size/512)
is the end `L - 1024`; `int blocks = size / 512` is 2^31, which an `int` holds as
-2^31, no block is copied, the cursor stops at 512 and `restore` leaves by the checksum
exit on the data instead of returning success. -/
theorem C15_cursor_overflow :
    parseHeader exHugeArchive 0 = some exHugeP ∧
    exHugeP.getD offType 0 ≠ 53 ∧
    strtol (exHugeP.drop offSize) = 1099511627776 ∧
    toInt32 (Int.tdiv (strtol (exHugeP.drop offSize)) 512) = -2147483648 ∧
    0 + 512 + 1099511627776 ≤ exHugeArchive.length ∧
    0 + 512 + 512 * ((1099511627776 + 511) / 512) = exHugeArchive.length - 1024 ∧
    (restore (fun _ => true) exHugeArchive []).2.pos = 512 ∧
    (restore (fun _ => true) exHugeArchive []).1 = Outcome.checksumExit := by
  refine ⟨exHuge_parse, exHuge_type, exHuge_size, ?_, ?_, ?_, ?_, ?_⟩
  · rw [exHuge_size]
    decide
  · rw [exHugeArchive_length]
    decide
  · rw [exHugeArchive_length]
  · rw [exHuge_run (fun _ => true) rfl []]
  · rw [exHuge_run (fun _ => true) rfl []]

/-- The cursor of `restore` for sizes below 2^40, one iteration at a time: `restore`
starts the loop with the cursor 0 and the end `L - 1024`. In a state whose cursor is a multiple of 512
and before the end, where `parseHeader` at the cursor accepts a header, and where, if
the entry is a file, the destination can be opened, the decoded size `s` is below 2^40
and the `s` bytes after the header lie inside the archive, one iteration moves the
cursor by 512 for a directory and by 512 + 512*ceil(s/512) for a file, to a multiple of
512 again. With the cursor at or after the end the loop returns 1, and whenever the loop
returns 1 the cursor is at or after the end. An archive of 1024 zero bytes restores
nothing and returns 1. -/
theorem restore_cursor_bounded (canCreate : List Nat → Bool) (A : List Nat) (fuel : Nat)
    (st : RState) (P : List Nat) (s : Nat) (heof : st.eof = false)
    (hal : st.pos % 512 = 0) (hpos : st.pos < A.length - 1024)
    (hp : parseHeader A st.pos = some P)
    (hfile : P.getD offType 0 ≠ 53 →
      canCreate (cstr P) = true ∧ strtol (P.drop offSize) = (s : Int) ∧
      s < 1099511627776 ∧ st.pos + 512 + s ≤ A.length) :
    (∃ st', restoreLoop canCreate A (A.length - 1024) (fuel + 1) st
        = restoreLoop canCreate A (A.length - 1024) fuel st' ∧
      st'.eof = false ∧ st'.pos % 512 = 0 ∧
      st'.pos = st.pos + 512
        + (if P.getD offType 0 = 53 then 0 else 512 * ((s + 511) / 512))) ∧
    (∀ (n : Nat) (t : RState), t.eof = false → A.length - 1024 ≤ t.pos →
      restoreLoop canCreate A (A.length - 1024) (n + 1) t = (Outcome.returned1, t)) ∧
    (∀ (n : Nat) (t : RState),
      (restoreLoop canCreate A (A.length - 1024) n t).1 = Outcome.returned1 →
      A.length - 1024 ≤ (restoreLoop canCreate A (A.length - 1024) n t).2.pos) ∧
    (∀ buffer0 : List Nat, restore canCreate A buffer0
      = restoreLoop canCreate A (A.length - 1024) (A.length + 1)
          { pos := 0, eof := false, buffer := buffer0, ops := [] }) ∧
    (∀ buffer0 : List Nat, restore canCreate (List.replicate 1024 0) buffer0
      = (Outcome.returned1, { pos := 0, eof := false, buffer := buffer0, ops := [] })) := by
  refine ⟨?_, fun n t h1 h2 => restoreLoop_end _ _ _ _ _ h1 h2,
    restoreLoop_returned1 canCreate A _, fun _ => rfl, restore_trailer canCreate⟩
  by_cases hty : P.getD offType 0 = 53
  · refine ⟨_, restoreLoop_dir canCreate A _ fuel st P heof hpos hp hty, rfl, ?_, ?_⟩
    · show (st.pos + 512) % 512 = 0
      omega
    · rw [if_pos hty]
  · obtain ⟨hc, hs, h40, hin⟩ := hfile hty
    obtain ⟨st', e, hp', he', _⟩ := restoreLoop_file_sized canCreate A _ fuel st P s heof hpos
      hp hty hc hs h40 hin
    have hcl := ceil512 s
    refine ⟨st', e, he', ?_, ?_⟩
    · rw [hp']
      omega
    · rw [hp', if_neg hty]
      omega

/-- The cursor at the header of `d/a.txt` in the archive of that file alone: the cursor moves
from 0 to 1024. -/
theorem restore_cursor_bounded_example :
    parseHeader exFileArchive 0 = some (headerWith exGlobals exFile (List.replicate 8 32)) ∧
    ∃ st', restoreLoop (fun _ => true) exFileArchive (exFileArchive.length - 1024) (2048 + 1)
        { pos := 0, eof := false, buffer := [], ops := [] }
        = restoreLoop (fun _ => true) exFileArchive (exFileArchive.length - 1024) 2048 st' ∧
      st'.eof = false ∧ st'.pos % 512 = 0 ∧
      st'.pos = 0 + 512
        + (if (headerWith exGlobals exFile (List.replicate 8 32)).getD offType 0 = 53 then 0
           else 512 * ((10 + 511) / 512)) :=
  ⟨parseHeader_backup _ 0 exGlobals exFile _ (List.drop_zero _) (by decide),
   (restore_cursor_bounded (fun _ => true) exFileArchive 2048
      { pos := 0, eof := false, buffer := [], ops := [] }
      (headerWith exGlobals exFile (List.replicate 8 32)) 10 rfl rfl (by decide!)
      (parseHeader_backup _ 0 exGlobals exFile _ (List.drop_zero _) (by decide))
      (fun _ => ⟨rfl, by decide!, by decide, by decide!⟩)).1⟩

/-- C16 fails for a file entry whose size reaches 2^40: in the crafted archive the
header at offset 0 is accepted, its type is regular file, its size reads as 2^40, the
2^40 bytes from offset 512 on lie inside the archive, and `restore` writes no byte at
all to the destination file, because `int blocks = size / 512` wraps to -2^31 and the
remainder is 0: the only write is one of no bytes. -/
theorem C16_content_overflow :
    parseHeader exHugeArchive 0 = some exHugeP ∧
    exHugeP.getD offType 0 ≠ 53 ∧
    strtol (exHugeP.drop offSize) = 1099511627776 ∧
    toInt32 (Int.tdiv (strtol (exHugeP.drop offSize)) 512) = -2147483648 ∧
    toInt32 (Int.tmod (strtol (exHugeP.drop offSize)) 512) = 0 ∧
    ((exHugeArchive.drop (0 + 512)).take 1099511627776).length = 1099511627776 ∧
    (restore (fun _ => true) exHugeArchive []).2.ops
      = [FsOp.fopen [97], FsOp.fwrite [], FsOp.fclose, FsOp.chown [97] 1000 1000,
          FsOp.chmod [97] 33188, FsOp.utime [97] 0] ∧
    written (restore (fun _ => true) exHugeArchive []).2.ops = [] := by
  refine ⟨exHuge_parse, exHuge_type, exHuge_size, ?_, exHuge_remainder, ?_, ?_, ?_⟩
  · rw [exHuge_size]
    decide
  · rw [List.length_take, List.length_drop, exHugeArchive_length]
    decide
  · rw [exHuge_run (fun _ => true) rfl []]
  · rw [exHuge_run (fun _ => true) rfl []]
    rfl

/-- The bytes `restore` writes for sizes below 2^40: for every file entry whose header `parseHeader` accepts
at the cursor `i`, whose destination can be opened, whose decoded size `s` is below 2^40
and whose `s` bytes after the header lie inside the archive, the `fwrite` calls of the
iteration come between `fopen` and `fclose` and are floor(s/512) writes of 512 bytes
followed by one write of the last `s mod 512` bytes; together they write the archive
bytes `[i+512, i+512+s)` and nothing else. -/
theorem restored_content_bounded (canCreate : List Nat → Bool) (A : List Nat)
    (endPos fuel : Nat) (st : RState) (P : List Nat) (s : Nat) (heof : st.eof = false)
    (hpos : st.pos < endPos) (hp : parseHeader A st.pos = some P)
    (hty : P.getD offType 0 ≠ 53) (hc : canCreate (cstr P) = true)
    (hs : strtol (P.drop offSize) = (s : Int)) (h40 : s < 1099511627776)
    (hin : st.pos + 512 + s ≤ A.length) :
    ∃ st' ws, restoreLoop canCreate A endPos (fuel + 1) st
        = restoreLoop canCreate A endPos fuel st' ∧
      st'.ops = st.ops ++ ([FsOp.fopen (cstr P)] ++ ws ++
        fileEndOps (cstr P) (toU32 (strtol (P.drop offMode)))
          (toU32 (strtol (P.drop offOwner))) (toU32 (strtol (P.drop offGroup)))
          (strtol (P.drop offModified))) ∧
      ws = chunkWrites (s / 512) ((A.drop (st.pos + 512)).take s) ++
        [FsOp.fwrite (((A.drop (st.pos + 512)).take s).drop (512 * (s / 512)))] ∧
      (((A.drop (st.pos + 512)).take s).drop (512 * (s / 512))).length = s % 512 ∧
      written ws = (A.drop (st.pos + 512)).take s ∧
      ((A.drop (st.pos + 512)).take s).length = s := by
  have hcl : ((A.drop (st.pos + 512)).take s).length = s := by
    rw [List.length_take, List.length_drop]
    omega
  obtain ⟨st', e, _, _, hops⟩ := restoreLoop_file_sized canCreate A endPos fuel st P s heof
    hpos hp hty hc hs h40 hin
  refine ⟨st', _, e, hops, ?_, ?_, written_dataWrites _, hcl⟩
  · unfold dataWrites
    rw [hcl]
  · rw [List.length_drop, hcl]
    have := Nat.div_add_mod s 512
    omega

/-- The bytes written at the header of `d/a.txt` in the archive of that file alone: the ten bytes
of the file are written in one write. -/
theorem restored_content_bounded_example :
    parseHeader exFileArchive 0 = some (headerWith exGlobals exFile (List.replicate 8 32)) ∧
    ∃ st' ws, restoreLoop (fun _ => true) exFileArchive 1024 (2048 + 1)
        { pos := 0, eof := false, buffer := [], ops := [] }
        = restoreLoop (fun _ => true) exFileArchive 1024 2048 st' ∧
      st'.ops = [] ++ ([FsOp.fopen (cstr (headerWith exGlobals exFile (List.replicate 8 32)))]
        ++ ws ++
        fileEndOps (cstr (headerWith exGlobals exFile (List.replicate 8 32)))
          (toU32 (strtol ((headerWith exGlobals exFile (List.replicate 8 32)).drop offMode)))
          (toU32 (strtol ((headerWith exGlobals exFile (List.replicate 8 32)).drop offOwner)))
          (toU32 (strtol ((headerWith exGlobals exFile (List.replicate 8 32)).drop offGroup)))
          (strtol ((headerWith exGlobals exFile (List.replicate 8 32)).drop offModified))) ∧
      ws = chunkWrites (10 / 512) ((exFileArchive.drop (0 + 512)).take 10) ++
        [FsOp.fwrite (((exFileArchive.drop (0 + 512)).take 10).drop (512 * (10 / 512)))] ∧
      (((exFileArchive.drop (0 + 512)).take 10).drop (512 * (10 / 512))).length = 10 % 512 ∧
      written ws = (exFileArchive.drop (0 + 512)).take 10 ∧
      ((exFileArchive.drop (0 + 512)).take 10).length = 10 :=
  ⟨parseHeader_backup _ 0 exGlobals exFile _ (List.drop_zero _) (by decide),
   restored_content_bounded (fun _ => true) exFileArchive 1024 2048
      { pos := 0, eof := false, buffer := [], ops := [] }
      (headerWith exGlobals exFile (List.replicate 8 32)) 10 rfl (by decide)
      (parseHeader_backup _ 0 exGlobals exFile _ (List.drop_zero _) (by decide))
      (by decide!) rfl (by decide!) (by decide) (by decide!)⟩

/-! ## White space in a name -/

theorem exSpaced_walk : (nftw exGlobals [exSpaced] emptyState).1 = 0 := by decide!

theorem exSpaced_parse :
    parseHeader (fpad (nftw exGlobals [exSpaced] emptyState).2.archive 1024) 0 = none := by
  decide!

theorem exSpaced_length :
    0 < (fpad (nftw exGlobals [exSpaced] emptyState).2.archive 1024).length - 1024 := by
  rw [fpad_eq, List.length_append, List.length_replicate,
    nftw_length exGlobals [exSpaced] emptyState rfl exSpaced_walk]
  decide

theorem exSpaced_name : renderedName exGlobals exSpaced = [97, 32, 98] := by decide

theorem exSpaced_scan_name :
    cstr (fscanf headerFields (headerOf exGlobals exSpaced) (List.replicate sizeofHeader 0))
      = [97] := by
  decide!

theorem exSpaced_scan_rest :
    (fscanf headerFields (headerOf exGlobals exSpaced) (List.replicate sizeofHeader 0)).drop
      offMode = 98 :: List.replicate 411 0 := by
  decide!

theorem exSpaced_header_parse : parseHeader (headerOf exGlobals exSpaced) 0 = none := by
  decide!

/-- C21: the regular file named `a b` is encoded without error (the callback returns 0
and appends the header and the data, and the program completes the archive), yet
`parseHeader` on the header block that was written fails the checksum test: the scan
stores `a` as the name, starts the mode field with `b` and finds only NUL bytes for
every later field, the checksum field included. `restore` on the archive leaves by the
checksum exit at cursor 0 without any file-system call. -/
theorem C21_whitespace_name :
    renderedName exGlobals exSpaced = [97, 32, 98] ∧
    backupHeader exGlobals exSpaced = some (headerOf exGlobals exSpaced) ∧
    backup exGlobals exSpaced emptyState
      = (0, { archive := fileRecord 0 (headerOf exGlobals exSpaced) (contentOf exSpaced),
              openInputs := 0 }) ∧
    parseHeader (headerOf exGlobals exSpaced) 0 = none ∧
    cstr (fscanf headerFields (headerOf exGlobals exSpaced) (List.replicate sizeofHeader 0))
      = [97] ∧
    (fscanf headerFields (headerOf exGlobals exSpaced) (List.replicate sizeofHeader 0)).drop
      offMode = 98 :: List.replicate 411 0 ∧
    ∃ a, mainBackup exGlobals [exSpaced] = (ExitStatus.EXIT_SUCCESS, some a) ∧
      restore (fun _ => true) a []
        = (Outcome.checksumExit, { pos := 0, eof := false, buffer := [], ops := [] }) := by
  have hh : backupHeader exGlobals exSpaced = some (headerOf exGlobals exSpaced) :=
    backupHeader_eq exGlobals exSpaced (by decide)
  refine ⟨exSpaced_name, hh, ?_, exSpaced_header_parse, exSpaced_scan_name, exSpaced_scan_rest,
    _, mainBackup_of_ok _ _ exSpaced_walk, ?_⟩
  · rw [backup_file exGlobals exSpaced emptyState (contentOf exSpaced)
      (headerOf exGlobals exSpaced) (by decide) (by decide) rfl rfl hh]
    simp only [emptyState, List.nil_append, List.length_nil]
  · unfold restore
    exact restoreLoop_checksumExit _ _ _ _ _ rfl exSpaced_length exSpaced_parse

/-! ## Progress of the loop of `restore` -/

theorem tmod_512_bounds (x : Int) : -512 < Int.tmod x 512 ∧ Int.tmod x 512 < 512 := by
  cases x with
  | ofNat m =>
    have e : Int.tmod (Int.ofNat m) 512 = ((m % 512 : Nat) : Int) := rfl
    rw [e]
    omega
  | negSucc m =>
    have e : Int.tmod (Int.negSucc m) 512 = -(((m + 1) % 512 : Nat) : Int) := rfl
    rw [e]
    omega

theorem remainder_toNat_lt (x : Int) : (toInt32 (Int.tmod x 512)).toNat < 512 := by
  obtain ⟨h1, h2⟩ := tmod_512_bounds x
  generalize Int.tmod x 512 = t at h1 h2
  unfold toInt32
  omega

theorem size_neg_of_remainder (x : Int) (h : toInt32 (Int.tmod x 512) < 0) : x < 0 := by
  by_contra hx
  exact absurd (remainder_nonneg x (not_lt.mp hx)) (not_le.mpr h)

theorem fread_pos (A : List Nat) (n : Nat) (st : RState) :
    (fread A n st).pos = st.pos + min n (A.length - st.pos) := by
  unfold fread
  simp only [List.length_take, List.length_drop]

theorem copyBlocks_pos_ge (A : List Nat) (k : Nat) : ∀ (st : RState),
    st.pos ≤ (copyBlocks A k st).pos := by
  induction k with
  | zero => intro st; exact Nat.le_refl _
  | succ j ih =>
    intro st
    rw [copyBlocks]
    have h1 := ih (fwrite 512 (fread A 512 st))
    have h2 : (fwrite 512 (fread A 512 st)).pos = (fread A 512 st).pos := rfl
    rw [h2, fread_pos] at h1
    omega

theorem copyBlocks_boundary (A : List Nat) (k : Nat) : ∀ (st : RState),
    (st.pos % 512 = 0 ∨ A.length ≤ st.pos) →
    ((copyBlocks A k st).pos % 512 = 0 ∨ A.length ≤ (copyBlocks A k st).pos) := by
  induction k with
  | zero => intro st h; exact h
  | succ j ih =>
    intro st h
    rw [copyBlocks]
    apply ih
    have h2 : (fwrite 512 (fread A 512 st)).pos = (fread A 512 st).pos := rfl
    rw [h2, fread_pos]
    omega

theorem copyData_pos (A : List Nat) (blocks remainder : Nat) (st : RState) :
    (copyData A blocks remainder st).pos
      = (copyBlocks A blocks st).pos
        + min remainder (A.length - (copyBlocks A blocks st).pos)
        + (if remainder = 0 then 0 else 512 - remainder) := by
  unfold copyData
  by_cases h : remainder = 0
  · subst h
    rw [if_neg (by simp), if_pos rfl]
    show (fread A 0 _).pos = _
    rw [fread_pos, Nat.add_zero]
  · have hne : remainder ≠ 0 := h
    rw [if_pos (by omega), if_neg h]
    show (fread A remainder _).pos + _ = _
    rw [fread_pos]

theorem copyData_pos_ge (A : List Nat) (blocks remainder : Nat) (st : RState) :
    st.pos ≤ (copyData A blocks remainder st).pos := by
  rw [copyData_pos]
  have := copyBlocks_pos_ge A blocks st
  omega

theorem copyData_boundary (A : List Nat) (blocks remainder : Nat) (st : RState)
    (hr : remainder < 512) (h : st.pos % 512 = 0 ∨ A.length ≤ st.pos) :
    (copyData A blocks remainder st).pos % 512 = 0 ∨
      A.length ≤ (copyData A blocks remainder st).pos := by
  rw [copyData_pos]
  have := copyBlocks_boundary A blocks st h
  split <;> omega

theorem restoreLoop_eof (canCreate : List Nat → Bool) (A : List Nat) (endPos fuel : Nat)
    (st : RState) (heof : st.eof = true) :
    restoreLoop canCreate A endPos (fuel + 1) st = (Outcome.loopLeft, st) := by
  rw [restoreLoop, if_pos heof]

/-- One pass of the loop that starts before the end: it leaves by the checksum exit, by
the open exit, or at a negative remainder, or it hands over to the next pass with the
cursor at least 512 further on; a cursor at a multiple of 512 goes to a multiple of 512
or beyond the end of the archive. The pass does not depend on the passes left. -/
theorem restoreLoop_step (canCreate : List Nat → Bool) (A : List Nat) (endPos : Nat)
    (st : RState) (heof : st.eof = false) (hpos : st.pos < endPos) :
    (∀ n, restoreLoop canCreate A endPos (n + 1) st = (Outcome.checksumExit, st)) ∨
    (∀ n, restoreLoop canCreate A endPos (n + 1) st = (Outcome.openExit, st)) ∨
    (∃ P st', parseHeader A st.pos = some P ∧ P.getD offType 0 ≠ 53 ∧
        strtol (P.drop offSize) < 0 ∧
        ∀ n, restoreLoop canCreate A endPos (n + 1) st = (Outcome.undefinedBehaviour, st')) ∨
    (∃ st', (∀ n, restoreLoop canCreate A endPos (n + 1) st
          = restoreLoop canCreate A endPos n st') ∧
        st.pos + 512 ≤ st'.pos ∧
        ((st.pos % 512 = 0 ∨ A.length ≤ st.pos) →
          (st'.pos % 512 = 0 ∨ A.length ≤ st'.pos))) := by
  cases hh : parseHeader A st.pos with
  | none => exact Or.inl (fun n => restoreLoop_checksumExit _ _ _ n _ heof hpos hh)
  | some P =>
    by_cases hty : P.getD offType 0 = 53
    · refine Or.inr (Or.inr (Or.inr ⟨_, fun n => restoreLoop_dir _ _ _ n _ P heof hpos hh hty,
        Nat.le_refl _, ?_⟩))
      intro h
      show (st.pos + 512) % 512 = 0 ∨ A.length ≤ st.pos + 512
      omega
    · cases hc : canCreate (cstr P) with
      | false =>
        exact Or.inr (Or.inl (fun n => restoreLoop_openExit _ _ _ n _ P heof hpos hh hty hc))
      | true =>
        by_cases hrem : 0 ≤ toInt32 (Int.tmod (strtol (P.drop offSize)) 512)
        · refine Or.inr (Or.inr (Or.inr ⟨_,
            fun n => restoreLoop_file _ _ _ n _ P heof hpos hh hty hc hrem, ?_, ?_⟩))
          · exact copyData_pos_ge A _ _
              { st with pos := st.pos + 512, eof := false,
                        ops := st.ops ++ [FsOp.fopen (cstr P)] }
          · intro h
            have h1 : (st.pos + 512) % 512 = 0 ∨ A.length ≤ st.pos + 512 := by
              clear hrem
              omega
            exact copyData_boundary A _ _
              { st with pos := st.pos + 512, eof := false,
                        ops := st.ops ++ [FsOp.fopen (cstr P)] }
              (remainder_toNat_lt _) h1
        · exact Or.inr (Or.inr (Or.inl ⟨P, _, rfl, hty,
            size_neg_of_remainder _ (not_le.mp hrem),
            fun n => restoreLoop_undefined _ _ _ n _ P heof hpos hh hty hc (not_le.mp hrem)⟩))

/-- With more passes allowed than 512-byte steps fit between the cursor and the end,
the loop ends, and allowing more passes still does not change its result. -/
theorem restoreLoop_fuel (canCreate : List Nat → Bool) (A : List Nat) (endPos : Nat) :
    ∀ (fuel : Nat) (st : RState), (endPos - st.pos + 511) / 512 < fuel →
      (restoreLoop canCreate A endPos fuel st).1 ≠ Outcome.outOfFuel ∧
      ∀ n, fuel ≤ n →
        restoreLoop canCreate A endPos n st = restoreLoop canCreate A endPos fuel st := by
  intro fuel
  induction fuel with
  | zero => intro st h; omega
  | succ k ih =>
    intro st hm
    have key : ∀ r : Outcome × RState, r.1 ≠ Outcome.outOfFuel →
        (∀ n, restoreLoop canCreate A endPos (n + 1) st = r) →
        (restoreLoop canCreate A endPos (k + 1) st).1 ≠ Outcome.outOfFuel ∧
        ∀ n, k + 1 ≤ n →
          restoreLoop canCreate A endPos n st = restoreLoop canCreate A endPos (k + 1) st := by
      intro r hr hall
      refine ⟨by rw [hall k]; exact hr, ?_⟩
      intro n hn
      obtain ⟨m, rfl⟩ := Nat.exists_eq_succ_of_ne_zero (by omega : n ≠ 0)
      rw [hall m, hall k]
    cases he : st.eof with
    | true =>
      exact key (Outcome.loopLeft, st) (by intro h; cases h)
        (fun n => restoreLoop_eof _ _ _ n _ he)
    | false =>
      by_cases hp : endPos ≤ st.pos
      · exact key (Outcome.returned1, st) (by intro h; cases h)
          (fun n => restoreLoop_end _ _ _ n _ he hp)
      · have hp' : st.pos < endPos := Nat.lt_of_not_le hp
        rcases restoreLoop_step canCreate A endPos st he hp' with h | h | h | h
        · exact key _ (by intro h; cases h) h
        · exact key _ (by intro h; cases h) h
        · obtain ⟨P, st', _, _, _, h⟩ := h
          exact key _ (by intro h; cases h) h
        · obtain ⟨st', hstep, hadv, _⟩ := h
          obtain ⟨i1, i2⟩ := ih st' (by omega)
          refine ⟨by rw [hstep k]; exact i1, ?_⟩
          intro n hn
          obtain ⟨m, rfl⟩ := Nat.exists_eq_succ_of_ne_zero (by omega : n ≠ 0)
          rw [hstep m, hstep k]
          exact i2 m (by omega)

/-- A run that leaves by an exit does so within as many passes as 512-byte steps fit
between the cursor and the end. -/
theorem restoreLoop_abort_fuel (canCreate : List Nat → Bool) (A : List Nat) (endPos : Nat) :
    ∀ (fuel : Nat) (st : RState), (endPos - st.pos + 511) / 512 ≤ fuel →
      (restoreLoop canCreate A endPos (fuel + 1) st).1 ≠ Outcome.returned1 →
      (restoreLoop canCreate A endPos (fuel + 1) st).1 ≠ Outcome.loopLeft →
      restoreLoop canCreate A endPos fuel st
        = restoreLoop canCreate A endPos (fuel + 1) st := by
  intro fuel
  induction fuel with
  | zero =>
    intro st hm h1 h2
    cases he : st.eof with
    | true =>
      rw [restoreLoop_eof _ _ _ _ _ he] at h2
      exact absurd rfl h2
    | false =>
      have hp : endPos ≤ st.pos := by omega
      rw [restoreLoop_end _ _ _ _ _ he hp] at h1
      exact absurd rfl h1
  | succ k ih =>
    intro st hm h1 h2
    cases he : st.eof with
    | true =>
      rw [restoreLoop_eof _ _ _ _ _ he] at h2
      exact absurd rfl h2
    | false =>
      by_cases hp : endPos ≤ st.pos
      · rw [restoreLoop_end _ _ _ _ _ he hp] at h1
        exact absurd rfl h1
      · have hp' : st.pos < endPos := Nat.lt_of_not_le hp
        rcases restoreLoop_step canCreate A endPos st he hp' with h | h | h | h
        · rw [h k, h (k + 1)]
        · rw [h k, h (k + 1)]
        · obtain ⟨P, st', _, _, _, h⟩ := h
          rw [h k, h (k + 1)]
        · obtain ⟨st', hstep, hadv, _⟩ := h
          rw [hstep (k + 1)] at h1 h2 ⊢
          rw [hstep k]
          exact ih st' (by omega) h1 h2

/-- When every header decoded at a multiple of 512 before the end has a size that is
not negative, the loop started at a multiple of 512 never meets a negative remainder. -/
theorem restoreLoop_defined (canCreate : List Nat → Bool) (A : List Nat) (endPos : Nat)
    (hend : endPos ≤ A.length)
    (hsize : ∀ (i : Nat) (P : List Nat), i < endPos → i % 512 = 0 →
      parseHeader A i = some P → P.getD offType 0 ≠ 53 → 0 ≤ strtol (P.drop offSize)) :
    ∀ (fuel : Nat) (st : RState), (st.pos % 512 = 0 ∨ A.length ≤ st.pos) →
      (restoreLoop canCreate A endPos fuel st).1 ≠ Outcome.undefinedBehaviour := by
  intro fuel
  induction fuel with
  | zero =>
    intro st _ h
    rw [restoreLoop] at h
    cases h
  | succ k ih =>
    intro st hb
    cases he : st.eof with
    | true =>
      rw [restoreLoop_eof _ _ _ _ _ he]
      intro h; cases h
    | false =>
      by_cases hp : endPos ≤ st.pos
      · rw [restoreLoop_end _ _ _ _ _ he hp]
        intro h; cases h
      · have hp' : st.pos < endPos := Nat.lt_of_not_le hp
        rcases restoreLoop_step canCreate A endPos st he hp' with h | h | h | h
        · rw [h k]
          intro h; cases h
        · rw [h k]
          intro h; cases h
        · obtain ⟨P, st', hparse, hty, hneg, _⟩ := h
          have h0 := hsize st.pos P hp' (by omega) hparse hty
          omega
        · obtain ⟨st', hstep, _, hb'⟩ := h
          rw [hstep k]
          exact ih st' (hb' hb)

/-! ## Termination of `restore` -/

/-- C22: for every archive of length `L` in which every header decoded at a multiple of
512 before the end `L - 1024` has a size that is not negative, the loop of `restore`
ends: its result is the one reached within `ceil((L - 1024) / 512) + 1` evaluations of
the loop test, and it is the return of 1, the loop left at end of file, the checksum exit
or the open exit. At most `ceil((L - 1024) / 512)` passes decode a header: a run that
leaves by an exit does so within that many passes, and otherwise one more pass ends the
loop. Every pass that starts before the end either leaves by the checksum exit or the
open exit, or moves the cursor forward by at least 512. -/
theorem C22_restore_terminates (canCreate : List Nat → Bool) (A buffer0 : List Nat)
    (hsize : ∀ (i : Nat) (P : List Nat), i < A.length - 1024 → i % 512 = 0 →
      parseHeader A i = some P → P.getD offType 0 ≠ 53 → 0 ≤ strtol (P.drop offSize)) :
    restore canCreate A buffer0
      = restoreLoop canCreate A (A.length - 1024) ((A.length - 1024 + 511) / 512 + 1)
          { pos := 0, eof := false, buffer := buffer0, ops := [] } ∧
    ((restore canCreate A buffer0).1 = Outcome.returned1 ∨
      (restore canCreate A buffer0).1 = Outcome.loopLeft ∨
      (restore canCreate A buffer0).1 = Outcome.checksumExit ∨
      (restore canCreate A buffer0).1 = Outcome.openExit) ∧
    ((restore canCreate A buffer0).1 = Outcome.checksumExit ∨
        (restore canCreate A buffer0).1 = Outcome.openExit →
      restore canCreate A buffer0
        = restoreLoop canCreate A (A.length - 1024) ((A.length - 1024 + 511) / 512)
            { pos := 0, eof := false, buffer := buffer0, ops := [] }) ∧
    (∀ st : RState, st.eof = false → st.pos < A.length - 1024 → st.pos % 512 = 0 →
      (∀ n, restoreLoop canCreate A (A.length - 1024) (n + 1) st
          = (Outcome.checksumExit, st)) ∨
      (∀ n, restoreLoop canCreate A (A.length - 1024) (n + 1) st
          = (Outcome.openExit, st)) ∨
      ∃ st', (∀ n, restoreLoop canCreate A (A.length - 1024) (n + 1) st
          = restoreLoop canCreate A (A.length - 1024) n st') ∧
        st.pos + 512 ≤ st'.pos) := by
  obtain ⟨f1, f2⟩ := restoreLoop_fuel canCreate A (A.length - 1024)
    ((A.length - 1024 + 511) / 512 + 1)
    { pos := 0, eof := false, buffer := buffer0, ops := [] }
    (by show (A.length - 1024 - 0 + 511) / 512 < _; omega)
  have hrun : restore canCreate A buffer0
      = restoreLoop canCreate A (A.length - 1024) ((A.length - 1024 + 511) / 512 + 1)
          { pos := 0, eof := false, buffer := buffer0, ops := [] } :=
    f2 (A.length + 1) (by omega)
  have hdef := restoreLoop_defined canCreate A (A.length - 1024) (Nat.sub_le _ _) hsize
    ((A.length - 1024 + 511) / 512 + 1)
    { pos := 0, eof := false, buffer := buffer0, ops := [] } (Or.inl rfl)
  refine ⟨hrun, ?_, ?_, ?_⟩
  · rw [hrun]
    cases h : (restoreLoop canCreate A (A.length - 1024) ((A.length - 1024 + 511) / 512 + 1)
      { pos := 0, eof := false, buffer := buffer0, ops := [] }).1 with
    | returned1 => exact Or.inl rfl
    | loopLeft => exact Or.inr (Or.inl rfl)
    | checksumExit => exact Or.inr (Or.inr (Or.inl rfl))
    | openExit => exact Or.inr (Or.inr (Or.inr rfl))
    | undefinedBehaviour => exact absurd h hdef
    | outOfFuel => exact absurd h f1
  · rw [hrun]
    intro h
    refine (restoreLoop_abort_fuel canCreate A (A.length - 1024) _
      { pos := 0, eof := false, buffer := buffer0, ops := [] }
      (by show (A.length - 1024 - 0 + 511) / 512 ≤ _; omega) ?_ ?_).symm
    · rcases h with h | h <;> rw [h] <;> intro h' <;> cases h'
    · rcases h with h | h <;> rw [h] <;> intro h' <;> cases h'
  · intro st heof hpos hal
    rcases restoreLoop_step canCreate A (A.length - 1024) st heof hpos with h | h | h | h
    · exact Or.inl h
    · exact Or.inr (Or.inl h)
    · obtain ⟨P, st', hparse, hty, hneg, _⟩ := h
      have h0 := hsize st.pos P hpos hal hparse hty
      omega
    · obtain ⟨st', hstep, hadv, _⟩ := h
      exact Or.inr (Or.inr ⟨st', hstep, hadv⟩)

theorem exFileArchive_length : exFileArchive.length = 2048 := by
  unfold exFileArchive
  rw [List.length_append, List.length_append, headerOf_length, List.length_replicate]
  rfl

theorem exFileArchive_parse :
    parseHeader exFileArchive 0 = some (headerWith exGlobals exFile (List.replicate 8 32)) :=
  parseHeader_backup _ 0 exGlobals exFile _ (List.drop_zero _) (by decide)

theorem exFileArchive_parse_data : parseHeader exFileArchive 512 = none := by decide!

theorem exFileArchive_sizes (i : Nat) (P : List Nat) (hi : i < exFileArchive.length - 1024)
    (hal : i % 512 = 0) (hp : parseHeader exFileArchive i = some P)
    (_ : P.getD offType 0 ≠ 53) : 0 ≤ strtol (P.drop offSize) := by
  rw [exFileArchive_length] at hi
  have hcases : i = 0 ∨ i = 512 := by omega
  rcases hcases with h | h
  · subst h
    rw [exFileArchive_parse] at hp
    cases hp
    decide!
  · subst h
    rw [exFileArchive_parse_data] at hp
    cases hp

/-- C22 at the archive of the file `d/a.txt` alone, of 2048 bytes: the run is over
within three evaluations of the loop test. -/
theorem C22_restore_terminates_witness :
    (∀ (i : Nat) (P : List Nat), i < exFileArchive.length - 1024 → i % 512 = 0 →
      parseHeader exFileArchive i = some P → P.getD offType 0 ≠ 53 →
      0 ≤ strtol (P.drop offSize)) ∧
    restore (fun _ => true) exFileArchive []
      = restoreLoop (fun _ => true) exFileArchive (exFileArchive.length - 1024)
          ((exFileArchive.length - 1024 + 511) / 512 + 1)
          { pos := 0, eof := false, buffer := [], ops := [] } :=
  ⟨exFileArchive_sizes,
   (C22_restore_terminates (fun _ => true) exFileArchive [] exFileArchive_sizes).1⟩

end Archiver
